import Mathlib

/-!
# figma-to-html: asset pipeline

A shallow embedding of the image-asset pipeline of the server:

* `server/utils/assetDownloader.js`: `extractImageNodes`, `downloadAssets`
  (with its inner `fetchImages`);
* `server/controllers/convertController.js`: the handler `convertFigma` with
  its URL parsing, its closures `injectLocalPaths` and `fetchAndCheckImage`,
  the whole-frame scale negotiation and the prompt assembly, and the
  extraction of the code block from the model response, shared by the three
  handlers.

JavaScript objects are records with optional fields (`none` = the field is
absent), in-place mutation is modelled by returning the updated value, and
every effect (network request, timer, filesystem call) is an entry of an
explicit trace, its outcome being read from an explicit environment.
-/

namespace FigmaToHtml

/-! ## Data model -/

/-- One entry of `node.fills`. Only `type` and `visible` are read by the code;
`visible = none` is a paint without a `visible` field. -/
structure Fill where
  type : String
  visible : Option Bool
deriving DecidableEq, Repr

/-- The object `{ id: node.id, name: node.name }` pushed by `extractImageNodes`. -/
structure ImageRef where
  id : String
  name : String
deriving DecidableEq, Repr

/-- A node of the document tree. `fills` and `children` are optional fields;
`localSrc` and `AI_INSTRUCTION` are the two fields `injectLocalPaths` writes
(absent on a tree that comes from the API). -/
inductive Node where
  | mk (id name : String) (fills : Option (List Fill)) (children : Option (List Node))
      (localSrc AI_INSTRUCTION : Option String)
deriving Repr

namespace Node

def id : Node → String
  | .mk i _ _ _ _ _ => i

def name : Node → String
  | .mk _ n _ _ _ _ => n

def fills : Node → Option (List Fill)
  | .mk _ _ f _ _ _ => f

def children : Node → Option (List Node)
  | .mk _ _ _ c _ _ => c

def localSrc : Node → Option String
  | .mk _ _ _ _ l _ => l

def AI_INSTRUCTION : Node → Option String
  | .mk _ _ _ _ _ a => a

end Node

/-! ## `extractImageNodes` (assetDownloader.js, lines 11-31) -/

/-- The callback of `node.fills.some(...)`:
`fill.type === 'IMAGE' && fill.visible !== false`. -/
def isVisibleImageFill (fill : Fill) : Bool :=
  fill.type == "IMAGE" && fill.visible != some false

mutual
/-- Body of `extractImageNodes` for a present node: `images` is the
accumulator array, returned after the pushes of this call. -/
def extractImageNodes.node : Node → List ImageRef → List ImageRef
  | .mk id name fills children _ _, images =>
    let images :=
      match fills with
      | some fs =>
        let hasImage := fs.any isVisibleImageFill
        if hasImage then images ++ [{ id := id, name := name }] else images
      | none => images
    extractImageNodes.optChildren children images
/-- The guard `node.children && Array.isArray(node.children)`. -/
def extractImageNodes.optChildren : Option (List Node) → List ImageRef → List ImageRef
  | none, images => images
  | some cs, images => extractImageNodes.forEach cs images
/-- The loop `node.children.forEach(child => extractImageNodes(child, images))`. -/
def extractImageNodes.forEach : List Node → List ImageRef → List ImageRef
  | [], images => images
  | child :: rest, images =>
    extractImageNodes.forEach rest (extractImageNodes.node child images)
end

/-- The function `extractImageNodes(node, images = [])`; `none` is a `null` or
`undefined` tree (`if (!node) return images`). -/
def extractImageNodes (node : Option Node) (images : List ImageRef := []) : List ImageRef :=
  match node with
  | none => images
  | some n => extractImageNodes.node n images

/-! ### Specification side of the asset locator -/

mutual
/-- Pre-order listing of a tree: the node, then the listings of its children
in child-sequence order. -/
def preorder : Node → List Node
  | .mk id name fills children l a =>
    .mk id name fills children l a :: preorderOpt children
/-- Pre-order listing of an optional child sequence. -/
def preorderOpt : Option (List Node) → List Node
  | none => []
  | some cs => preorderList cs
/-- Pre-order listing of a sequence of sibling trees. -/
def preorderList : List Node → List Node
  | [] => []
  | c :: cs => preorder c ++ preorderList cs
end

/-- A fill is visible unless its `visible` field is `false`. -/
def Fill.isVisible (f : Fill) : Prop := f.visible ≠ some false

/-- The node has at least one visible fill of type IMAGE. -/
def HasVisibleImageFill (n : Node) : Prop :=
  ∃ fs, n.fills = some fs ∧ ∃ f ∈ fs, f.type = "IMAGE" ∧ f.isVisible

instance (f : Fill) : Decidable f.isVisible := by
  unfold Fill.isVisible; infer_instance

instance (n : Node) : Decidable (HasVisibleImageFill n) :=
  match h : n.fills with
  | none => isFalse (by rintro ⟨fs, hfs, _⟩; rw [h] at hfs; cases hfs)
  | some fs =>
    if h2 : ∃ f ∈ fs, f.type = "IMAGE" ∧ f.isVisible then
      isTrue ⟨fs, h, h2⟩
    else
      isFalse (by
        rintro ⟨fs2, hfs, h3⟩
        rw [h] at hfs
        cases hfs
        exact h2 h3)

/-- The `{id, name}` pair of a node. -/
def Node.toRef (n : Node) : ImageRef := { id := n.id, name := n.name }

/-- The listing the specification asks of the asset locator. -/
def imageNodesSpec (t : Node) : List ImageRef :=
  ((preorder t).filter (fun n => decide (HasVisibleImageFill n))).map Node.toRef

/-! ## Strings and paths -/

/-- The global replacement `s.replace(/:/g, '-')`. -/
def replaceColons (s : String) : String :=
  (s.data.map (fun c => if c = ':' then '-' else c)).asString

/-- What `/[^a-z0-9]/gi` followed by `'_'` makes of one character: a character
outside `A-Z`, `a-z`, `0-9` becomes `_`, once per UTF-16 code unit (a
character beyond the basic plane is two code units). -/
def sanitizeChar (c : Char) : List Char :=
  if c.isAlphanum then [c] else if c.val ≥ 0x10000 then ['_', '_'] else ['_']

/-- The folder-name transform
`customFolderName.replace(/[^a-z0-9]/gi, '_').toLowerCase()`. -/
def sanitizeFolderName (customFolderName : String) : String :=
  (((customFolderName.data.map sanitizeChar).flatten).map Char.toLower).asString

/-- Splits a character sequence at every `/`. -/
def splitSlash : List Char → List (List Char)
  | [] => [[]]
  | c :: cs =>
    if c = '/' then [] :: splitSlash cs
    else
      match splitSlash cs with
      | seg :: rest => (c :: seg) :: rest
      | [] => [[c]]

/-- The segment loop of `path.normalize` (POSIX): empty and `.` segments are
dropped, `..` removes the segment before it; `res` is the reversed result. -/
def path.normalizeSegments (allowAboveRoot : Bool) : List String → List String → List String
  | [], res => res.reverse
  | seg :: rest, res =>
    if seg = "" ∨ seg = "." then path.normalizeSegments allowAboveRoot rest res
    else if seg = ".." then
      match res with
      | last :: res' =>
        if last ≠ ".." then path.normalizeSegments allowAboveRoot rest res'
        else path.normalizeSegments allowAboveRoot rest
          (if allowAboveRoot then ".." :: res else res)
      | [] => path.normalizeSegments allowAboveRoot rest (if allowAboveRoot then [".."] else [])
    else path.normalizeSegments allowAboveRoot rest (seg :: res)

/-- POSIX `path.normalize`. -/
def path.normalize (p : String) : String :=
  if p = "" then "."
  else
    let isAbsolute := p.data.head? = some '/'
    let trailingSeparator := p.data.getLast? = some '/'
    let segs := path.normalizeSegments (!isAbsolute) ((splitSlash p.data).map List.asString) []
    let body := "/".intercalate segs
    let body := if body = "" ∧ ¬ isAbsolute then "." else body
    let body := if body ≠ "" ∧ trailingSeparator then body ++ "/" else body
    if isAbsolute then "/" ++ body else body

/-- POSIX `path.join`: the non-empty arguments joined by `/`, normalized. -/
def path.join (args : List String) : String :=
  match args.filter (fun a => a ≠ "") with
  | [] => "."
  | parts => path.normalize ("/".intercalate parts)

/-! ## Effects -/

/-- A binary payload (`arraybuffer`), one number per byte. -/
abbrev Bytes := List Nat

/-- A thrown value or rejected promise, as far as the code inspects it:
`http s` is an axios error with `err.response.status = s`, `transport` an
axios error without response (network error, timeout), `thrown` any other
exception (a `TypeError`, a filesystem error, `new Error(...)`). -/
inductive Failure where
  | http (status : Nat)
  | transport
  | thrown (message : String)
deriving DecidableEq, Repr

/-- The value of `err.response.status` when `err.response` is present. -/
def Failure.status : Failure → Option Nat
  | .http s => some s
  | _ => none

deriving instance DecidableEq for Except

/-- A `scale` parameter `num / den` of the images endpoint. -/
structure Scale where
  num : Nat
  den : Nat
deriving DecidableEq, Repr

/-- Scale `2`. -/
def Scale.two : Scale := ⟨2, 1⟩
/-- Scale `1`. -/
def Scale.one : Scale := ⟨1, 1⟩
/-- Scale `0.5`. -/
def Scale.half : Scale := ⟨1, 2⟩

/-- The observable effects of the asynchronous code, in program order. -/
inductive Event where
  /-- `axios.get('https://api.figma.com/v1/images/' + fileKey, ...)`. -/
  | imagesRequest (fileKey figmaToken ids : String) (scale : Scale)
  /-- `axios.get(url, { responseType: 'arraybuffer' })`. -/
  | download (url : String)
  /-- `setTimeout` for `ms` milliseconds. -/
  | wait (ms : Int)
  | existsSync (dir : String)
  | mkdirSync (dir : String)
  | writeFileSync (file : String)
deriving DecidableEq, Repr

/-- The scales of the images requests of a trace, in order. -/
def requestedScales : List Event → List Scale
  | [] => []
  | .imagesRequest _ _ _ s :: rest => s :: requestedScales rest
  | _ :: rest => requestedScales rest

/-- The body `response.data` of the images endpoint: `images` is the mapping
identity → URL in `Object.entries` order, `none` when the field is absent;
a URL is `none` when the API answers `null` for the identity. -/
structure ImagesResponse where
  images : Option (List (String × Option String))
deriving DecidableEq, Repr

/-- The upstream as `downloadAssets` sees it. -/
structure Upstream where
  /-- Outcome of the `n`-th batch URL-resolution request (0-based). -/
  images : Nat → Except Failure ImagesResponse
  /-- Outcome of the byte fetch of `url` issued for identity `id`. -/
  download : (id url : String) → Except Failure Bytes

/-- The local filesystem: `true` is a call that succeeds (for `existsSync`, a
directory that exists), `false` a call that throws. -/
structure FileSystem where
  /-- The directory of `assetDownloader.js`. -/
  dirname : String
  existsSync : String → Bool
  mkdirSync : String → Bool
  writeFileSync : String → Bool

/-- The object `imageMap`: identity → local path, in insertion order. -/
abbrev AssetMap := List (String × String)

/-- The assignment `imageMap[id] = path`. -/
def AssetMap.set (m : AssetMap) (id path : String) : AssetMap :=
  if m.any (fun e => e.1 == id) then m.map (fun e => if e.1 == id then (id, path) else e)
  else m ++ [(id, path)]

/-- The keys of the map. -/
def AssetMap.keys (m : AssetMap) : List String := m.map Prod.fst

/-! ## `downloadAssets` (assetDownloader.js, lines 41-127) -/

/-- The inner function `fetchImages(retries = 3)`. `attempt` counts the
requests already issued and `tr` is the trace so far. -/
def fetchImages (up : Upstream) (fileKey figmaToken ids : String) :
    (retries : Nat) → (attempt : Nat) → (tr : List Event) →
      Except Failure ImagesResponse × List Event
  | retries, attempt, tr =>
    let tr := tr ++ [.imagesRequest fileKey figmaToken ids Scale.two]
    match up.images attempt with
    | .ok response => (.ok response, tr)
    | .error err =>
      match retries with
      | r + 1 =>
        if err.status = some 429 then
          let waitTime : Int := (4 - ((r + 1 : Nat) : Int)) * 10000
          fetchImages up fileKey figmaToken ids r (attempt + 1) (tr ++ [.wait waitTime])
        else (.error err, tr)
      | 0 => (.error err, tr)

/-- The requests of step 3: `Object.entries(urls).map(async ...)` runs every
callback up to its first `await`, so the byte fetches of the entries with a
truthy URL are issued in entry order. -/
def downloadAssets.issue : List (String × Option String) → List Event
  | [] => []
  | (_, none) :: rest => downloadAssets.issue rest
  | (_, some url) :: rest =>
    if url = "" then downloadAssets.issue rest
    else .download url :: downloadAssets.issue rest

/-- The continuations of step 3 after the byte fetches have settled, taken in
entry order: a failed fetch or a failed write is caught and leaves the map as
it is. -/
def downloadAssets.settle (up : Upstream) (fs : FileSystem) (assetsDir safeFolderName : String) :
    List (String × Option String) → AssetMap → List Event → AssetMap × List Event
  | [], imageMap, tr => (imageMap, tr)
  | (_, none) :: rest, imageMap, tr =>
    downloadAssets.settle up fs assetsDir safeFolderName rest imageMap tr
  | (id, some url) :: rest, imageMap, tr =>
    if url = "" then downloadAssets.settle up fs assetsDir safeFolderName rest imageMap tr
    else
      match up.download id url with
      | .error _ => downloadAssets.settle up fs assetsDir safeFolderName rest imageMap tr
      | .ok _ =>
        let safeId := replaceColons id
        let filename := safeId ++ ".png"
        let localPath := path.join [assetsDir, filename]
        let tr := tr ++ [.writeFileSync localPath]
        if fs.writeFileSync localPath then
          downloadAssets.settle up fs assetsDir safeFolderName rest
            (imageMap.set id ("/assets/images/" ++ safeFolderName ++ "/" ++ filename)) tr
        else downloadAssets.settle up fs assetsDir safeFolderName rest imageMap tr

/-- The array `nodes.map(n => n.id)` (line 45); `none` when an element of
`nodes` is `null`, on which reading `n.id` throws. -/
def downloadAssets.nodeIds : List (Option ImageRef) → Option (List String)
  | [] => some []
  | none :: _ => none
  | some n :: rest => (downloadAssets.nodeIds rest).map (fun l => n.id :: l)

/-- The constant `ids` (line 45): the identities joined by `,`. -/
def downloadAssets.ids (idList : List String) : String := ",".intercalate idList

/-- The constant `safeFolderName` (lines 84-86): the sanitized label when a
truthy label is given, the file key otherwise. -/
def downloadAssets.safeFolderName (fileKey : String) (customFolderName : Option String) : String :=
  match customFolderName with
  | some name => if name ≠ "" then sanitizeFolderName name else fileKey
  | none => fileKey

/-- The constant `assetsDir` (line 88). -/
def downloadAssets.assetsDir (fs : FileSystem) (fileKey : String)
    (customFolderName : Option String) : String :=
  path.join [fs.dirname, "../../client/public/assets/images",
    downloadAssets.safeFolderName fileKey customFolderName]

/-- Step 2 (lines 90-92): `existsSync`, then `mkdirSync` when the directory is
missing; a `mkdirSync` that throws leaves the `try` block. -/
def downloadAssets.prepare (fs : FileSystem) (assetsDir : String) :
    Except Failure Unit × List Event :=
  if fs.existsSync assetsDir then (.ok (), [.existsSync assetsDir])
  else if fs.mkdirSync assetsDir then (.ok (), [.existsSync assetsDir, .mkdirSync assetsDir])
  else (.error (.thrown "mkdirSync"), [.existsSync assetsDir, .mkdirSync assetsDir])

/-- The `try` block of `downloadAssets`. -/
def downloadAssets.body (up : Upstream) (fs : FileSystem) (fileKey ids figmaToken : String)
    (customFolderName : Option String) : Except Failure AssetMap × List Event :=
  match fetchImages up fileKey figmaToken ids 3 0 [] with
  | (.error err, tr) => (.error err, tr)
  | (.ok response, tr) =>
    match response.images with
    | none => (.ok [], tr)
    | some urls =>
      let safeFolderName := downloadAssets.safeFolderName fileKey customFolderName
      let assetsDir := downloadAssets.assetsDir fs fileKey customFolderName
      match downloadAssets.prepare fs assetsDir with
      | (.error err, evs) => (.error err, tr ++ evs)
      | (.ok (), evs) =>
        let (imageMap, tr) :=
          downloadAssets.settle up fs assetsDir safeFolderName urls []
            (tr ++ evs ++ downloadAssets.issue urls)
        (.ok imageMap, tr)

/-- The function `downloadAssets(fileKey, nodes, figmaToken, customFolderName = null)`.
`nodes = none` is an absent list and a `none` element a `null` entry, on which
`nodes.map(n => n.id)` throws before the `try` block is entered. The result is
the settled promise (`.error` = rejected) and the trace of effects. -/
def downloadAssets (up : Upstream) (fs : FileSystem) (fileKey : String)
    (nodes : Option (List (Option ImageRef))) (figmaToken : String)
    (customFolderName : Option String := none) : Except Failure AssetMap × List Event :=
  match nodes with
  | none => (.ok [], [])
  | some [] => (.ok [], [])
  | some (n :: ns) =>
    match downloadAssets.nodeIds (n :: ns) with
    | none => (.error (.thrown "TypeError"), [])
    | some idList =>
      let ids := downloadAssets.ids idList
      match downloadAssets.body up fs fileKey ids figmaToken customFolderName with
      | (.ok imageMap, tr) => (.ok imageMap, tr)
      | (.error _, tr) => (.ok [], tr)

/-! ## `convertFigma`: annotation of the tree (convertController.js, lines 275-288) -/

/-- The value of `imageMap[node.id]` when it is truthy: an own entry whose
path is not the empty string. Node identities are identifiers of the design
API, never the name of a member inherited from `Object.prototype`. -/
def truthyPath (imageMap : AssetMap) (id : String) : Option String :=
  match imageMap.lookup id with
  | some p => if p = "" then none else some p
  | none => none

mutual
/-- The closure `injectLocalPaths(node)` for a present node; the mutated node
is returned. -/
def injectLocalPaths (imageMap : AssetMap) : Node → Node
  | .mk id name fills children localSrc instruction =>
    match truthyPath imageMap id with
    | some p =>
      .mk id name fills (injectLocalPaths.optChildren imageMap children)
        (some p) (some ("USE THIS IMAGE SOURCE: " ++ p))
    | none =>
      .mk id name fills (injectLocalPaths.optChildren imageMap children) localSrc instruction
/-- The guard `if (node.children)`. -/
def injectLocalPaths.optChildren (imageMap : AssetMap) : Option (List Node) → Option (List Node)
  | none => none
  | some cs => some (injectLocalPaths.forEach imageMap cs)
/-- The loop `node.children.forEach(injectLocalPaths)`. -/
def injectLocalPaths.forEach (imageMap : AssetMap) : List Node → List Node
  | [] => []
  | c :: cs => injectLocalPaths imageMap c :: injectLocalPaths.forEach imageMap cs
end

/-- A node without its children: the fields of the node itself. -/
structure NodeFields where
  id : String
  name : String
  fills : Option (List Fill)
  localSrc : Option String
  AI_INSTRUCTION : Option String
deriving DecidableEq, Repr

/-- The fields of a node. -/
def Node.fields (n : Node) : NodeFields :=
  { id := n.id, name := n.name, fills := n.fills, localSrc := n.localSrc,
    AI_INSTRUCTION := n.AI_INSTRUCTION }

mutual
/-- The tree with the two annotation fields removed from every node: its
shape, identities, names and fills. -/
def Node.shape : Node → Node
  | .mk id name fills children _ _ => .mk id name fills (Node.shapeOpt children) none none
/-- Shape of an optional child sequence. -/
def Node.shapeOpt : Option (List Node) → Option (List Node)
  | none => none
  | some cs => some (Node.shapeList cs)
/-- Shape of a sequence of sibling trees. -/
def Node.shapeList : List Node → List Node
  | [] => []
  | c :: cs => Node.shape c :: Node.shapeList cs
end

/-- What the annotator is asked to do to the fields of one node. -/
def annotateFields (imageMap : AssetMap) (d : NodeFields) : NodeFields :=
  match imageMap.lookup d.id with
  | some p => { d with localSrc := some p, AI_INSTRUCTION := some ("USE THIS IMAGE SOURCE: " ++ p) }
  | none => d

/-- Every path of the map is a non-empty string. -/
def AssetMap.PathsNonEmpty (m : AssetMap) : Prop := ∀ e ∈ m, e.2 ≠ ""

instance (m : AssetMap) : Decidable m.PathsNonEmpty := by
  unfold AssetMap.PathsNonEmpty; infer_instance

/-! ## `convertFigma`: the whole-frame fetch (convertController.js, lines 359-419) -/

/-- The upstream as the whole-frame fetch sees it; `n` counts the executions
of the body of `fetchAndCheckImage` (0-based). -/
structure FrameUpstream where
  /-- Outcome of the images request of execution `n`, made at `scale`. -/
  images : (n : Nat) → (scale : Scale) → Except Failure ImagesResponse
  /-- Outcome of the byte fetch of `url` in execution `n`. -/
  download : (n : Nat) → (url : String) → Except Failure Bytes

/-- The object `{ buffer, size }` returned by `fetchAndCheckImage`. -/
structure FetchResult where
  buffer : Bytes
  size : Nat
deriving DecidableEq, Repr

/-- The `try` block of `fetchAndCheckImage`, in execution `n`: its outcome
and the requests it makes. -/
def fetchAndCheckImage.attempt (up : FrameUpstream) (fileKey figmaToken nodeId : String)
    (scale : Scale) (n : Nat) : Except Failure FetchResult × List Event :=
  let request := Event.imagesRequest fileKey figmaToken nodeId scale
  match up.images n scale with
  | .error err => (.error err, [request])
  | .ok imgResp =>
    match imgResp.images with
    | none => (.error (.thrown "TypeError"), [request])
    | some images =>
      let imgUrl := (images.lookup nodeId).join
      match imgUrl with
      | none => (.error (.thrown "Could not generate image from Figma node."), [request])
      | some url =>
        if url = "" then
          (.error (.thrown "Could not generate image from Figma node."), [request])
        else
          match up.download n url with
          | .error err => (.error err, [request, .download url])
          | .ok data => (.ok { buffer := data, size := data.length }, [request, .download url])

/-- The closure `fetchAndCheckImage(scale, retries = 10)`; `n` counts the
executions of its body so far and `tr` is the trace so far. -/
def fetchAndCheckImage (up : FrameUpstream) (fileKey figmaToken nodeId : String) (scale : Scale) :
    (retries : Nat) → (n : Nat) → (tr : List Event) →
      Except Failure FetchResult × Nat × List Event
  | retries, n, tr =>
    match fetchAndCheckImage.attempt up fileKey figmaToken nodeId scale n with
    | (.ok result, evs) => (.ok result, n + 1, tr ++ evs)
    | (.error error, evs) =>
      match retries with
      | r + 1 =>
        if error.status = some 429 then
          let attempt : Int := 11 - ((r + 1 : Nat) : Int)
          let waitTime : Int := min (attempt * 10000) 60000
          fetchAndCheckImage up fileKey figmaToken nodeId scale r (n + 1)
            (tr ++ evs ++ [.wait waitTime])
        else (.error error, n + 1, tr ++ evs)
      | 0 => (.error error, n + 1, tr ++ evs)

/-- The size ceiling `3 * 1024 * 1024`. -/
def sizeLimit : Nat := 3 * 1024 * 1024

/-- Step 3 of `convertFigma` (lines 393-419): the scale negotiation. The
result is `imageBuffer`, or the failure answered with status 500. -/
def convertFigma.downloadImage (up : FrameUpstream) (fileKey figmaToken nodeId : String) :
    Except Failure Bytes × List Event :=
  match fetchAndCheckImage up fileKey figmaToken nodeId Scale.two 10 0 [] with
  | (.error imgError, _, tr) => (.error imgError, tr)
  | (.ok result, n, tr) =>
    let second : Except Failure FetchResult × Nat × List Event :=
      if result.size > sizeLimit then
        fetchAndCheckImage up fileKey figmaToken nodeId Scale.one 10 n (tr ++ [.wait 1000])
      else (.ok result, n, tr)
    match second with
    | (.error imgError, _, tr) => (.error imgError, tr)
    | (.ok result, n, tr) =>
      let third : Except Failure FetchResult × Nat × List Event :=
        if result.size > sizeLimit then
          fetchAndCheckImage up fileKey figmaToken nodeId Scale.half 10 n (tr ++ [.wait 1000])
        else (.ok result, n, tr)
      match third with
      | (.error imgError, _, tr) => (.error imgError, tr)
      | (.ok result, _, tr) => (.ok result.buffer, tr)

/-! ## Specification side of the retry policies -/

/-- Rate-limited attempts number `start`, `start + 1`, ... (`k` of them): each
is the request followed by the wait `schedule` gives for its number. -/
def retrySegment (request : Event) (schedule : Nat → Int) : (start k : Nat) → List Event
  | _, 0 => []
  | start, k + 1 =>
    request :: .wait (schedule start) :: retrySegment request schedule (start + 1) k

/-- The trace of a request answered `k` times in a row with a rate-limit
signal and issued once more: request, wait of attempt 1, request, wait of
attempt 2, ..., request. -/
def retryTrace (request : Event) (schedule : Nat → Int) (k : Nat) : List Event :=
  retrySegment request schedule 1 k ++ [request]

/-- Linear backoff of the batch resolution: attempt `k` waits `k * 10 s`. -/
def batchBackoff (k : Nat) : Int := (k : Int) * 10000

/-- Linear backoff of the whole-frame fetch: attempt `k` waits
`min (k * 10 s) 60 s`. -/
def frameBackoff (k : Nat) : Int := min ((k : Int) * 10000) 60000

/-- The byte fetches of a trace. -/
def Event.isDownload : Event → Bool
  | .download _ => true
  | _ => false

/-! ## Specification side of `downloadAssets` -/

/-- The entry `(id, url)` of the response leads to a recorded path: the URL
is truthy, its byte fetch succeeds and the file is written. -/
def Recorded (up : Upstream) (fs : FileSystem) (assetsDir : String)
    (urls : List (String × Option String)) (x : String) : Prop :=
  ∃ url, (x, some url) ∈ urls ∧ url ≠ "" ∧ (∃ data, up.download x url = .ok data) ∧
    fs.writeFileSync (path.join [assetsDir, replaceColons x ++ ".png"]) = true

/-- The byte fetch issued for an entry of the response succeeds: the entry
carries a non-empty URL and the fetch of that URL returns a payload. -/
def Fetched (up : Upstream) (urls : List (String × Option String)) (x : String) : Prop :=
  ∃ url, (x, some url) ∈ urls ∧ url ≠ "" ∧ ∃ data, up.download x url = .ok data

/-! ## Sample environments -/

/-- An upstream that answers the batch resolution with three targets, one of
them without URL, and serves both URLs. -/
def sampleUpstream : Upstream where
  images := fun _ =>
    .ok { images := some [("1:2", some "https://cdn/a"), ("1:3", none), ("1:4", some "https://cdn/b")] }
  download := fun _ _ => .ok [137, 80, 78, 71]

/-- A filesystem on which every call succeeds and no directory exists yet. -/
def sampleFileSystem : FileSystem where
  dirname := "/app/server/utils"
  existsSync := fun _ => false
  mkdirSync := fun _ => true
  writeFileSync := fun _ => true

/-- The three targets of the sample batch. -/
def sampleNodes : List ImageRef :=
  [{ id := "1:2", name := "hero" }, { id := "1:3", name := "logo" }, { id := "1:4", name := "photo" }]

/-- An upstream whose batch resolution always answers HTTP 500. -/
def serverErrorUpstream : Upstream where
  images := fun _ => .error (.http 500)
  download := fun _ _ => .error .transport

/-- An upstream whose batch resolution times out (no response). -/
def timeoutUpstream : Upstream where
  images := fun _ => .error .transport
  download := fun _ _ => .error .transport

/-- An upstream whose batch resolution answers HTTP 429 three times, then
succeeds with an empty mapping. -/
def rateLimitedUpstream : Upstream where
  images := fun n => if n < 3 then .error (.http 429) else .ok { images := some [] }
  download := fun _ _ => .error .transport

/-- An upstream whose batch resolution always answers HTTP 429. -/
def alwaysRateLimited : Upstream where
  images := fun _ => .error (.http 429)
  download := fun _ _ => .error .transport

/-- A filesystem on which the destination directory is missing and cannot be
created. -/
def readOnlyFileSystem : FileSystem where
  dirname := "/app/server/utils"
  existsSync := fun _ => false
  mkdirSync := fun _ => false
  writeFileSync := fun _ => false

/-- An upstream whose batch resolution succeeds with a body that carries no
`images` mapping. -/
def noImagesUpstream : Upstream where
  images := fun _ => .ok { images := none }
  download := fun _ _ => .error .transport

/-- A frame upstream that answers every images request with HTTP 429. -/
def rateLimitedFrameUpstream : FrameUpstream where
  images := fun _ _ => .error (.http 429)
  download := fun _ _ => .error .transport

/-- A payload of 4 MiB. -/
def fourMiB : Bytes := List.replicate (4 * 1024 * 1024) 0

/-- A frame upstream that renders node `9:9` as a 4 MiB payload at every
scale. -/
def oversizedFrameUpstream : FrameUpstream where
  images := fun _ _ => .ok { images := some [("9:9", some "https://cdn/frame")] }
  download := fun _ _ => .ok fourMiB

/-- A frame with an image-bearing child and a plain child. -/
def sampleTree : Node :=
  .mk "0:1" "Hero Section" (some [{ type := "SOLID", visible := none }])
    (some [.mk "1:2" "hero" (some [{ type := "IMAGE", visible := some true }]) none none none,
      .mk "1:3" "title" none (some []) none none])
    none none

/-- The asset map of a run that downloaded the image of node `1:2`. -/
def sampleMap : AssetMap := [("1:2", "/assets/images/hero_section/1-2.png")]

/-! ## File names and paths of `downloadAssets` -/

/-- The constant `filename` (lines 102-103): the identity with every `:`
replaced by `-`, followed by `.png`. -/
def downloadAssets.filename (id : String) : String := replaceColons id ++ ".png"

/-- The constant `localPath` (line 104). -/
def downloadAssets.localPath (assetsDir id : String) : String :=
  path.join [assetsDir, downloadAssets.filename id]

/-- The value stored under `imageMap[id]` (line 111). -/
def downloadAssets.publicPath (safeFolderName id : String) : String :=
  "/assets/images/" ++ safeFolderName ++ "/" ++ downloadAssets.filename id

/-- Whether a path starts with `/`. -/
def path.isAbsolute (p : String) : Bool := p.data.head? = some '/'

/-- The segments of a normalized path. -/
def path.segments (p : String) : List String :=
  path.normalizeSegments (!path.isAbsolute p) ((splitSlash p.data).map List.asString) []

/-- The normalized directory `dir` as the text that precedes the name of an
entry placed directly in it: its root `/` when it is absolute, then its
segments, each followed by `/`. -/
def path.directoryPrefix (dir : String) : String :=
  (if path.isAbsolute dir then "/" else "") ++
    (if path.segments dir = [] then "" else "/".intercalate (path.segments dir) ++ "/")

/-! ## UTF-16 view of strings -/

/-- The UTF-16 code units of a character: one unit in the basic plane, a
surrogate pair beyond it. -/
def utf16Units (c : Char) : List Nat :=
  if c.toNat < 0x10000 then [c.toNat]
  else [0xD800 + (c.toNat - 0x10000) / 0x400, 0xDC00 + (c.toNat - 0x10000) % 0x400]

/-- The UTF-16 code units of a string, the elements JavaScript indexes. -/
def utf16 (s : String) : List Nat := (s.data.map utf16Units).flatten

/-- The JavaScript `length` of a string. -/
def jsLength (s : String) : Nat := (utf16 s).length

/-- Code units of `A-Z`, `a-z`, `0-9`. -/
def isAlnumUnit (u : Nat) : Bool :=
  (48 ≤ u ∧ u ≤ 57) ∨ (65 ≤ u ∧ u ≤ 90) ∨ (97 ≤ u ∧ u ≤ 122)

/-- Code units of `a-z`, `0-9` and `_`. -/
def isFolderUnit (u : Nat) : Bool :=
  (48 ≤ u ∧ u ≤ 57) ∨ (97 ≤ u ∧ u ≤ 122) ∨ u = 95

/-- What the specification asks of one code unit of the label: a unit
outside `A-Z`, `a-z`, `0-9` becomes `_` (95), a letter is lower-cased. -/
def sanitizeUnit (u : Nat) : Nat :=
  if isAlnumUnit u then (if 65 ≤ u ∧ u ≤ 90 then u + 32 else u) else 95

/-- An upstream whose batch resolution answers with an identity that contains
a path separator. -/
def separatorUpstream : Upstream where
  images := fun _ => .ok { images := some [("a/b", some "https://cdn/a")] }
  download := fun _ _ => .ok [137, 80, 78, 71]

/-- An upstream whose batch resolution answers with two identities that differ
only in `:` versus `-`. -/
def collidingUpstream : Upstream where
  images := fun _ =>
    .ok { images := some [("1:2", some "https://cdn/a"), ("1-2", some "https://cdn/b")] }
  download := fun _ _ => .ok [137, 80, 78, 71]

/-! ## `extractImageNodes` as a transition of the heap -/

mutual
/-- The call `extractImageNodes(node, images)` with the tree as part of the
state: the node as the call leaves it, and the accumulator. The call reads
`node.fills`, `node.id`, `node.name` and `node.children`, and assigns to no
field. -/
def extractImageNodes.runNode : Node → List ImageRef → Node × List ImageRef
  | .mk id name fills children localSrc instruction, images =>
    let images :=
      match fills with
      | some fs =>
        let hasImage := fs.any isVisibleImageFill
        if hasImage then images ++ [{ id := id, name := name }] else images
      | none => images
    let r := extractImageNodes.runOpt children images
    (.mk id name fills r.1 localSrc instruction, r.2)
/-- The guard on `node.children`, with the children as the loop leaves them. -/
def extractImageNodes.runOpt :
    Option (List Node) → List ImageRef → Option (List Node) × List ImageRef
  | none, images => (none, images)
  | some cs, images =>
    let r := extractImageNodes.runList cs images
    (some r.1, r.2)
/-- The loop over the children, with each child as its call leaves it. -/
def extractImageNodes.runList : List Node → List ImageRef → List Node × List ImageRef
  | [], images => ([], images)
  | child :: rest, images =>
    let r := extractImageNodes.runNode child images
    let q := extractImageNodes.runList rest r.2
    (r.1 :: q.1, q.2)
end

/-- The call `extractImageNodes(node)` with the default fresh accumulator, as
a transition of the heap. -/
def extractImageNodes.run (node : Option Node) : Option Node × List ImageRef :=
  match node with
  | none => (none, [])
  | some n =>
    let r := extractImageNodes.runNode n []
    (some r.1, r.2)

/-! ## The code block of the model response (convertController.js, lines 180-182, 459-461, 539-541) -/

/-- The opening fence of the pattern, three backticks and `html`. -/
def fenceOpen : List Char := ['`', '`', '`', 'h', 't', 'm', 'l']

/-- The closing fence of the pattern, three backticks. -/
def fenceClose : List Char := ['`', '`', '`']

/-- The first occurrence of `pat` in a text: the text before it and the text
after it; `none` when `pat` does not occur. -/
def splitAtFirst (pat : List Char) : List Char → Option (List Char × List Char)
  | [] => if pat = [] then some ([], []) else none
  | c :: cs =>
    if pat.isPrefixOf (c :: cs) then some ([], (c :: cs).drop pat.length)
    else (splitAtFirst pat cs).map (fun r => (c :: r.1, r.2))

/-- The match of the regular expression `` /```html([\s\S]*?)```/ `` on a text:
its capture group, `none` when there is no match. The leftmost start position
is taken at which the opening fence is found with a closing fence somewhere
after it, and the lazy group ends at the first closing fence. -/
def matchHtmlFence : List Char → Option (List Char)
  | [] => none
  | c :: cs =>
    if fenceOpen.isPrefixOf (c :: cs) then
      match splitAtFirst fenceClose ((c :: cs).drop fenceOpen.length) with
      | some (capture, _) => some capture
      | none => matchHtmlFence cs
    else matchHtmlFence cs

/-- White space and line terminators of JavaScript, the characters
`String.prototype.trim` removes. -/
def isJsWhitespace (c : Char) : Bool :=
  c.toNat = 0x09 ∨ c.toNat = 0x0A ∨ c.toNat = 0x0B ∨ c.toNat = 0x0C ∨ c.toNat = 0x0D ∨
    c.toNat = 0x20 ∨ c.toNat = 0xA0 ∨ c.toNat = 0x1680 ∨
    (0x2000 ≤ c.toNat ∧ c.toNat ≤ 0x200A) ∨ c.toNat = 0x2028 ∨ c.toNat = 0x2029 ∨
    c.toNat = 0x202F ∨ c.toNat = 0x205F ∨ c.toNat = 0x3000 ∨ c.toNat = 0xFEFF

/-- The method `trim()`: leading and trailing white space removed. -/
def jsTrim (s : List Char) : List Char :=
  ((s.dropWhile isJsWhitespace).reverse.dropWhile isJsWhitespace).reverse

/-- The two lines shared by `convertImage`, `convertFigma` and `refineCode`:
`codeMatch = fullText.match(...)` and
`codeMatch ? codeMatch[1].trim() : fullText`. -/
def extractHtml (fullText : String) : String :=
  match matchHtmlFence fullText.data with
  | some capture => (jsTrim capture).asString
  | none => fullText

/-- The occurrence of `pat` in `text` between `pre` and `post` is the first
one: `pat` occurs at no earlier position. -/
def IsFirstOccurrence (pat text pre post : List Char) : Prop :=
  text = pre ++ pat ++ post ∧ ∀ k < pre.length, ¬ pat <+: text.drop k

instance (pat text pre post : List Char) : Decidable (IsFirstOccurrence pat text pre post) := by
  unfold IsFirstOccurrence; infer_instance

/-! ## `convertFigma` (convertController.js, lines 198-486) -/

/-- The fields of `req.body` the handler reads; `none` is an absent field. -/
structure Body where
  url : Option String
  mode : Option String
  customCSS : Option String
deriving DecidableEq, Repr

/-- The capture group of the first match of
`/figma\.com\/(?:file|design)\/([a-zA-Z0-9]+)/`. -/
def matchFileKey : List Char → Option (List Char)
  | [] => none
  | c :: cs =>
    let keyAfter (literal : List Char) : Option (List Char) :=
      if literal.isPrefixOf (c :: cs) then
        let key := ((c :: cs).drop literal.length).takeWhile Char.isAlphanum
        if key = [] then none else some key
      else none
    match keyAfter "figma.com/file/".data with
    | some key => some key
    | none =>
      match keyAfter "figma.com/design/".data with
      | some key => some key
      | none => matchFileKey cs

/-- The capture group of the first match of `/node-id=([^&]+)/`. -/
def matchNodeId : List Char → Option (List Char)
  | [] => none
  | c :: cs =>
    if "node-id=".data.isPrefixOf (c :: cs) then
      let value := ((c :: cs).drop 8).takeWhile (fun x => x ≠ '&')
      if value = [] then matchNodeId cs else some value
    else matchNodeId cs

/-- The global replacement `.replace(/%3A/g, ':')`. -/
def decodeColons : List Char → List Char
  | '%' :: '3' :: 'A' :: rest => ':' :: decodeColons rest
  | c :: rest => c :: decodeColons rest
  | [] => []

/-- The variable `nodeId` after lines 220-224; `none` is `null`. -/
def convertFigma.nodeId (url : String) : Option String :=
  match matchNodeId url.data with
  | none => none
  | some value =>
    let nodeId := decodeColons value
    if nodeId ≠ [] ∧ ':' ∉ nodeId then
      some (nodeId.map (fun c => if c = '-' then ':' else c)).asString
    else some nodeId.asString

/-- The effects of the handler, in program order. -/
inductive Step where
  /-- `axios.get('https://api.figma.com/v1/files/' + fileKey + '/nodes', ...)`. -/
  | nodesRequest (fileKey figmaToken nodeId : String)
  /-- An effect of `downloadAssets` or of the whole-frame fetch. -/
  | effect (e : Event)
  /-- A debugging dump `fs.writeFileSync(file, ...)`, whose failure is caught. -/
  | dump (file : String)
  /-- The call `fs.appendFileSync('server_error.log', ...)`. -/
  | errorLog
  /-- The request `axios.post('https://api.openai.com/v1/chat/completions', ...)`. -/
  | visionRequest (prompt : String) (image : Bytes)
deriving DecidableEq, Repr

/-- The answer of the handler. `P` and `C` are the types of the token summary
and of the component summary. -/
inductive Reply (P C : Type) where
  /-- Status 200: `res.json({ html, designTokens, components })`. -/
  | json (html : String) (designTokens : Option P) (components : Option C)
  /-- Status 400 with the given error text. -/
  | badRequest (error : String)
  /-- Status 500, `Failed to download image from Figma: ...`. -/
  | imageDownloadFailed (imgError : Failure)
  /-- Status 500, `Failed to convert Figma design: ... (Using Key: ...)`. -/
  | failed (error : Failure) (maskedKey : String)
deriving DecidableEq, Repr

/-- The HTTP status of an answer. -/
def Reply.status {P C : Type} : Reply P C → Nat
  | .json _ _ _ => 200
  | .badRequest _ => 400
  | .imageDownloadFailed _ => 500
  | .failed _ _ => 500

/-- The constant `maskedKey` (line 482); API keys are ASCII strings, whose
characters are their code units. -/
def maskedKey (apiKey : String) : String :=
  if apiKey.data.length > 10 then
    (apiKey.data.take 15).asString ++ "..." ++
      (apiKey.data.drop (apiKey.data.length - 4)).asString
  else "Not Set"

/-- What the handler works with. `parseFigmaNode` (utils/figmaParser),
`detectComponents` (utils/componentDetector) and the prompt text of
`generatePrompt` are taken as they are: any functions of their arguments. -/
structure FigmaEnv (P C : Type) where
  /-- The variable `process.env.FIGMA_ACCESS_TOKEN`. -/
  figmaToken : String
  /-- The value of `process.env.ANTHROPIC_API_KEY || ''`. -/
  apiKey : String
  /-- Outcome of the node-subtree request: the failure it throws, or
  `nodeResponse.data.nodes[nodeId]?.document` (`none` when absent). -/
  nodes : (fileKey nodeId : String) → Except Failure (Option Node)
  parseFigmaNode : Node → Except Failure P
  detectComponents : Node → Except Failure C
  /-- The upstream of `downloadAssets`. -/
  assets : Upstream
  fs : FileSystem
  /-- The upstream of the whole-frame fetch. -/
  frame : FrameUpstream
  generatePrompt : (mode customCSS : Option String) → String
  /-- Outcome of the vision request: `response.data.choices[0].message.content`. -/
  vision : (prompt : String) → (image : Bytes) → Except Failure String

/-- The state of the handler after step 2 (lines 235-357). -/
structure NodePhase (P C : Type) where
  designContext : String
  parsedDesign : Option P
  detectedComponents : Option C
  trace : List Step

/-- The `try` block of lines 265-303: the tree as the block leaves it and the
effects of the block. The binding `let imageMap` of line 267 belongs to this
block and ends with it. -/
def convertFigma.assetBlock {P C : Type} (env : FigmaEnv P C) (fileKey : String)
    (nodeData : Node) : Node × List Step :=
  let imageNodes := extractImageNodes (some nodeData)
  if imageNodes.length > 0 then
    let sectionName := nodeData.name
    match downloadAssets env.assets env.fs fileKey (some (imageNodes.map some)) env.figmaToken
        (some sectionName) with
    | (.ok imageMap, evs) =>
      (injectLocalPaths imageMap nodeData,
        evs.map Step.effect ++ [.dump "figma_processed_data.json"])
    | (.error _, evs) => (nodeData, evs.map Step.effect)
  else (nodeData, [])

/-- The evaluation of the template literal of lines 305-349. Its interpolation
of line 334 reads `imageMap`, which is declared by `let` inside the `try`
block of lines 265-303 and nowhere else, so it is not in scope here: reaching
it throws a `ReferenceError` (an earlier interpolation may throw a `TypeError`
first). Every evaluation ends in a throw and `designContext` is not
assigned. -/
def convertFigma.designContext (_nodeData : Node) : Except Failure String :=
  .error (.thrown "ReferenceError: imageMap is not defined")

/-- Step 2 of the handler (lines 235-357). Every exception of the outer `try`
block is caught by `catch (nodeError)`, which sets `designContext`. -/
def convertFigma.nodePhase {P C : Type} (env : FigmaEnv P C) (fileKey nodeId : String) :
    NodePhase P C :=
  let tr := [Step.nodesRequest fileKey env.figmaToken nodeId]
  match env.nodes fileKey nodeId with
  | .error _ => ⟨"Node data unavailable.", none, none, tr⟩
  | .ok none => ⟨"Node data unavailable.", none, none, tr⟩
  | .ok (some nodeData) =>
    let tr := tr ++ [.dump "figma_raw_data.json"]
    match env.parseFigmaNode nodeData with
    | .error _ => ⟨"Node data unavailable.", none, none, tr⟩
    | .ok parsedDesign =>
      match env.detectComponents nodeData with
      | .error _ => ⟨"Node data unavailable.", some parsedDesign, none, tr⟩
      | .ok detectedComponents =>
        let block := convertFigma.assetBlock env fileKey nodeData
        match convertFigma.designContext block.1 with
        | .ok designContext =>
          ⟨designContext, some parsedDesign, some detectedComponents, tr ++ block.2⟩
        | .error _ =>
          ⟨"Node data unavailable.", some parsedDesign, some detectedComponents, tr ++ block.2⟩

/-- The prompt of step 4 (lines 425-428). -/
def convertFigma.prompt (generatePrompt : Option String → Option String → String)
    (mode customCSS : Option String) (designContext : String) : String :=
  let prompt := generatePrompt mode customCSS
  if designContext ≠ "" ∧ designContext ≠ "Node data unavailable." then
    prompt ++ "\n\n**DIRECT FIGMA DATA (JSON):**\nUse this JSON data to get EXACT text content, colors, and layout structure. Prioritize this data for accuracy:\n```json\n" ++
      (designContext.data.take 15000).asString ++ "\n```"
  else prompt

/-- Steps 3 and 4 of the handler (lines 359-486), from the state step 2
leaves. -/
def convertFigma.afterNodes {P C : Type} (env : FigmaEnv P C) (body : Body)
    (fileKey nodeId : String) (phase : NodePhase P C) : Reply P C × List Step :=
  match convertFigma.downloadImage env.frame fileKey env.figmaToken nodeId with
  | (.error imgError, evs) =>
    (.imageDownloadFailed imgError, phase.trace ++ evs.map Step.effect ++ [.errorLog])
  | (.ok imageBuffer, evs) =>
    let prompt :=
      convertFigma.prompt env.generatePrompt body.mode body.customCSS phase.designContext
    let tr := phase.trace ++ evs.map Step.effect ++ [.visionRequest prompt imageBuffer]
    match env.vision prompt imageBuffer with
    | .error error => (.failed error (maskedKey env.apiKey), tr ++ [.errorLog])
    | .ok fullText =>
      (.json (extractHtml fullText) phase.parsedDesign phase.detectedComponents, tr)

/-- The handler `convertFigma(req, res)`: its answer and its effects. -/
def convertFigma {P C : Type} (env : FigmaEnv P C) (body : Body) : Reply P C × List Step :=
  match body.url with
  | none => (.badRequest "Figma URL is required", [])
  | some url =>
    if url = "" then (.badRequest "Figma URL is required", [])
    else
      match matchFileKey url.data with
      | none => (.badRequest "Invalid Figma URL format.", [])
      | some key =>
        let fileKey := key.asString
        match convertFigma.nodeId url with
        | none =>
          (.badRequest "Please provide a Figma URL pointing to a specific Frame (node-id).", [])
        | some nodeId =>
          if nodeId = "" then
            (.badRequest "Please provide a Figma URL pointing to a specific Frame (node-id).", [])
          else
            convertFigma.afterNodes env body fileKey nodeId
              (convertFigma.nodePhase env fileKey nodeId)

/-- An upstream whose batch resolution answers with the URL of node `1:2`. -/
def heroUpstream : Upstream where
  images := fun _ => .ok { images := some [("1:2", some "https://cdn/hero")] }
  download := fun _ _ => .ok [137, 80, 78, 71]

/-- A frame upstream that renders node `0:1` as a small payload. -/
def smallFrameUpstream : FrameUpstream where
  images := fun _ _ => .ok { images := some [("0:1", some "https://cdn/frame")] }
  download := fun _ _ => .ok [137, 80, 78, 71]

/-- An environment in which every step of the handler succeeds: the node
request returns the sample tree, whose image is downloaded. -/
def sampleEnv : FigmaEnv String String where
  figmaToken := "token"
  apiKey := ""
  nodes := fun _ _ => .ok (some sampleTree)
  parseFigmaNode := fun _ => .ok "TOKENS"
  detectComponents := fun _ => .ok "COMPONENTS"
  assets := heroUpstream
  fs := sampleFileSystem
  frame := smallFrameUpstream
  generatePrompt := fun _ _ => "MODE PROMPT"
  vision := fun _ _ => .ok "Here is the page:\n```html\n<p>Hi</p>\n```"

/-- The environment of `sampleEnv` with a node request that fails. -/
def unavailableEnv : FigmaEnv String String :=
  { sampleEnv with nodes := fun _ _ => .error (.http 404) }

/-- A request for frame `0:1` of file `KEY`. -/
def sampleBody : Body where
  url := some "https://www.figma.com/design/KEY/Landing?node-id=0-1&t=abc"
  mode := some "web"
  customCSS := none

/-- The node id the specification derives from the value of the `node-id`
parameter: every `%3A` replaced by `:` and, if the result then contains no
`:`, every `-` replaced by `:`. -/
def nodeIdOfParameter (value : List Char) : List Char :=
  if ':' ∈ decodeColons value then decodeColons value
  else (decodeColons value).map (fun c => if c = '-' then ':' else c)

/-- The environment of `sampleEnv` with an API key of 12 characters and a
vision request that is refused. -/
def shortKeyEnv : FigmaEnv String String :=
  { sampleEnv with apiKey := "sk-test-1234", vision := fun _ _ => .error (.http 401) }

/-- Two characters that are equal, or are each one of `:` and `-`: the
characters that the replacement of `:` by `-` cannot tell apart. -/
def SameUpToColon (x y : Char) : Prop :=
  x = y ∨ ((x = ':' ∨ x = '-') ∧ (y = ':' ∨ y = '-'))

/-! ## Theorems -/

theorem any_isVisibleImageFill_iff (id name : String) (fs : List Fill)
    (children : Option (List Node)) (l a : Option String) :
    fs.any isVisibleImageFill = true ↔
      HasVisibleImageFill (.mk id name (some fs) children l a) := by
  constructor
  · intro h
    obtain ⟨f, hf, hv⟩ := List.any_eq_true.mp h
    refine ⟨fs, rfl, f, hf, ?_⟩
    simpa [isVisibleImageFill, Fill.isVisible] using hv
  · rintro ⟨fs2, hfs, f, hf, ht, hv⟩
    cases hfs
    refine List.any_eq_true.mpr ⟨f, hf, ?_⟩
    simpa [isVisibleImageFill, Fill.isVisible] using And.intro ht hv

theorem not_hasVisibleImageFill_of_no_fills (id name : String)
    (children : Option (List Node)) (l a : Option String) :
    ¬ HasVisibleImageFill (.mk id name none children l a) := by
  rintro ⟨fs, hfs, _⟩
  cases hfs

mutual
theorem extract_node_eq (n : Node) (images : List ImageRef) :
    extractImageNodes.node n images =
      images ++ ((preorder n).filter (fun n => decide (HasVisibleImageFill n))).map Node.toRef := by
  match n with
  | .mk id name fills children l a =>
    cases fills with
    | none =>
      simp [extractImageNodes.node, preorder, extract_opt_eq children, List.filter_cons,
        not_hasVisibleImageFill_of_no_fills]
    | some fs =>
      by_cases h : fs.any isVisibleImageFill = true
      · have h2 := (any_isVisibleImageFill_iff id name fs children l a).mp h
        simp [extractImageNodes.node, preorder, extract_opt_eq children, List.filter_cons,
          h, h2, Node.toRef, Node.id, Node.name]
      · have h2 : ¬ HasVisibleImageFill (.mk id name (some fs) children l a) :=
          fun x => h ((any_isVisibleImageFill_iff id name fs children l a).mpr x)
        simp [extractImageNodes.node, preorder, extract_opt_eq children, List.filter_cons,
          h, h2]
theorem extract_opt_eq (cs : Option (List Node)) (images : List ImageRef) :
    extractImageNodes.optChildren cs images =
      images ++ ((preorderOpt cs).filter (fun n => decide (HasVisibleImageFill n))).map Node.toRef := by
  match cs with
  | none => simp [extractImageNodes.optChildren, preorderOpt]
  | some cs =>
    rw [extractImageNodes.optChildren, preorderOpt]
    exact extract_list_eq cs images
theorem extract_list_eq (cs : List Node) (images : List ImageRef) :
    extractImageNodes.forEach cs images =
      images ++ ((preorderList cs).filter (fun n => decide (HasVisibleImageFill n))).map Node.toRef := by
  match cs with
  | [] => simp [extractImageNodes.forEach, preorderList]
  | c :: cs =>
    rw [extractImageNodes.forEach, preorderList, extract_list_eq cs, extract_node_eq c]
    simp [List.filter_append, List.map_append, List.append_assoc]
end

/-- C1: for every tree, `extractImageNodes` with a fresh accumulator returns
exactly the pre-order listing of the nodes that have at least one visible
IMAGE fill, each as its `{id, name}` pair; so such a node is listed once per
position in the tree and no other node is listed. -/
theorem extractImageNodes_eq_spec (t : Node) :
    extractImageNodes (some t) = imageNodesSpec t := by
  simp [extractImageNodes, imageNodesSpec, extract_node_eq]

/-! ### The annotator -/

theorem mem_of_lookup_eq_some (m : AssetMap) (id p : String) (h : m.lookup id = some p) :
    (id, p) ∈ m := by
  induction m with
  | nil => simp at h
  | cons e rest ih =>
    obtain ⟨k, v⟩ := e
    by_cases hk : id = k
    · subst hk
      simp [List.lookup] at h
      simp [h]
    · have hk2 : (id == k) = false := by simpa using hk
      simp only [List.lookup, hk2] at h
      exact List.mem_cons_of_mem _ (ih h)

theorem truthyPath_eq_lookup (m : AssetMap) (h : m.PathsNonEmpty) (id : String) :
    truthyPath m id = m.lookup id := by
  unfold truthyPath
  cases hl : m.lookup id with
  | none => rfl
  | some p =>
    have hp : p ≠ "" := h (id, p) (mem_of_lookup_eq_some m id p hl)
    simp [hp]

mutual
theorem inject_fields (m : AssetMap) (h : m.PathsNonEmpty) (t : Node) :
    (preorder (injectLocalPaths m t)).map Node.fields =
      (preorder t).map (fun n => annotateFields m n.fields) := by
  match t with
  | .mk id name fills children l a =>
    have ih := inject_fields_opt m h children
    cases hl : m.lookup id with
    | none =>
      simp [injectLocalPaths, truthyPath_eq_lookup m h, hl, preorder, ih, annotateFields,
        Node.fields, Node.id, Node.name, Node.fills, Node.localSrc, Node.AI_INSTRUCTION]
    | some p =>
      simp [injectLocalPaths, truthyPath_eq_lookup m h, hl, preorder, ih, annotateFields,
        Node.fields, Node.id, Node.name, Node.fills, Node.localSrc, Node.AI_INSTRUCTION]
theorem inject_fields_opt (m : AssetMap) (h : m.PathsNonEmpty) (cs : Option (List Node)) :
    (preorderOpt (injectLocalPaths.optChildren m cs)).map Node.fields =
      (preorderOpt cs).map (fun n => annotateFields m n.fields) := by
  match cs with
  | none => simp [injectLocalPaths.optChildren, preorderOpt]
  | some cs =>
    simpa [injectLocalPaths.optChildren, preorderOpt] using inject_fields_list m h cs
theorem inject_fields_list (m : AssetMap) (h : m.PathsNonEmpty) (cs : List Node) :
    (preorderList (injectLocalPaths.forEach m cs)).map Node.fields =
      (preorderList cs).map (fun n => annotateFields m n.fields) := by
  match cs with
  | [] => simp [injectLocalPaths.forEach, preorderList]
  | c :: cs =>
    simp [injectLocalPaths.forEach, preorderList, inject_fields m h c, inject_fields_list m h cs]
end

mutual
theorem inject_shape (m : AssetMap) (t : Node) : (injectLocalPaths m t).shape = t.shape := by
  match t with
  | .mk id name fills children l a =>
    have ih := inject_shape_opt m children
    cases hl : truthyPath m id <;> simp [injectLocalPaths, hl, Node.shape, ih]
theorem inject_shape_opt (m : AssetMap) (cs : Option (List Node)) :
    Node.shapeOpt (injectLocalPaths.optChildren m cs) = Node.shapeOpt cs := by
  match cs with
  | none => simp [injectLocalPaths.optChildren, Node.shapeOpt]
  | some cs => simp [injectLocalPaths.optChildren, Node.shapeOpt, inject_shape_list m cs]
theorem inject_shape_list (m : AssetMap) (cs : List Node) :
    Node.shapeList (injectLocalPaths.forEach m cs) = Node.shapeList cs := by
  match cs with
  | [] => simp [injectLocalPaths.forEach, Node.shapeList]
  | c :: cs =>
    simp [injectLocalPaths.forEach, Node.shapeList, inject_shape m c, inject_shape_list m cs]
end

mutual
theorem inject_inject (m : AssetMap) (t : Node) :
    injectLocalPaths m (injectLocalPaths m t) = injectLocalPaths m t := by
  match t with
  | .mk id name fills children l a =>
    have ih := inject_inject_opt m children
    cases hl : truthyPath m id <;> simp [injectLocalPaths, hl, ih]
theorem inject_inject_opt (m : AssetMap) (cs : Option (List Node)) :
    injectLocalPaths.optChildren m (injectLocalPaths.optChildren m cs) =
      injectLocalPaths.optChildren m cs := by
  match cs with
  | none => simp [injectLocalPaths.optChildren]
  | some cs => simp [injectLocalPaths.optChildren, inject_inject_list m cs]
theorem inject_inject_list (m : AssetMap) (cs : List Node) :
    injectLocalPaths.forEach m (injectLocalPaths.forEach m cs) =
      injectLocalPaths.forEach m cs := by
  match cs with
  | [] => simp [injectLocalPaths.forEach]
  | c :: cs => simp [injectLocalPaths.forEach, inject_inject m c, inject_inject_list m cs]
end

/-- C4: for every tree and every asset map (its paths being non-empty strings,
as every path `downloadAssets` records is), after `injectLocalPaths` the nodes
of the tree, in pre-order, are the nodes of the original tree where a node
whose id is a key of the map has `localSrc` set to the mapped path and
`AI_INSTRUCTION` set to `'USE THIS IMAGE SOURCE: '` followed by that path, and
a node whose id is not a key keeps all its fields; the shape of the tree
(children sequences, ids, names, fills) is unchanged. -/
theorem injectLocalPaths_annotates (imageMap : AssetMap) (h : imageMap.PathsNonEmpty)
    (t : Node) :
    (preorder (injectLocalPaths imageMap t)).map Node.fields =
        (preorder t).map (fun n => annotateFields imageMap n.fields) ∧
      (∀ d : NodeFields, ∀ p, imageMap.lookup d.id = some p →
        (annotateFields imageMap d).localSrc = some p ∧
        (annotateFields imageMap d).AI_INSTRUCTION = some ("USE THIS IMAGE SOURCE: " ++ p) ∧
        (annotateFields imageMap d).id = d.id ∧ (annotateFields imageMap d).name = d.name ∧
        (annotateFields imageMap d).fills = d.fills) ∧
      (∀ d : NodeFields, imageMap.lookup d.id = none → annotateFields imageMap d = d) ∧
      (injectLocalPaths imageMap t).shape = t.shape := by
  refine ⟨inject_fields imageMap h t, ?_, ?_, inject_shape imageMap t⟩
  · intro d p hp
    simp [annotateFields, hp]
  · intro d hd
    simp [annotateFields, hd]

/-- Witness of C4: node `1:2` of the sample tree receives its local path and
the usage instruction; the two other nodes and the shape are unchanged. -/
theorem injectLocalPaths_annotates_witness :
    sampleMap.PathsNonEmpty ∧
      injectLocalPaths sampleMap sampleTree =
        .mk "0:1" "Hero Section" (some [{ type := "SOLID", visible := none }])
          (some [.mk "1:2" "hero" (some [{ type := "IMAGE", visible := some true }]) none
              (some "/assets/images/hero_section/1-2.png")
              (some "USE THIS IMAGE SOURCE: /assets/images/hero_section/1-2.png"),
            .mk "1:3" "title" none (some []) none none])
          none none ∧
      (preorder (injectLocalPaths sampleMap sampleTree)).map Node.fields =
        (preorder sampleTree).map (fun n => annotateFields sampleMap n.fields) ∧
      (injectLocalPaths sampleMap sampleTree).shape = sampleTree.shape :=
  ⟨by decide, rfl,
    (injectLocalPaths_annotates sampleMap (by decide) sampleTree).1,
    (injectLocalPaths_annotates sampleMap (by decide) sampleTree).2.2.2⟩

/-- C5: `injectLocalPaths` is idempotent: annotating an annotated tree again
with the same map gives the tree of the first annotation. -/
theorem injectLocalPaths_idempotent (imageMap : AssetMap) (t : Node) :
    injectLocalPaths imageMap (injectLocalPaths imageMap t) = injectLocalPaths imageMap t :=
  inject_inject imageMap t

/-! ### The batch URL resolution -/

theorem fetchImages_ok (up : Upstream) (fileKey figmaToken ids : String) (retries attempt : Nat)
    (tr : List Event) (response : ImagesResponse) (h : up.images attempt = .ok response) :
    fetchImages up fileKey figmaToken ids retries attempt tr =
      (.ok response, tr ++ [.imagesRequest fileKey figmaToken ids Scale.two]) := by
  unfold fetchImages
  simp [h]

theorem fetchImages_rate_limited (up : Upstream) (fileKey figmaToken ids : String)
    (r attempt : Nat) (tr : List Event) (h : up.images attempt = .error (.http 429)) :
    fetchImages up fileKey figmaToken ids (r + 1) attempt tr =
      fetchImages up fileKey figmaToken ids r (attempt + 1)
        (tr ++ [.imagesRequest fileKey figmaToken ids Scale.two,
          .wait ((4 - ((r + 1 : Nat) : Int)) * 10000)]) := by
  conv_lhs => unfold fetchImages
  simp [h, Failure.status]

theorem fetchImages_exhausted (up : Upstream) (fileKey figmaToken ids : String)
    (attempt : Nat) (tr : List Event) :
    fetchImages up fileKey figmaToken ids 0 attempt tr =
      (up.images attempt, tr ++ [.imagesRequest fileKey figmaToken ids Scale.two]) := by
  unfold fetchImages
  cases h : up.images attempt <;> simp

theorem fetchImages_not_rate_limited (up : Upstream) (fileKey figmaToken ids : String)
    (retries attempt : Nat) (tr : List Event) (err : Failure)
    (h : up.images attempt = .error err) (hs : err.status ≠ some 429) :
    fetchImages up fileKey figmaToken ids retries attempt tr =
      (.error err, tr ++ [.imagesRequest fileKey figmaToken ids Scale.two]) := by
  unfold fetchImages
  cases retries <;> simp [h, hs]

theorem status_eq_429_iff (err : Failure) : err.status = some 429 ↔ err = .http 429 := by
  cases err <;> simp [Failure.status]

theorem fetchImages_run (up : Upstream) (fileKey figmaToken ids : String) :
    ∀ (k r attempt : Nat) (tr : List Event), k ≤ r → r ≤ 3 →
      (∀ i < k, up.images (attempt + i) = .error (.http 429)) →
      (k = r ∨ up.images (attempt + k) ≠ .error (.http 429)) →
      fetchImages up fileKey figmaToken ids r attempt tr =
        (up.images (attempt + k),
          tr ++ retrySegment (.imagesRequest fileKey figmaToken ids Scale.two) batchBackoff
            (4 - r) k ++ [.imagesRequest fileKey figmaToken ids Scale.two]) := by
  intro k
  induction k with
  | zero =>
    intro r attempt tr _ _ _ hstop
    simp only [Nat.add_zero, retrySegment, List.append_nil]
    cases hr : up.images attempt with
    | ok response => exact fetchImages_ok up fileKey figmaToken ids r attempt tr response hr
    | error err =>
      rcases hstop with h0 | hne
      · subst h0
        rw [fetchImages_exhausted, hr]
      · refine fetchImages_not_rate_limited up fileKey figmaToken ids r attempt tr err hr ?_
        intro hs
        rw [status_eq_429_iff] at hs
        subst hs
        exact hne hr
  | succ k ih =>
    intro r attempt tr hk hr h429 hstop
    obtain ⟨r', rfl⟩ : ∃ r', r = r' + 1 := ⟨r - 1, by omega⟩
    have h0 : up.images attempt = .error (.http 429) := by simpa using h429 0 (by omega)
    rw [fetchImages_rate_limited up fileKey figmaToken ids r' attempt tr h0]
    rw [ih r' (attempt + 1) _ (by omega) (by omega)
      (fun i hi => by
        have e : attempt + 1 + i = attempt + (i + 1) := by omega
        rw [e]
        exact h429 (i + 1) (by omega))
      (by
        rcases hstop with h | h
        · left; omega
        · right
          have e : attempt + 1 + k = attempt + (k + 1) := by omega
          rwa [e])]
    have e1 : attempt + 1 + k = attempt + (k + 1) := by omega
    have e2 : 4 - r' = (4 - (r' + 1)) + 1 := by omega
    have e3 : (4 - ((r' + 1 : Nat) : Int)) * 10000 = batchBackoff (4 - (r' + 1)) := by
      unfold batchBackoff
      have : ((4 - (r' + 1) : Nat) : Int) = 4 - ((r' + 1 : Nat) : Int) := by omega
      rw [this]
    rw [e1, e2, e3]
    simp [retrySegment]

/-! ### The asset map -/

theorem keys_set (m : AssetMap) (id p : String) :
    (m.set id p).keys = if id ∈ m.keys then m.keys else m.keys ++ [id] := by
  unfold AssetMap.set AssetMap.keys
  by_cases h : m.any (fun e => e.1 == id) = true
  · have hmem : id ∈ m.map Prod.fst := by
      obtain ⟨e, he, hk⟩ := List.any_eq_true.mp h
      have : e.1 = id := by simpa using hk
      exact List.mem_map.mpr ⟨e, he, this⟩
    rw [if_pos h, if_pos hmem, List.map_map]
    apply List.map_congr_left
    intro e _
    by_cases hk : e.1 = id <;> simp [hk]
  · have hmem : id ∉ m.map Prod.fst := by
      intro hin
      obtain ⟨e, he, hk⟩ := List.mem_map.mp hin
      exact h (List.any_eq_true.mpr ⟨e, he, by simpa using hk⟩)
    rw [if_neg h, if_neg hmem]
    simp

theorem mem_keys_set (m : AssetMap) (id p x : String) :
    x ∈ (m.set id p).keys ↔ x ∈ m.keys ∨ x = id := by
  rw [keys_set]
  by_cases h : id ∈ m.keys
  · rw [if_pos h]
    constructor
    · exact Or.inl
    · rintro (hx | rfl)
      · exact hx
      · exact h
  · rw [if_neg h]
    simp

theorem nodup_keys_set (m : AssetMap) (id p : String) (h : m.keys.Nodup) :
    (m.set id p).keys.Nodup := by
  rw [keys_set]
  by_cases hin : id ∈ m.keys
  · rwa [if_pos hin]
  · rw [if_neg hin]
    exact List.Nodup.append h (List.nodup_singleton id) (by simpa using hin)

theorem append_ne_empty (a b : String) (h : a ≠ "") : a ++ b ≠ "" := by
  intro hab
  apply h
  have hd : (a ++ b).data = [] := by rw [hab]
  rw [String.data_append] at hd
  exact String.ext (List.append_eq_nil.mp hd).1

theorem pathsNonEmpty_set (m : AssetMap) (id p : String) (h : m.PathsNonEmpty) (hp : p ≠ "") :
    (m.set id p).PathsNonEmpty := by
  unfold AssetMap.set
  intro e he
  split at he
  · obtain ⟨e0, he0, rfl⟩ := List.mem_map.mp he
    by_cases hk : (e0.1 == id) = true
    · simpa [hk] using hp
    · simpa [hk] using h e0 he0
  · rcases List.mem_append.mp he with h1 | h1
    · exact h e h1
    · have : e = (id, p) := by simpa using h1
      subst this
      exact hp

/-! ### `downloadAssets` -/

theorem settle_skip (up : Upstream) (fs : FileSystem) (assetsDir safeFolderName : String)
    (id url : String) (rest : List (String × Option String)) (m : AssetMap) (tr : List Event)
    (h : url = "" ∨ ∃ err, up.download id url = .error err) :
    downloadAssets.settle up fs assetsDir safeFolderName ((id, some url) :: rest) m tr =
      downloadAssets.settle up fs assetsDir safeFolderName rest m tr := by
  rw [downloadAssets.settle]
  by_cases hu : url = ""
  · rw [if_pos hu]
  · rw [if_neg hu]
    obtain ⟨err, he⟩ := h.resolve_left hu
    rw [he]

theorem settle_write (up : Upstream) (fs : FileSystem) (assetsDir safeFolderName : String)
    (id url : String) (rest : List (String × Option String)) (m : AssetMap) (tr : List Event)
    (data : Bytes) (hu : url ≠ "") (hd : up.download id url = .ok data) :
    downloadAssets.settle up fs assetsDir safeFolderName ((id, some url) :: rest) m tr =
      if fs.writeFileSync (path.join [assetsDir, replaceColons id ++ ".png"]) = true then
        downloadAssets.settle up fs assetsDir safeFolderName rest
          (m.set id ("/assets/images/" ++ safeFolderName ++ "/" ++ (replaceColons id ++ ".png")))
          (tr ++ [.writeFileSync (path.join [assetsDir, replaceColons id ++ ".png"])])
      else
        downloadAssets.settle up fs assetsDir safeFolderName rest m
          (tr ++ [.writeFileSync (path.join [assetsDir, replaceColons id ++ ".png"])]) := by
  rw [downloadAssets.settle, if_neg hu, hd]

theorem recorded_cons_of_recorded (up : Upstream) (fs : FileSystem) (assetsDir : String)
    (e : String × Option String) (rest : List (String × Option String)) (x : String)
    (h : Recorded up fs assetsDir rest x) : Recorded up fs assetsDir (e :: rest) x := by
  obtain ⟨url, hm, h2⟩ := h
  exact ⟨url, List.mem_cons_of_mem _ hm, h2⟩

theorem recorded_cons (up : Upstream) (fs : FileSystem) (assetsDir : String)
    (id : String) (u : Option String) (rest : List (String × Option String)) (x : String)
    (h : Recorded up fs assetsDir ((id, u) :: rest) x) :
    (x = id ∧ ∃ url, u = some url ∧ url ≠ "" ∧ (∃ data, up.download id url = .ok data) ∧
        fs.writeFileSync (path.join [assetsDir, replaceColons id ++ ".png"]) = true) ∨
      Recorded up fs assetsDir rest x := by
  obtain ⟨url, hm, h2, h3, h4⟩ := h
  rcases List.mem_cons.mp hm with heq | hm
  · have h5 : x = id ∧ some url = u := by simpa using heq
    obtain ⟨rfl, rfl⟩ := h5
    exact Or.inl ⟨rfl, url, rfl, h2, h3, h4⟩
  · exact Or.inr ⟨url, hm, h2, h3, h4⟩

theorem settle_keys (up : Upstream) (fs : FileSystem) (assetsDir safeFolderName : String) :
    ∀ (urls : List (String × Option String)) (m : AssetMap) (tr : List Event) (x : String),
      x ∈ (downloadAssets.settle up fs assetsDir safeFolderName urls m tr).1.keys ↔
        x ∈ m.keys ∨ Recorded up fs assetsDir urls x := by
  intro urls
  induction urls with
  | nil =>
    intro m tr x
    simp [downloadAssets.settle, Recorded]
  | cons e rest ih =>
    intro m tr x
    obtain ⟨id, u⟩ := e
    have back : x ∈ m.keys ∨ Recorded up fs assetsDir rest x →
        x ∈ m.keys ∨ Recorded up fs assetsDir ((id, u) :: rest) x := by
      rintro (h | h)
      · exact Or.inl h
      · exact Or.inr (recorded_cons_of_recorded up fs assetsDir _ rest x h)
    cases u with
    | none =>
      rw [downloadAssets.settle, ih]
      refine ⟨back, ?_⟩
      rintro (h | h)
      · exact Or.inl h
      · rcases recorded_cons up fs assetsDir id none rest x h with ⟨_, url, hu, _⟩ | h
        · cases hu
        · exact Or.inr h
    | some url =>
      by_cases hskip : url = "" ∨ ∃ err, up.download id url = .error err
      · rw [settle_skip up fs assetsDir safeFolderName id url rest m tr hskip, ih]
        refine ⟨back, ?_⟩
        rintro (h | h)
        · exact Or.inl h
        · rcases recorded_cons up fs assetsDir id (some url) rest x h with
            ⟨_, url2, hu, h2, ⟨data, h3⟩, _⟩ | h
          · cases hu
            rcases hskip with h0 | ⟨err, h0⟩
            · exact absurd h0 h2
            · rw [h0] at h3
              cases h3
          · exact Or.inr h
      · have hu : url ≠ "" := fun h0 => hskip (Or.inl h0)
        obtain ⟨data, hd⟩ : ∃ data, up.download id url = .ok data := by
          cases hd : up.download id url with
          | ok data => exact ⟨data, rfl⟩
          | error err => exact absurd (Or.inr ⟨err, hd⟩) hskip
        rw [settle_write up fs assetsDir safeFolderName id url rest m tr data hu hd]
        by_cases hw : fs.writeFileSync (path.join [assetsDir, replaceColons id ++ ".png"]) = true
        · rw [if_pos hw, ih, mem_keys_set]
          constructor
          · rintro ((h | rfl) | h)
            · exact Or.inl h
            · exact Or.inr ⟨url, List.mem_cons_self _ _, hu, ⟨data, hd⟩, hw⟩
            · exact back (Or.inr h)
          · rintro (h | h)
            · exact Or.inl (Or.inl h)
            · rcases recorded_cons up fs assetsDir id (some url) rest x h with ⟨hx, _⟩ | h
              · exact Or.inl (Or.inr hx)
              · exact Or.inr h
        · rw [if_neg hw, ih]
          refine ⟨back, ?_⟩
          rintro (h | h)
          · exact Or.inl h
          · rcases recorded_cons up fs assetsDir id (some url) rest x h with
              ⟨_, _, _, _, _, h4⟩ | h
            · exact absurd h4 hw
            · exact Or.inr h

theorem settle_invariant (up : Upstream) (fs : FileSystem) (assetsDir safeFolderName : String) :
    ∀ (urls : List (String × Option String)) (m : AssetMap) (tr : List Event),
      m.keys.Nodup → m.PathsNonEmpty →
      (downloadAssets.settle up fs assetsDir safeFolderName urls m tr).1.keys.Nodup ∧
        (downloadAssets.settle up fs assetsDir safeFolderName urls m tr).1.PathsNonEmpty := by
  intro urls
  induction urls with
  | nil => intro m tr h1 h2; exact ⟨h1, h2⟩
  | cons e rest ih =>
    intro m tr h1 h2
    obtain ⟨id, u⟩ := e
    cases u with
    | none => rw [downloadAssets.settle]; exact ih m tr h1 h2
    | some url =>
      by_cases hskip : url = "" ∨ ∃ err, up.download id url = .error err
      · rw [settle_skip up fs assetsDir safeFolderName id url rest m tr hskip]
        exact ih m tr h1 h2
      · have hu : url ≠ "" := fun h0 => hskip (Or.inl h0)
        obtain ⟨data, hd⟩ : ∃ data, up.download id url = .ok data := by
          cases hd : up.download id url with
          | ok data => exact ⟨data, rfl⟩
          | error err => exact absurd (Or.inr ⟨err, hd⟩) hskip
        rw [settle_write up fs assetsDir safeFolderName id url rest m tr data hu hd]
        by_cases hw : fs.writeFileSync (path.join [assetsDir, replaceColons id ++ ".png"]) = true
        · rw [if_pos hw]
          refine ih _ _ (nodup_keys_set m id _ h1) (pathsNonEmpty_set m id _ h2 ?_)
          rw [String.append_assoc, String.append_assoc]
          exact append_ne_empty _ _ (by decide)
        · rw [if_neg hw]
          exact ih m _ h1 h2

theorem nodeIds_map_some (nodes : List ImageRef) :
    downloadAssets.nodeIds (nodes.map some) = some (nodes.map ImageRef.id) := by
  induction nodes with
  | nil => rfl
  | cons n rest ih => simp [downloadAssets.nodeIds, ih]

theorem prepare_ok (fs : FileSystem) (assetsDir : String)
    (h : fs.existsSync assetsDir = true ∨ fs.mkdirSync assetsDir = true) :
    ∃ evs, downloadAssets.prepare fs assetsDir = (.ok (), evs) := by
  unfold downloadAssets.prepare
  by_cases he : fs.existsSync assetsDir = true
  · exact ⟨_, by rw [if_pos he]⟩
  · have hm : fs.mkdirSync assetsDir = true := h.resolve_left he
    exact ⟨_, by rw [if_neg he, if_pos hm]⟩

theorem downloadAssets_wellFormed (up : Upstream) (fs : FileSystem) (fileKey : String)
    (n : ImageRef) (ns : List ImageRef) (figmaToken : String) (customFolderName : Option String) :
    downloadAssets up fs fileKey (some ((n :: ns).map some)) figmaToken customFolderName =
      match downloadAssets.body up fs fileKey
        (downloadAssets.ids ((n :: ns).map ImageRef.id)) figmaToken customFolderName with
      | (.ok imageMap, tr) => (.ok imageMap, tr)
      | (.error _, tr) => (.ok [], tr) := by
  have h := nodeIds_map_some (n :: ns)
  simp only [List.map_cons] at h
  simp only [downloadAssets, List.map_cons, h]

theorem body_of_fetch_error (up : Upstream) (fs : FileSystem) (fileKey ids figmaToken : String)
    (customFolderName : Option String) (err : Failure) (tr : List Event)
    (h : fetchImages up fileKey figmaToken ids 3 0 [] = (.error err, tr)) :
    downloadAssets.body up fs fileKey ids figmaToken customFolderName = (.error err, tr) := by
  unfold downloadAssets.body
  rw [h]

theorem body_of_no_images (up : Upstream) (fs : FileSystem) (fileKey ids figmaToken : String)
    (customFolderName : Option String) (response : ImagesResponse) (tr : List Event)
    (h : fetchImages up fileKey figmaToken ids 3 0 [] = (.ok response, tr))
    (hi : response.images = none) :
    downloadAssets.body up fs fileKey ids figmaToken customFolderName = (.ok [], tr) := by
  unfold downloadAssets.body
  rw [h]
  simp only [hi]

theorem body_of_prepare_error (up : Upstream) (fs : FileSystem) (fileKey ids figmaToken : String)
    (customFolderName : Option String) (response : ImagesResponse) (tr : List Event)
    (urls : List (String × Option String)) (err : Failure) (evs : List Event)
    (h : fetchImages up fileKey figmaToken ids 3 0 [] = (.ok response, tr))
    (hi : response.images = some urls)
    (hp : downloadAssets.prepare fs (downloadAssets.assetsDir fs fileKey customFolderName) =
      (.error err, evs)) :
    downloadAssets.body up fs fileKey ids figmaToken customFolderName =
      (.error err, tr ++ evs) := by
  unfold downloadAssets.body
  rw [h]
  simp only [hi, hp]

theorem body_of_prepared (up : Upstream) (fs : FileSystem) (fileKey ids figmaToken : String)
    (customFolderName : Option String) (response : ImagesResponse) (tr : List Event)
    (urls : List (String × Option String)) (evs : List Event)
    (h : fetchImages up fileKey figmaToken ids 3 0 [] = (.ok response, tr))
    (hi : response.images = some urls)
    (hp : downloadAssets.prepare fs (downloadAssets.assetsDir fs fileKey customFolderName) =
      (.ok (), evs)) :
    downloadAssets.body up fs fileKey ids figmaToken customFolderName =
      (.ok (downloadAssets.settle up fs (downloadAssets.assetsDir fs fileKey customFolderName)
          (downloadAssets.safeFolderName fileKey customFolderName) urls []
          (tr ++ evs ++ downloadAssets.issue urls)).1,
        (downloadAssets.settle up fs (downloadAssets.assetsDir fs fileKey customFolderName)
          (downloadAssets.safeFolderName fileKey customFolderName) urls []
          (tr ++ evs ++ downloadAssets.issue urls)).2) := by
  unfold downloadAssets.body
  rw [h]
  simp only [hi, hp]

theorem prepare_error (fs : FileSystem) (assetsDir : String)
    (he : fs.existsSync assetsDir = false) (hm : fs.mkdirSync assetsDir = false) :
    downloadAssets.prepare fs assetsDir =
      (.error (.thrown "mkdirSync"), [.existsSync assetsDir, .mkdirSync assetsDir]) := by
  unfold downloadAssets.prepare
  simp [he, hm]

theorem prepare_cases (fs : FileSystem) (assetsDir : String) :
    (∃ evs, downloadAssets.prepare fs assetsDir = (.ok (), evs)) ∨
      ∃ err evs, downloadAssets.prepare fs assetsDir = (.error err, evs) := by
  unfold downloadAssets.prepare
  by_cases he : fs.existsSync assetsDir = true
  · exact Or.inl ⟨_, by rw [if_pos he]⟩
  · by_cases hm : fs.mkdirSync assetsDir = true
    · exact Or.inl ⟨_, by rw [if_neg he, if_pos hm]⟩
    · exact Or.inr ⟨_, _, by rw [if_neg he, if_neg hm]⟩

theorem body_pathsNonEmpty (up : Upstream) (fs : FileSystem) (fileKey ids figmaToken : String)
    (customFolderName : Option String) (imageMap : AssetMap)
    (h : (downloadAssets.body up fs fileKey ids figmaToken customFolderName).1 = .ok imageMap) :
    imageMap.keys.Nodup ∧ imageMap.PathsNonEmpty := by
  have hnil : (AssetMap.keys []).Nodup ∧ AssetMap.PathsNonEmpty [] :=
    ⟨List.nodup_nil, fun e he => by cases he⟩
  cases hf : fetchImages up fileKey figmaToken ids 3 0 [] with
  | mk res tr =>
    cases res with
    | error err =>
      rw [body_of_fetch_error up fs fileKey ids figmaToken customFolderName err tr hf] at h
      cases h
    | ok response =>
      cases hi : response.images with
      | none =>
        rw [body_of_no_images up fs fileKey ids figmaToken customFolderName response tr hf hi] at h
        cases h
        exact hnil
      | some urls =>
        rcases prepare_cases fs (downloadAssets.assetsDir fs fileKey customFolderName) with
          ⟨evs, hp⟩ | ⟨err, evs, hp⟩
        · rw [body_of_prepared up fs fileKey ids figmaToken customFolderName response tr urls evs
            hf hi hp] at h
          cases h
          exact settle_invariant up fs _ _ urls [] _ hnil.1 hnil.2
        · rw [body_of_prepare_error up fs fileKey ids figmaToken customFolderName response tr urls
            err evs hf hi hp] at h
          cases h

theorem downloadAssets_pathsNonEmpty (up : Upstream) (fs : FileSystem) (fileKey : String)
    (nodes : Option (List (Option ImageRef))) (figmaToken : String)
    (customFolderName : Option String) (imageMap : AssetMap)
    (h : (downloadAssets up fs fileKey nodes figmaToken customFolderName).1 = .ok imageMap) :
    imageMap.keys.Nodup ∧ imageMap.PathsNonEmpty := by
  have hnil : (AssetMap.keys []).Nodup ∧ AssetMap.PathsNonEmpty [] :=
    ⟨List.nodup_nil, fun e he => by cases he⟩
  unfold downloadAssets at h
  split at h
  · cases h; exact hnil
  · cases h; exact hnil
  · split at h
    · cases h
    · rename_i idList _
      cases hb : downloadAssets.body up fs fileKey (downloadAssets.ids idList) figmaToken
          customFolderName with
      | mk res tr =>
        simp only [hb] at h
        cases res with
        | ok m =>
          cases h
          exact body_pathsNonEmpty up fs fileKey _ figmaToken customFolderName _
            (by rw [hb])
        | error err =>
          cases h
          exact hnil

/-- C2: for a non-empty list of nodes, when the batch URL resolution succeeds
(and the local filesystem accepts the directory and every write),
`downloadAssets` resolves to a map whose keys are exactly the identities for
which the response carried a non-empty URL whose byte fetch succeeded, each
once; whether an identity is a key depends on its own entry only. -/
theorem downloadAssets_partial_failure (up : Upstream) (fs : FileSystem) (fileKey : String)
    (n : ImageRef) (ns : List ImageRef) (figmaToken : String) (customFolderName : Option String)
    (response : ImagesResponse)
    (hbatch : (fetchImages up fileKey figmaToken
      (downloadAssets.ids ((n :: ns).map ImageRef.id)) 3 0 []).1 = .ok response)
    (hdir : ∀ d, fs.existsSync d = true ∨ fs.mkdirSync d = true)
    (hwrite : ∀ f, fs.writeFileSync f = true) :
    ∃ imageMap,
      (downloadAssets up fs fileKey (some ((n :: ns).map some)) figmaToken customFolderName).1 =
        .ok imageMap ∧
      (∀ id, id ∈ imageMap.keys ↔ Fetched up (response.images.getD []) id) ∧
      imageMap.keys.Nodup := by
  rw [downloadAssets_wellFormed]
  cases hf : fetchImages up fileKey figmaToken
      (downloadAssets.ids ((n :: ns).map ImageRef.id)) 3 0 [] with
  | mk res tr =>
    rw [hf] at hbatch
    simp only at hbatch
    subst hbatch
    cases hi : response.images with
    | none =>
      rw [body_of_no_images up fs fileKey _ figmaToken customFolderName response tr hf hi]
      refine ⟨[], rfl, ?_, List.nodup_nil⟩
      intro id
      simp [AssetMap.keys, Fetched]
    | some urls =>
      obtain ⟨evs, hp⟩ := prepare_ok fs (downloadAssets.assetsDir fs fileKey customFolderName)
        (hdir _)
      rw [body_of_prepared up fs fileKey _ figmaToken customFolderName response tr urls evs
        hf hi hp]
      refine ⟨_, rfl, ?_, ?_⟩
      · intro id
        rw [settle_keys]
        simp [AssetMap.keys, Recorded, Fetched, hwrite]
      · exact (settle_invariant up fs _ _ urls [] _ List.nodup_nil
          (fun e he => by cases he)).1

/-- Witness of C2: three targets, one URL omitted and two good downloads give
exactly two entries. -/
theorem downloadAssets_partial_failure_witness :
    (downloadAssets sampleUpstream sampleFileSystem "KEY"
        (some (sampleNodes.map some)) "token" (some "Hero Section")).1 =
      .ok [("1:2", "/assets/images/hero_section/1-2.png"),
        ("1:4", "/assets/images/hero_section/1-4.png")] ∧
    ∃ imageMap,
      (downloadAssets sampleUpstream sampleFileSystem "KEY"
        (some (sampleNodes.map some)) "token" (some "Hero Section")).1 = .ok imageMap ∧
      (∀ id, id ∈ imageMap.keys ↔
        Fetched sampleUpstream
          [("1:2", some "https://cdn/a"), ("1:3", none), ("1:4", some "https://cdn/b")] id) ∧
      imageMap.keys.Nodup :=
  ⟨by decide,
    downloadAssets_partial_failure sampleUpstream sampleFileSystem "KEY"
      { id := "1:2", name := "hero" }
      [{ id := "1:3", name := "logo" }, { id := "1:4", name := "photo" }] "token"
      (some "Hero Section")
      { images := some [("1:2", some "https://cdn/a"), ("1:3", none), ("1:4", some "https://cdn/b")] }
      (by decide) (fun _ => Or.inr rfl) (fun _ => rfl)⟩

/-- C6: in `downloadAssets`, when the first `k ≤ 3` answers to the batch
request are HTTP 429 and the next answer is not (or the budget of 3 retries is
used up, `k = 3`), the batch resolution ends with the answer to request
`k + 1`, after the trace request, wait 10 s, request, wait 20 s, ..., request:
the `j`-th 429 is followed by a wait of `j * 10` seconds (at most 30 s, within
the 60 s cap) and a retry, and a fourth consecutive 429 is the outcome. -/
theorem fetchImages_backoff (up : Upstream) (fileKey figmaToken ids : String) (k : Nat)
    (hk : k ≤ 3)
    (h429 : ∀ i < k, up.images i = .error (.http 429))
    (hstop : k = 3 ∨ up.images k ≠ .error (.http 429)) :
    fetchImages up fileKey figmaToken ids 3 0 [] =
        (up.images k,
          retryTrace (.imagesRequest fileKey figmaToken ids Scale.two) batchBackoff k) ∧
      (∀ j, 1 ≤ j → j ≤ k → batchBackoff j = (j : Int) * 10 * 1000 ∧ batchBackoff j ≤ 60 * 1000) := by
  constructor
  · have h := fetchImages_run up fileKey figmaToken ids k 3 0 [] hk (le_refl 3)
      (fun i hi => by simpa using h429 i hi) (by simpa using hstop)
    simpa [retryTrace] using h
  · intro j _ hj
    unfold batchBackoff
    constructor
    · ring
    · have : (j : Int) ≤ 3 := by exact_mod_cast (le_trans hj hk)
      omega

/-- Witness of C6: three 429 answers and a success give the waits 10 s, 20 s,
30 s and a successful resolution; four 429 answers end it with the failure,
after four requests. -/
theorem fetchImages_backoff_witness :
    (fetchImages rateLimitedUpstream "KEY" "token" "1:2" 3 0 [] =
        (.ok { images := some [] },
          [.imagesRequest "KEY" "token" "1:2" Scale.two, .wait 10000,
            .imagesRequest "KEY" "token" "1:2" Scale.two, .wait 20000,
            .imagesRequest "KEY" "token" "1:2" Scale.two, .wait 30000,
            .imagesRequest "KEY" "token" "1:2" Scale.two])) ∧
      (fetchImages alwaysRateLimited "KEY" "token" "1:2" 3 0 [] =
        (.error (.http 429),
          [.imagesRequest "KEY" "token" "1:2" Scale.two, .wait 10000,
            .imagesRequest "KEY" "token" "1:2" Scale.two, .wait 20000,
            .imagesRequest "KEY" "token" "1:2" Scale.two, .wait 30000,
            .imagesRequest "KEY" "token" "1:2" Scale.two])) :=
  ⟨(fetchImages_backoff rateLimitedUpstream "KEY" "token" "1:2" 3 (by decide) (by decide)
      (by decide)).1,
    (fetchImages_backoff alwaysRateLimited "KEY" "token" "1:2" 3 (by decide) (by decide)
      (by decide)).1⟩

/-- C8 fails on the code: a batch request answered with HTTP 500, or left
without response (timeout), is issued once and never again, although the whole
retry budget is left. -/
theorem fetchImages_no_retry_on_other_failure :
    fetchImages serverErrorUpstream "KEY" "token" "1:2" 3 0 [] =
        (.error (.http 500), [.imagesRequest "KEY" "token" "1:2" Scale.two]) ∧
      fetchImages timeoutUpstream "KEY" "token" "1:2" 3 0 [] =
        (.error .transport, [.imagesRequest "KEY" "token" "1:2" Scale.two]) ∧
      (downloadAssets serverErrorUpstream sampleFileSystem "KEY" (some (sampleNodes.map some))
          "token" none) =
        (.ok [], [.imagesRequest "KEY" "token" "1:2,1:3,1:4" Scale.two]) := by
  decide

/-- C8 as amended: a failed batch request is re-issued exactly when the
failure is an HTTP 429 and retries are left, after the backoff wait; with any
other failure (another HTTP status, a transport error or timeout) or with no
retry left, the resolution ends at once with that failure. -/
theorem fetchImages_retries_only_rate_limit (up : Upstream) (fileKey figmaToken ids : String)
    (retries attempt : Nat) (tr : List Event) (err : Failure)
    (h : up.images attempt = .error err) :
    (err.status = some 429 → 0 < retries →
        fetchImages up fileKey figmaToken ids retries attempt tr =
          fetchImages up fileKey figmaToken ids (retries - 1) (attempt + 1)
            (tr ++ [.imagesRequest fileKey figmaToken ids Scale.two,
              .wait ((4 - (retries : Int)) * 10000)])) ∧
      (err.status ≠ some 429 ∨ retries = 0 →
        fetchImages up fileKey figmaToken ids retries attempt tr =
          (.error err, tr ++ [.imagesRequest fileKey figmaToken ids Scale.two])) := by
  constructor
  · intro hs hr
    obtain ⟨r, rfl⟩ : ∃ r, retries = r + 1 := ⟨retries - 1, by omega⟩
    rw [status_eq_429_iff] at hs
    subst hs
    exact fetchImages_rate_limited up fileKey figmaToken ids r attempt tr h
  · rintro (hs | rfl)
    · exact fetchImages_not_rate_limited up fileKey figmaToken ids retries attempt tr err h hs
    · rw [fetchImages_exhausted, h]

/-- Witness of the amended C8: an HTTP 500 ends the resolution at the first
request; an HTTP 429 with three retries left is followed by a 10 s wait and a
second request. -/
theorem fetchImages_retries_only_rate_limit_witness :
    fetchImages serverErrorUpstream "KEY" "token" "1:2" 3 0 [] =
        (.error (.http 500), [] ++ [.imagesRequest "KEY" "token" "1:2" Scale.two]) ∧
      fetchImages rateLimitedUpstream "KEY" "token" "1:2" 3 0 [] =
        fetchImages rateLimitedUpstream "KEY" "token" "1:2" (3 - 1) (0 + 1)
          ([] ++ [.imagesRequest "KEY" "token" "1:2" Scale.two,
            .wait ((4 - ((3 : Nat) : Int)) * 10000)]) :=
  ⟨(fetchImages_retries_only_rate_limit serverErrorUpstream "KEY" "token" "1:2" 3 0 []
      (.http 500) rfl).2 (Or.inl (by decide)),
    (fetchImages_retries_only_rate_limit rateLimitedUpstream "KEY" "token" "1:2" 3 0 []
      (.http 429) rfl).1 (by decide) (by decide)⟩

/-- C9: for every list of well-formed `{id, name}` nodes `downloadAssets`
resolves (it never rejects), and it resolves to the empty map when the batch
URL resolution ends with a failure, when the response carries no `images`
mapping, and when the destination directory is missing and cannot be
created. -/
theorem downloadAssets_never_rejects (up : Upstream) (fs : FileSystem) (fileKey : String)
    (nodes : List ImageRef) (figmaToken : String) (customFolderName : Option String) :
    (∃ imageMap,
        (downloadAssets up fs fileKey (some (nodes.map some)) figmaToken customFolderName).1 =
          .ok imageMap) ∧
      (∀ err,
        (fetchImages up fileKey figmaToken (downloadAssets.ids (nodes.map ImageRef.id)) 3 0 []).1 =
            .error err →
          (downloadAssets up fs fileKey (some (nodes.map some)) figmaToken customFolderName).1 =
            .ok []) ∧
      (∀ response,
        (fetchImages up fileKey figmaToken (downloadAssets.ids (nodes.map ImageRef.id)) 3 0 []).1 =
            .ok response →
          response.images = none →
          (downloadAssets up fs fileKey (some (nodes.map some)) figmaToken customFolderName).1 =
            .ok []) ∧
      (∀ response,
        (fetchImages up fileKey figmaToken (downloadAssets.ids (nodes.map ImageRef.id)) 3 0 []).1 =
            .ok response →
          fs.existsSync (downloadAssets.assetsDir fs fileKey customFolderName) = false →
          fs.mkdirSync (downloadAssets.assetsDir fs fileKey customFolderName) = false →
          (downloadAssets up fs fileKey (some (nodes.map some)) figmaToken customFolderName).1 =
            .ok []) := by
  cases nodes with
  | nil => exact ⟨⟨[], rfl⟩, fun _ _ => rfl, fun _ _ _ => rfl, fun _ _ _ _ => rfl⟩
  | cons n ns =>
    rw [downloadAssets_wellFormed]
    cases hf : fetchImages up fileKey figmaToken
        (downloadAssets.ids ((n :: ns).map ImageRef.id)) 3 0 [] with
    | mk res tr =>
      cases res with
      | error err =>
        rw [body_of_fetch_error up fs fileKey _ figmaToken customFolderName err tr hf]
        exact ⟨⟨[], rfl⟩, fun _ _ => rfl, fun _ _ _ => rfl, fun _ _ _ _ => rfl⟩
      | ok response =>
        cases hi : response.images with
        | none =>
          rw [body_of_no_images up fs fileKey _ figmaToken customFolderName response tr hf hi]
          exact ⟨⟨[], rfl⟩, fun _ _ => rfl, fun _ _ _ => rfl, fun _ _ _ _ => rfl⟩
        | some urls =>
          rcases prepare_cases fs (downloadAssets.assetsDir fs fileKey customFolderName) with
            ⟨evs, hp⟩ | ⟨err, evs, hp⟩
          · rw [body_of_prepared up fs fileKey _ figmaToken customFolderName response tr urls evs
              hf hi hp]
            refine ⟨⟨_, rfl⟩, ?_, ?_, ?_⟩
            · intro err he
              cases he
            · intro r hr hn
              cases hr
              rw [hi] at hn
              cases hn
            · intro r _ he hm
              rw [prepare_error fs _ he hm] at hp
              cases hp
          · rw [body_of_prepare_error up fs fileKey _ figmaToken customFolderName response tr
              urls err evs hf hi hp]
            exact ⟨⟨[], rfl⟩, fun _ _ => rfl, fun _ _ _ => rfl, fun _ _ _ _ => rfl⟩

/-- Witness of C9: a batch resolution that fails with HTTP 500, a response
without `images`, and a directory that cannot be created each give the empty
map. -/
theorem downloadAssets_never_rejects_witness :
    (downloadAssets serverErrorUpstream sampleFileSystem "KEY" (some (sampleNodes.map some))
        "token" none).1 = .ok [] ∧
      (downloadAssets noImagesUpstream sampleFileSystem "KEY" (some (sampleNodes.map some))
        "token" none).1 = .ok [] ∧
      (downloadAssets sampleUpstream readOnlyFileSystem "KEY" (some (sampleNodes.map some))
        "token" none).1 = .ok [] :=
  ⟨(downloadAssets_never_rejects serverErrorUpstream sampleFileSystem "KEY" sampleNodes
      "token" none).2.1 (.http 500) (by decide),
    (downloadAssets_never_rejects noImagesUpstream sampleFileSystem "KEY" sampleNodes
      "token" none).2.2.1 { images := none } (by decide) rfl,
    (downloadAssets_never_rejects sampleUpstream readOnlyFileSystem "KEY" sampleNodes
      "token" none).2.2.2
      { images := some [("1:2", some "https://cdn/a"), ("1:3", none), ("1:4", some "https://cdn/b")] }
      (by decide) rfl rfl⟩

/-- C10: `downloadAssets` called with an empty or an absent node list resolves
to the empty map with an empty trace: no network request and no filesystem
operation is made, whatever the upstream and the filesystem would answer. -/
theorem downloadAssets_empty_nodes (up : Upstream) (fs : FileSystem)
    (fileKey figmaToken : String) (customFolderName : Option String) :
    downloadAssets up fs fileKey (some []) figmaToken customFolderName = (.ok [], []) ∧
      downloadAssets up fs fileKey none figmaToken customFolderName = (.ok [], []) :=
  ⟨rfl, rfl⟩

/-! ### The whole-frame fetch -/

theorem attempt_events (up : FrameUpstream) (fileKey figmaToken nodeId : String)
    (scale : Scale) (n : Nat) :
    (fetchAndCheckImage.attempt up fileKey figmaToken nodeId scale n).2.filter
        (fun e => !e.isDownload) = [.imagesRequest fileKey figmaToken nodeId scale] := by
  unfold fetchAndCheckImage.attempt
  simp only
  split
  · rfl
  · split
    · rfl
    · split
      · rfl
      · split
        · rfl
        · split <;> rfl

theorem fetchAndCheckImage_ok (up : FrameUpstream) (fileKey figmaToken nodeId : String)
    (scale : Scale) (retries n : Nat) (tr : List Event) (result : FetchResult)
    (h : (fetchAndCheckImage.attempt up fileKey figmaToken nodeId scale n).1 = .ok result) :
    fetchAndCheckImage up fileKey figmaToken nodeId scale retries n tr =
      (.ok result, n + 1,
        tr ++ (fetchAndCheckImage.attempt up fileKey figmaToken nodeId scale n).2) := by
  unfold fetchAndCheckImage
  cases ha : fetchAndCheckImage.attempt up fileKey figmaToken nodeId scale n with
  | mk res evs =>
    rw [ha] at h
    simp only at h
    subst h
    rfl

theorem fetchAndCheckImage_rate_limited (up : FrameUpstream)
    (fileKey figmaToken nodeId : String) (scale : Scale) (r n : Nat) (tr : List Event)
    (h : (fetchAndCheckImage.attempt up fileKey figmaToken nodeId scale n).1 =
      .error (.http 429)) :
    fetchAndCheckImage up fileKey figmaToken nodeId scale (r + 1) n tr =
      fetchAndCheckImage up fileKey figmaToken nodeId scale r (n + 1)
        (tr ++ (fetchAndCheckImage.attempt up fileKey figmaToken nodeId scale n).2 ++
          [.wait (min ((11 - ((r + 1 : Nat) : Int)) * 10000) 60000)]) := by
  conv_lhs => unfold fetchAndCheckImage
  cases ha : fetchAndCheckImage.attempt up fileKey figmaToken nodeId scale n with
  | mk res evs =>
    rw [ha] at h
    simp only at h
    subst h
    simp [Failure.status]

theorem fetchAndCheckImage_exhausted (up : FrameUpstream)
    (fileKey figmaToken nodeId : String) (scale : Scale) (n : Nat) (tr : List Event) :
    fetchAndCheckImage up fileKey figmaToken nodeId scale 0 n tr =
      ((fetchAndCheckImage.attempt up fileKey figmaToken nodeId scale n).1, n + 1,
        tr ++ (fetchAndCheckImage.attempt up fileKey figmaToken nodeId scale n).2) := by
  unfold fetchAndCheckImage
  cases ha : fetchAndCheckImage.attempt up fileKey figmaToken nodeId scale n with
  | mk res evs => cases res <;> rfl

theorem fetchAndCheckImage_not_rate_limited (up : FrameUpstream)
    (fileKey figmaToken nodeId : String) (scale : Scale) (retries n : Nat) (tr : List Event)
    (err : Failure)
    (h : (fetchAndCheckImage.attempt up fileKey figmaToken nodeId scale n).1 = .error err)
    (hs : err.status ≠ some 429) :
    fetchAndCheckImage up fileKey figmaToken nodeId scale retries n tr =
      (.error err, n + 1,
        tr ++ (fetchAndCheckImage.attempt up fileKey figmaToken nodeId scale n).2) := by
  unfold fetchAndCheckImage
  cases ha : fetchAndCheckImage.attempt up fileKey figmaToken nodeId scale n with
  | mk res evs =>
    rw [ha] at h
    simp only at h
    subst h
    cases retries <;> simp [hs]

theorem fetchAndCheckImage_run (up : FrameUpstream) (fileKey figmaToken nodeId : String)
    (scale : Scale) :
    ∀ (k r n : Nat) (tr : List Event), k ≤ r → r ≤ 10 →
      (∀ i < k, (fetchAndCheckImage.attempt up fileKey figmaToken nodeId scale (n + i)).1 =
        .error (.http 429)) →
      (k = r ∨ (fetchAndCheckImage.attempt up fileKey figmaToken nodeId scale (n + k)).1 ≠
        .error (.http 429)) →
      (fetchAndCheckImage up fileKey figmaToken nodeId scale r n tr).1 =
          (fetchAndCheckImage.attempt up fileKey figmaToken nodeId scale (n + k)).1 ∧
        (fetchAndCheckImage up fileKey figmaToken nodeId scale r n tr).2.1 = n + k + 1 ∧
        (fetchAndCheckImage up fileKey figmaToken nodeId scale r n tr).2.2.filter
            (fun e => !e.isDownload) =
          tr.filter (fun e => !e.isDownload) ++
            retrySegment (.imagesRequest fileKey figmaToken nodeId scale) frameBackoff
              (11 - r) k ++ [.imagesRequest fileKey figmaToken nodeId scale] := by
  intro k
  induction k with
  | zero =>
    intro r n tr _ _ _ hstop
    simp only [Nat.add_zero, retrySegment, List.append_nil]
    cases hr : (fetchAndCheckImage.attempt up fileKey figmaToken nodeId scale n).1 with
    | ok result =>
      rw [fetchAndCheckImage_ok up fileKey figmaToken nodeId scale r n tr result hr]
      simp [attempt_events]
    | error err =>
      rcases hstop with h0 | hne
      · subst h0
        rw [fetchAndCheckImage_exhausted, hr]
        simp [attempt_events]
      · rw [fetchAndCheckImage_not_rate_limited up fileKey figmaToken nodeId scale r n tr err hr
          (by
            intro hs
            rw [status_eq_429_iff] at hs
            subst hs
            exact hne hr)]
        simp [attempt_events]
  | succ k ih =>
    intro r n tr hk hr h429 hstop
    obtain ⟨r', rfl⟩ : ∃ r', r = r' + 1 := ⟨r - 1, by omega⟩
    have h0 : (fetchAndCheckImage.attempt up fileKey figmaToken nodeId scale n).1 =
        .error (.http 429) := by simpa using h429 0 (by omega)
    rw [fetchAndCheckImage_rate_limited up fileKey figmaToken nodeId scale r' n tr h0]
    have hih := ih r' (n + 1) (tr ++ (fetchAndCheckImage.attempt up fileKey figmaToken nodeId scale n).2 ++
        [.wait (min ((11 - ((r' + 1 : Nat) : Int)) * 10000) 60000)]) (by omega) (by omega)
      (fun i hi => by
        have e : n + 1 + i = n + (i + 1) := by omega
        rw [e]
        exact h429 (i + 1) (by omega))
      (by
        rcases hstop with h | h
        · left; omega
        · right
          have e : n + 1 + k = n + (k + 1) := by omega
          rwa [e])
    have e1 : n + 1 + k = n + (k + 1) := by omega
    have e2 : 11 - r' = (11 - (r' + 1)) + 1 := by omega
    have e3 : min ((11 - ((r' + 1 : Nat) : Int)) * 10000) 60000 =
        frameBackoff (11 - (r' + 1)) := by
      unfold frameBackoff
      have : ((11 - (r' + 1) : Nat) : Int) = 11 - ((r' + 1 : Nat) : Int) := by omega
      rw [this]
    rw [e1, e2, e3] at hih
    rw [e3]
    refine ⟨hih.1, hih.2.1, ?_⟩
    have hw : ∀ ms, Event.isDownload (.wait ms) = false := fun _ => rfl
    rw [hih.2.2]
    simp [retrySegment, attempt_events, List.filter_append, hw]

theorem exists_first_stop (P : Nat → Prop) (b : Nat) :
    ∃ k ≤ b, (∀ i < k, P i) ∧ (k = b ∨ ¬ P k) := by
  induction b with
  | zero => exact ⟨0, le_refl 0, fun i hi => absurd hi (Nat.not_lt_zero i), Or.inl rfl⟩
  | succ b ih =>
    obtain ⟨k, hk, hall, hstop⟩ := ih
    by_cases hp : P k
    · have hkb : k = b := hstop.resolve_right (fun h => h hp)
      subst hkb
      refine ⟨k + 1, le_refl _, ?_, Or.inl rfl⟩
      intro i hi
      rcases Nat.lt_succ_iff_lt_or_eq.mp hi with h | h
      · exact hall i h
      · rw [h]; exact hp
    · exact ⟨k, Nat.le_succ_of_le hk, hall, Or.inr hp⟩

/-- C7: `fetchAndCheckImage` with its default budget of 10 returns for every
upstream: there is a `k ≤ 10`, the number of leading executions that fail with
HTTP 429, such that it makes `k + 1` requests, all at the given scale, the
`j`-th of the first `k` followed by a wait of `min (j * 10) 60` seconds (10,
20, 30, 40, 50, 60, 60, 60, 60, 60), and ends with the outcome of execution
`k + 1`; so it retries at most 10 times and an 11th consecutive 429 is
rethrown. -/
theorem fetchAndCheckImage_budget (up : FrameUpstream) (fileKey figmaToken nodeId : String)
    (scale : Scale) :
    (∃ k ≤ 10,
        (fetchAndCheckImage up fileKey figmaToken nodeId scale 10 0 []).2.1 = k + 1 ∧
        (fetchAndCheckImage up fileKey figmaToken nodeId scale 10 0 []).2.2.filter
            (fun e => !e.isDownload) =
          retryTrace (.imagesRequest fileKey figmaToken nodeId scale) frameBackoff k) ∧
      (∀ k ≤ 10,
        (∀ i < k, (fetchAndCheckImage.attempt up fileKey figmaToken nodeId scale i).1 =
          .error (.http 429)) →
        (k = 10 ∨ (fetchAndCheckImage.attempt up fileKey figmaToken nodeId scale k).1 ≠
          .error (.http 429)) →
        (fetchAndCheckImage up fileKey figmaToken nodeId scale 10 0 []).1 =
            (fetchAndCheckImage.attempt up fileKey figmaToken nodeId scale k).1 ∧
          (fetchAndCheckImage up fileKey figmaToken nodeId scale 10 0 []).2.1 = k + 1 ∧
          (fetchAndCheckImage up fileKey figmaToken nodeId scale 10 0 []).2.2.filter
              (fun e => !e.isDownload) =
            retryTrace (.imagesRequest fileKey figmaToken nodeId scale) frameBackoff k) ∧
      (List.range 10).map (fun j => frameBackoff (j + 1)) =
        [10000, 20000, 30000, 40000, 50000, 60000, 60000, 60000, 60000, 60000] := by
  have main : ∀ k ≤ 10,
      (∀ i < k, (fetchAndCheckImage.attempt up fileKey figmaToken nodeId scale i).1 =
        .error (.http 429)) →
      (k = 10 ∨ (fetchAndCheckImage.attempt up fileKey figmaToken nodeId scale k).1 ≠
        .error (.http 429)) →
      (fetchAndCheckImage up fileKey figmaToken nodeId scale 10 0 []).1 =
          (fetchAndCheckImage.attempt up fileKey figmaToken nodeId scale k).1 ∧
        (fetchAndCheckImage up fileKey figmaToken nodeId scale 10 0 []).2.1 = k + 1 ∧
        (fetchAndCheckImage up fileKey figmaToken nodeId scale 10 0 []).2.2.filter
            (fun e => !e.isDownload) =
          retryTrace (.imagesRequest fileKey figmaToken nodeId scale) frameBackoff k := by
    intro k hk h429 hstop
    have h := fetchAndCheckImage_run up fileKey figmaToken nodeId scale k 10 0 [] hk (le_refl 10)
      (fun i hi => by simpa using h429 i hi) (by simpa using hstop)
    simpa [retryTrace] using h
  refine ⟨?_, main, by decide⟩
  obtain ⟨k, hk, h429, hstop⟩ := exists_first_stop
    (fun i => (fetchAndCheckImage.attempt up fileKey figmaToken nodeId scale i).1 =
      .error (.http 429)) 10
  exact ⟨k, hk, (main k hk h429 hstop).2⟩

/-- Witness of C7: eleven consecutive 429 answers end the call with the 429
failure after eleven requests and the ten waits of the schedule. -/
theorem fetchAndCheckImage_budget_witness :
    (fetchAndCheckImage rateLimitedFrameUpstream "KEY" "token" "9:9" Scale.one 10 0 []).1 =
        .error (.http 429) ∧
      (fetchAndCheckImage rateLimitedFrameUpstream "KEY" "token" "9:9" Scale.one 10 0 []).2.1 =
        11 ∧
      (fetchAndCheckImage rateLimitedFrameUpstream "KEY" "token" "9:9" Scale.one 10 0 []).2.2.filter
          (fun e => !e.isDownload) =
        [.imagesRequest "KEY" "token" "9:9" Scale.one, .wait 10000,
          .imagesRequest "KEY" "token" "9:9" Scale.one, .wait 20000,
          .imagesRequest "KEY" "token" "9:9" Scale.one, .wait 30000,
          .imagesRequest "KEY" "token" "9:9" Scale.one, .wait 40000,
          .imagesRequest "KEY" "token" "9:9" Scale.one, .wait 50000,
          .imagesRequest "KEY" "token" "9:9" Scale.one, .wait 60000,
          .imagesRequest "KEY" "token" "9:9" Scale.one, .wait 60000,
          .imagesRequest "KEY" "token" "9:9" Scale.one, .wait 60000,
          .imagesRequest "KEY" "token" "9:9" Scale.one, .wait 60000,
          .imagesRequest "KEY" "token" "9:9" Scale.one, .wait 60000,
          .imagesRequest "KEY" "token" "9:9" Scale.one] :=
  (fetchAndCheckImage_budget rateLimitedFrameUpstream "KEY" "token" "9:9" Scale.one).2.1 10
    (by decide) (by decide) (by decide)

theorem requestedScales_append (a b : List Event) :
    requestedScales (a ++ b) = requestedScales a ++ requestedScales b := by
  induction a with
  | nil => rfl
  | cons e rest ih => cases e <;> simp [requestedScales, ih]

theorem requestedScales_attempt (up : FrameUpstream) (fileKey figmaToken nodeId : String)
    (scale : Scale) (n : Nat) :
    requestedScales (fetchAndCheckImage.attempt up fileKey figmaToken nodeId scale n).2 =
      [scale] := by
  unfold fetchAndCheckImage.attempt
  simp only
  split
  · rfl
  · split
    · rfl
    · split
      · rfl
      · split
        · rfl
        · split <;> rfl

/-- C3: in the whole-frame fetch, when every request made succeeds (with
payload `p2` at scale 2, `p1` at scale 1, `p05` at scale 0.5), the scales
requested are `[2]` when `p2` is within `3 * 1024 * 1024` bytes, `[2, 1]` when
`p2` is larger and `p1` is within the ceiling, `[2, 1, 0.5]` when both are
larger, and nothing else; the image used is the payload of the last request
made, the one at scale 0.5 whatever its size. -/
theorem downloadImage_scales (up : FrameUpstream) (fileKey figmaToken nodeId : String)
    (p2 p1 p05 : Bytes)
    (h2 : (fetchAndCheckImage.attempt up fileKey figmaToken nodeId Scale.two 0).1 =
      .ok { buffer := p2, size := p2.length })
    (h1 : p2.length > 3 * 1024 * 1024 →
      (fetchAndCheckImage.attempt up fileKey figmaToken nodeId Scale.one 1).1 =
        .ok { buffer := p1, size := p1.length })
    (h05 : p2.length > 3 * 1024 * 1024 → p1.length > 3 * 1024 * 1024 →
      (fetchAndCheckImage.attempt up fileKey figmaToken nodeId Scale.half 2).1 =
        .ok { buffer := p05, size := p05.length }) :
    requestedScales (convertFigma.downloadImage up fileKey figmaToken nodeId).2 =
        (if p2.length > 3 * 1024 * 1024 then
          if p1.length > 3 * 1024 * 1024 then [Scale.two, Scale.one, Scale.half]
          else [Scale.two, Scale.one]
        else [Scale.two]) ∧
      (convertFigma.downloadImage up fileKey figmaToken nodeId).1 =
        .ok (if p2.length > 3 * 1024 * 1024 then
          if p1.length > 3 * 1024 * 1024 then p05 else p1
        else p2) := by
  unfold convertFigma.downloadImage
  rw [fetchAndCheckImage_ok up fileKey figmaToken nodeId Scale.two 10 0 [] _ h2]
  simp only [sizeLimit]
  by_cases hb2 : p2.length > 3 * 1024 * 1024
  · rw [if_pos hb2, if_pos hb2, if_pos hb2,
      fetchAndCheckImage_ok up fileKey figmaToken nodeId Scale.one 10 1 _ _ (h1 hb2)]
    simp only
    by_cases hb1 : p1.length > 3 * 1024 * 1024
    · rw [if_pos hb1, if_pos hb1, if_pos hb1,
        fetchAndCheckImage_ok up fileKey figmaToken nodeId Scale.half 10 2 _ _ (h05 hb2 hb1)]
      simp [requestedScales_append, requestedScales_attempt, requestedScales]
    · rw [if_neg hb1, if_neg hb1, if_neg hb1]
      simp [requestedScales_append, requestedScales_attempt, requestedScales]
  · rw [if_neg hb2, if_neg hb2, if_neg hb2]
    simp only
    rw [if_neg hb2]
    simp [requestedScales_append, requestedScales_attempt, requestedScales]

/-- Witness of C3: with a 4 MiB payload at every scale the scales requested
are 2, 1 and 0.5, in this order, and the 4 MiB payload of scale 0.5 is the
image used. -/
theorem downloadImage_scales_witness :
    requestedScales (convertFigma.downloadImage oversizedFrameUpstream "KEY" "token" "9:9").2 =
        [Scale.two, Scale.one, Scale.half] ∧
      (convertFigma.downloadImage oversizedFrameUpstream "KEY" "token" "9:9").1 =
        .ok fourMiB := by
  have h := downloadImage_scales oversizedFrameUpstream "KEY" "token" "9:9"
    fourMiB fourMiB fourMiB rfl (fun _ => rfl) (fun _ _ => rfl)
  have hlen : fourMiB.length = 4 * 1024 * 1024 := List.length_replicate _ _
  simpa [hlen] using h

/-! ### The destination folder -/

theorem isUpper_iff (c : Char) : c.isUpper = true ↔ 65 ≤ c.toNat ∧ c.toNat ≤ 90 := by
  simp only [Char.isUpper, Char.toNat, Bool.and_eq_true, decide_eq_true_eq, ge_iff_le,
    UInt32.le_def, BitVec.le_def]
  rfl

theorem isLower_iff (c : Char) : c.isLower = true ↔ 97 ≤ c.toNat ∧ c.toNat ≤ 122 := by
  simp only [Char.isLower, Char.toNat, Bool.and_eq_true, decide_eq_true_eq, ge_iff_le,
    UInt32.le_def, BitVec.le_def]
  rfl

theorem isDigit_iff (c : Char) : c.isDigit = true ↔ 48 ≤ c.toNat ∧ c.toNat ≤ 57 := by
  simp only [Char.isDigit, Char.toNat, Bool.and_eq_true, decide_eq_true_eq, ge_iff_le,
    UInt32.le_def, BitVec.le_def]
  rfl

theorem isAlphanum_iff (c : Char) : c.isAlphanum = true ↔ isAlnumUnit c.toNat = true := by
  simp only [Char.isAlphanum, Char.isAlpha, Bool.or_eq_true, isUpper_iff, isLower_iff,
    isDigit_iff, isAlnumUnit, decide_eq_true_eq]
  tauto

theorem toNat_ofNat_small (n : Nat) (h : n < 128) : (Char.ofNat n).toNat = n := by
  have hv : n.isValidChar := Or.inl (by omega)
  simp only [Char.ofNat, hv, dite_true, Char.ofNatAux, Char.toNat]
  rfl

theorem toNat_toLower (c : Char) :
    c.toLower.toNat = if 65 ≤ c.toNat ∧ c.toNat ≤ 90 then c.toNat + 32 else c.toNat := by
  unfold Char.toLower
  simp only [ge_iff_le]
  split
  · rename_i h
    exact toNat_ofNat_small _ (by omega)
  · rfl

theorem toNat_lt_of_bmp (c : Char) (h : ¬ (c.val ≥ 0x10000)) : c.toNat < 0x10000 := by
  simp only [ge_iff_le, UInt32.le_def, BitVec.le_def, not_le] at h
  exact h

theorem toNat_ge_of_not_bmp (c : Char) (h : c.val ≥ 0x10000) : ¬ c.toNat < 0x10000 := by
  simp only [ge_iff_le, UInt32.le_def, BitVec.le_def] at h
  exact Nat.not_lt.mpr h

theorem utf16_sanitizeChar (c : Char) :
    (((sanitizeChar c).map Char.toLower).map utf16Units).flatten =
      (utf16Units c).map sanitizeUnit := by
  unfold sanitizeChar
  by_cases ha : c.isAlphanum = true
  · have hu := (isAlphanum_iff c).mp ha
    have hlt : c.toNat < 128 := by
      simp only [isAlnumUnit, Bool.or_eq_true, decide_eq_true_eq] at hu
      omega
    have hl := toNat_toLower c
    have hlt2 : c.toLower.toNat < 0x10000 := by
      rw [hl]; split <;> omega
    have e1 : utf16Units c.toLower = [c.toLower.toNat] := by
      unfold utf16Units; rw [if_pos hlt2]
    have e2 : utf16Units c = [c.toNat] := by
      unfold utf16Units; rw [if_pos (by omega)]
    simp only [ha, if_true, List.map_cons, List.map_nil, List.flatten_cons, List.flatten_nil,
      List.append_nil, e1, e2, sanitizeUnit, hu, hl]
  · have hu : isAlnumUnit c.toNat = false := by
      cases h : isAlnumUnit c.toNat
      · rfl
      · exact absurd ((isAlphanum_iff c).mpr h) ha
    by_cases hb : c.val ≥ 0x10000
    · have hge := toNat_ge_of_not_bmp c hb
      have hn : ¬ c.toNat < 65536 := hge
      have h1 : isAlnumUnit (0xD800 + (c.toNat - 0x10000) / 0x400) = false := by
        simp only [isAlnumUnit, Bool.or_eq_false_iff, decide_eq_false_iff_not]
        omega
      have h2 : isAlnumUnit (0xDC00 + (c.toNat - 0x10000) % 0x400) = false := by
        simp only [isAlnumUnit, Bool.or_eq_false_iff, decide_eq_false_iff_not]
        omega
      simp [ha, hb, utf16Units, hn, sanitizeUnit, h1, h2]
    · have hlt := toNat_lt_of_bmp c hb
      simp [ha, hb, utf16Units, hlt, sanitizeUnit, hu]
theorem utf16_sanitize_chars (l : List Char) :
    ((((l.map sanitizeChar).flatten).map Char.toLower).map utf16Units).flatten =
      ((l.map utf16Units).flatten).map sanitizeUnit := by
  induction l with
  | nil => rfl
  | cons c rest ih =>
    simp only [List.map_cons, List.flatten_cons, List.map_append, List.flatten_append, ih,
      utf16_sanitizeChar]

theorem utf16_sanitizeFolderName (label : String) :
    utf16 (sanitizeFolderName label) = (utf16 label).map sanitizeUnit :=
  utf16_sanitize_chars label.data

theorem isFolderUnit_sanitizeUnit (u : Nat) : isFolderUnit (sanitizeUnit u) = true := by
  unfold sanitizeUnit
  by_cases h : isAlnumUnit u = true
  · rw [if_pos h]
    simp only [isAlnumUnit, Bool.or_eq_true, decide_eq_true_eq] at h
    simp only [isFolderUnit, Bool.or_eq_true, decide_eq_true_eq]
    split <;> omega
  · rw [if_neg h]
    decide

theorem toLower_fixed_of_not_upper (c : Char) (h : ¬ (65 ≤ c.toNat ∧ c.toNat ≤ 90)) :
    c.toLower = c := by
  unfold Char.toLower
  simp only [ge_iff_le]
  rw [if_neg h]

/-- A character of a sanitized folder name: the transform leaves it as it is. -/
theorem sanitizeChar_stable (c : Char) :
    ∀ d ∈ (sanitizeChar c).map Char.toLower,
      sanitizeChar d = [d] ∧ d.toLower = d := by
  intro d hd
  unfold sanitizeChar at hd
  by_cases ha : c.isAlphanum = true
  · simp only [ha, if_true, List.map_cons, List.map_nil, List.mem_singleton] at hd
    subst hd
    have hu := (isAlphanum_iff c).mp ha
    simp only [isAlnumUnit, Bool.or_eq_true, decide_eq_true_eq] at hu
    have hl := toNat_toLower c
    have hnu : ¬ (65 ≤ c.toLower.toNat ∧ c.toLower.toNat ≤ 90) := by
      rw [hl]; split <;> omega
    have hal : c.toLower.isAlphanum = true := by
      rw [isAlphanum_iff]
      simp only [isAlnumUnit, Bool.or_eq_true, decide_eq_true_eq]
      rw [hl]; split <;> omega
    refine ⟨?_, toLower_fixed_of_not_upper _ hnu⟩
    unfold sanitizeChar
    rw [if_pos hal]
  · have hd2 : d = '_' := by
      by_cases hb : c.val ≥ 0x10000
      · simp only [ha, hb, if_true, Bool.false_eq_true, if_false, List.map_cons, List.map_nil,
          List.mem_cons, List.mem_singleton] at hd
        rcases hd with h | h | h
        · exact h
        · exact h
        · cases h
      · simp only [ha, hb, Bool.false_eq_true, if_false, List.map_cons, List.map_nil,
          List.mem_singleton] at hd
        exact hd
    subst hd2
    exact ⟨by decide, by decide⟩

theorem sanitize_chars_stable (l : List Char) (h : ∀ d ∈ l, sanitizeChar d = [d] ∧ d.toLower = d) :
    ((l.map sanitizeChar).flatten).map Char.toLower = l := by
  induction l with
  | nil => rfl
  | cons c rest ih =>
    have hc := h c (List.mem_cons_self _ _)
    simp only [List.map_cons, List.flatten_cons, List.map_append, hc.1, List.map_nil, hc.2,
      ih (fun d hd => h d (List.mem_cons_of_mem _ hd)), List.singleton_append]

theorem sanitizeFolderName_idempotent (label : String) :
    sanitizeFolderName (sanitizeFolderName label) = sanitizeFolderName label := by
  unfold sanitizeFolderName
  have h : ∀ d ∈ ((label.data.map sanitizeChar).flatten).map Char.toLower,
      sanitizeChar d = [d] ∧ d.toLower = d := by
    intro d hd
    obtain ⟨x, hx, rfl⟩ := List.mem_map.mp hd
    obtain ⟨seg, hseg, hxs⟩ := List.mem_flatten.mp hx
    obtain ⟨c, _, rfl⟩ := List.mem_map.mp hseg
    exact sanitizeChar_stable c _ (List.mem_map.mpr ⟨x, hxs, rfl⟩)
  have e : (((label.data.map sanitizeChar).flatten).map Char.toLower).asString.data =
      ((label.data.map sanitizeChar).flatten).map Char.toLower := rfl
  rw [e, sanitize_chars_stable _ h]

/-- C13: the destination folder segment of `downloadAssets` is the file key
when the label is absent or empty, and otherwise the sanitized label, which
is, code unit by code unit, the label with every unit outside `A-Z`, `a-z`,
`0-9` replaced by `_` and every letter lower-cased: a string of the same
JavaScript length made only of `a-z`, `0-9` and `_`, on which the transform is
idempotent. -/
theorem safeFolderName_spec (fileKey label : String) :
    downloadAssets.safeFolderName fileKey (some label) =
        (if label = "" then fileKey else sanitizeFolderName label) ∧
      downloadAssets.safeFolderName fileKey none = fileKey ∧
      utf16 (sanitizeFolderName label) = (utf16 label).map sanitizeUnit ∧
      jsLength (sanitizeFolderName label) = jsLength label ∧
      (∀ u ∈ utf16 (sanitizeFolderName label), isFolderUnit u = true) ∧
      sanitizeFolderName (sanitizeFolderName label) = sanitizeFolderName label := by
  refine ⟨?_, rfl, utf16_sanitizeFolderName label, ?_, ?_, sanitizeFolderName_idempotent label⟩
  · unfold downloadAssets.safeFolderName
    by_cases h : label = "" <;> simp [h]
  · unfold jsLength
    rw [utf16_sanitizeFolderName, List.length_map]
  · intro u hu
    rw [utf16_sanitizeFolderName] at hu
    obtain ⟨v, _, rfl⟩ := List.mem_map.mp hu
    exact isFolderUnit_sanitizeUnit v

/-! ### File names -/

theorem replaceColons_data (s : String) :
    (replaceColons s).data = s.data.map (fun c => if c = ':' then '-' else c) := rfl

theorem filename_data (id : String) :
    (downloadAssets.filename id).data =
      id.data.map (fun c => if c = ':' then '-' else c) ++ ['.', 'p', 'n', 'g'] := by
  unfold downloadAssets.filename
  rw [String.data_append, replaceColons_data]

theorem colon_not_mem_filename (id : String) : ':' ∉ (downloadAssets.filename id).data := by
  rw [filename_data]
  intro h
  rcases List.mem_append.mp h with h | h
  · obtain ⟨c, _, hc⟩ := List.mem_map.mp h
    by_cases h0 : c = ':'
    · rw [if_pos h0] at hc
      cases hc
    · rw [if_neg h0] at hc
      exact h0 hc
  · revert h
    decide

theorem mem_filename_iff (id : String) (x : Char) (h1 : x ≠ ':') (h2 : x ≠ '-')
    (h3 : x ∉ ['.', 'p', 'n', 'g']) :
    x ∈ (downloadAssets.filename id).data ↔ x ∈ id.data := by
  rw [filename_data]
  constructor
  · intro h
    rcases List.mem_append.mp h with h | h
    · obtain ⟨c, hc, hx⟩ := List.mem_map.mp h
      by_cases h0 : c = ':'
      · rw [if_pos h0] at hx
        exact absurd hx.symm h2
      · rw [if_neg h0] at hx
        rwa [← hx]
    · exact absurd h h3
  · intro h
    exact List.mem_append_left _ (List.mem_map.mpr ⟨x, h, by rw [if_neg h1]⟩)

theorem replaceColons_injOn (a b : List Char) (ha : '-' ∉ a) (hb : '-' ∉ b)
    (h : a.map (fun c => if c = ':' then '-' else c) =
      b.map (fun c => if c = ':' then '-' else c)) : a = b := by
  induction a generalizing b with
  | nil =>
    cases b with
    | nil => rfl
    | cons y ys => simp at h
  | cons x xs ih =>
    cases b with
    | nil => simp at h
    | cons y ys =>
      simp only [List.map_cons, List.cons.injEq] at h
      have hx : x ≠ '-' := fun e => ha (by rw [e]; exact List.mem_cons_self _ _)
      have hy : y ≠ '-' := fun e => hb (by rw [e]; exact List.mem_cons_self _ _)
      have hxy : x = y := by
        have h1 := h.1
        by_cases e1 : x = ':'
        · by_cases e2 : y = ':'
          · rw [e1, e2]
          · rw [if_pos e1, if_neg e2] at h1
            exact absurd h1.symm hy
        · by_cases e2 : y = ':'
          · rw [if_neg e1, if_pos e2] at h1
            exact absurd h1 hx
          · rw [if_neg e1, if_neg e2] at h1
            exact h1
      rw [hxy, ih ys (fun m => ha (List.mem_cons_of_mem _ m))
        (fun m => hb (List.mem_cons_of_mem _ m)) h.2]

theorem string_append_left_cancel (p a b : String) (h : p ++ a = p ++ b) : a = b := by
  have hd : (p ++ a).data = (p ++ b).data := by rw [h]
  rw [String.data_append, String.data_append] at hd
  exact String.ext (List.append_cancel_left hd)

theorem string_append_right_cancel (a b q : String) (h : a ++ q = b ++ q) : a = b := by
  have hd : (a ++ q).data = (b ++ q).data := by rw [h]
  rw [String.data_append, String.data_append] at hd
  exact String.ext (List.append_cancel_right hd)

theorem filename_eq_iff (a b : String) :
    downloadAssets.filename a = downloadAssets.filename b ↔ replaceColons a = replaceColons b := by
  unfold downloadAssets.filename
  exact ⟨string_append_right_cancel _ _ _, fun h => by rw [h]⟩

theorem filename_injOn (a b : String) (ha : '-' ∉ a.data) (hb : '-' ∉ b.data)
    (h : downloadAssets.filename a = downloadAssets.filename b) : a = b := by
  have h2 := (filename_eq_iff a b).mp h
  have h3 : (replaceColons a).data = (replaceColons b).data := by rw [h2]
  rw [replaceColons_data, replaceColons_data] at h3
  exact String.ext (replaceColons_injOn a.data b.data ha hb h3)
/-! ### Paths -/

theorem splitSlash_ne_nil (a : List Char) : splitSlash a ≠ [] := by
  induction a with
  | nil => simp [splitSlash]
  | cons c rest ih =>
    unfold splitSlash
    by_cases h : c = '/'
    · simp [h]
    · rw [if_neg h]
      cases hs : splitSlash rest with
      | nil => simp
      | cons seg more => simp

theorem splitSlash_append (a b : List Char) :
    splitSlash (a ++ '/' :: b) = splitSlash a ++ splitSlash b := by
  induction a with
  | nil => simp [splitSlash]
  | cons c rest ih =>
    rw [List.cons_append, splitSlash, splitSlash, ih]
    by_cases h : c = '/'
    · simp [h]
    · rw [if_neg h, if_neg h]
      cases hs : splitSlash rest with
      | nil => exact absurd hs (splitSlash_ne_nil rest)
      | cons seg more => simp

theorem splitSlash_of_no_slash (b : List Char) (h : '/' ∉ b) : splitSlash b = [b] := by
  induction b with
  | nil => rfl
  | cons c rest ih =>
    have hc : c ≠ '/' := fun e => h (by rw [e]; exact List.mem_cons_self _ _)
    rw [splitSlash, if_neg hc, ih (fun m => h (List.mem_cons_of_mem _ m))]

theorem normalizeSegments_append_last (allowAboveRoot : Bool) (f : String)
    (h0 : f ≠ "") (h1 : f ≠ ".") (h2 : f ≠ "..") :
    ∀ (xs res : List String),
      path.normalizeSegments allowAboveRoot (xs ++ [f]) res =
        path.normalizeSegments allowAboveRoot xs res ++ [f] := by
  intro xs
  induction xs with
  | nil =>
    intro res
    simp [path.normalizeSegments, h0, h1, h2]
  | cons seg rest ih =>
    intro res
    simp only [List.cons_append, path.normalizeSegments]
    by_cases ha : seg = "" ∨ seg = "."
    · rw [if_pos ha, if_pos ha]
      exact ih _
    · rw [if_neg ha, if_neg ha]
      by_cases hb : seg = ".."
      · rw [if_pos hb, if_pos hb]
        cases res with
        | nil => exact ih _
        | cons last res' =>
          simp only
          by_cases hl : last ≠ ".."
          · rw [if_pos hl, if_pos hl]
            exact ih _
          · rw [if_neg hl, if_neg hl]
            exact ih _
      · rw [if_neg hb, if_neg hb]
        exact ih _

theorem intercalate_go_append_last (s f : String) :
    ∀ (xs : List String) (acc : String),
      String.intercalate.go acc s (xs ++ [f]) = String.intercalate.go acc s xs ++ s ++ f := by
  intro xs
  induction xs with
  | nil => intro acc; rfl
  | cons x rest ih =>
    intro acc
    show String.intercalate.go (acc ++ s ++ x) s (rest ++ [f]) = _
    rw [ih]
    rfl

theorem intercalate_append_last (s f : String) (xs : List String) :
    s.intercalate (xs ++ [f]) = if xs = [] then f else s.intercalate xs ++ s ++ f := by
  cases xs with
  | nil => rfl
  | cons x rest =>
    simp only [List.cons_append, String.intercalate, intercalate_go_append_last]
    simp
theorem string_ne_empty_of_data (s : String) (h : s.data ≠ []) : s ≠ "" := by
  intro e
  rw [e] at h
  exact h rfl

theorem append_ne_empty_right (a b : String) (h : b ≠ "") : a ++ b ≠ "" := by
  intro hab
  apply h
  have hd : (a ++ b).data = [] := by rw [hab]
  rw [String.data_append] at hd
  exact String.ext (List.append_eq_nil.mp hd).2

theorem normalize_dir_file (dir f : String) (hd : dir ≠ "") (hs : '/' ∉ f.data)
    (h0 : f ≠ "") (h1 : f ≠ ".") (h2 : f ≠ "..") :
    path.normalize (dir ++ "/" ++ f) = path.directoryPrefix dir ++ f := by
  have hdd : dir.data ≠ [] := fun e => hd (String.ext e)
  have hfd : f.data ≠ [] := fun e => h0 (String.ext e)
  have hpd : (dir ++ "/" ++ f).data = dir.data ++ '/' :: f.data := by
    rw [String.data_append, String.data_append]
    simp
  have hp : dir ++ "/" ++ f ≠ "" := string_ne_empty_of_data _ (by rw [hpd]; simp)
  have hhead : (dir ++ "/" ++ f).data.head? = dir.data.head? := by
    rw [hpd]
    cases hdata : dir.data with
    | nil => exact absurd hdata hdd
    | cons c rest => rfl
  have hlast : ¬ ((dir ++ "/" ++ f).data.getLast? = some '/') := by
    rw [hpd]
    intro h
    have h3 : (dir.data ++ '/' :: f.data).getLast? = f.data.getLast? := by
      rw [show dir.data ++ '/' :: f.data = (dir.data ++ ['/']) ++ f.data by simp]
      rw [List.getLast?_append]
      cases hx : f.data.getLast? with
      | none => exact absurd (List.getLast?_eq_none_iff.mp hx) hfd
      | some c => rfl
    rw [h3] at h
    exact hs (List.mem_of_getLast?_eq_some h)
  have hsplit : (splitSlash (dir ++ "/" ++ f).data).map List.asString =
      (splitSlash dir.data).map List.asString ++ [f] := by
    rw [hpd, splitSlash_append, splitSlash_of_no_slash _ hs, List.map_append]
    rfl
  have hbody : "/".intercalate (path.segments dir ++ [f]) ≠ "" := by
    rw [intercalate_append_last]
    split
    · exact h0
    · exact append_ne_empty_right _ _ h0
  unfold path.normalize
  rw [if_neg hp]
  simp only [hhead, hlast, hsplit, normalizeSegments_append_last _ f h0 h1 h2]
  have hseg : path.normalizeSegments (!decide (dir.data.head? = some '/'))
      ((splitSlash dir.data).map List.asString) [] = path.segments dir := rfl
  rw [hseg]
  simp only [hbody, false_and, and_false, if_false]
  unfold path.directoryPrefix path.isAbsolute
  rw [intercalate_append_last]
  by_cases ha : dir.data.head? = some '/' <;> by_cases hn : path.segments dir = [] <;>
    simp [ha, hn, String.append_assoc]

theorem join_dir_file (dir f : String) (hd : dir ≠ "") (hs : '/' ∉ f.data)
    (h0 : f ≠ "") (h1 : f ≠ ".") (h2 : f ≠ "..") :
    path.join [dir, f] = path.directoryPrefix dir ++ f := by
  unfold path.join
  have hfilter : [dir, f].filter (fun a => decide (a ≠ "")) = [dir, f] := by
    simp [hd, h0]
  rw [hfilter]
  exact normalize_dir_file dir f hd hs h0 h1 h2

theorem filename_not_special (id : String) :
    downloadAssets.filename id ≠ "" ∧ downloadAssets.filename id ≠ "." ∧
      downloadAssets.filename id ≠ ".." := by
  have hlen : 4 ≤ (downloadAssets.filename id).data.length := by
    rw [filename_data]
    simp
  refine ⟨?_, ?_, ?_⟩ <;> intro e <;> rw [e] at hlen <;> revert hlen <;> decide

theorem localPath_of_no_slash (assetsDir id : String) (hd : assetsDir ≠ "")
    (hs : '/' ∉ id.data) :
    downloadAssets.localPath assetsDir id =
      path.directoryPrefix assetsDir ++ downloadAssets.filename id := by
  have hsf : '/' ∉ (downloadAssets.filename id).data :=
    fun h => hs ((mem_filename_iff id '/' (by decide) (by decide) (by decide)).mp h)
  obtain ⟨h0, h1, h2⟩ := filename_not_special id
  exact join_dir_file assetsDir _ hd hsf h0 h1 h2

/-- C11 fails on the code: only `:` is replaced, so an identity with a path
separator keeps it in the file name; the file is then written below, or
outside, the destination directory. -/
theorem filename_keeps_separators :
    downloadAssets.filename "a/b" = "a/b.png" ∧
      '/' ∈ (downloadAssets.filename "a/b").data ∧
      '\\' ∈ (downloadAssets.filename "a\\b").data ∧
      downloadAssets.localPath "/app/client/public/assets/images/KEY" "a/b" =
        "/app/client/public/assets/images/KEY/a/b.png" ∧
      downloadAssets.localPath "/app/client/public/assets/images/KEY" "../../x" =
        "/app/client/public/assets/x.png" ∧
      (downloadAssets separatorUpstream sampleFileSystem "KEY"
          (some [some { id := "a/b", name := "hero" }]) "token" none).2 =
        [.imagesRequest "KEY" "token" "a/b" Scale.two,
          .existsSync "/app/client/public/assets/images/KEY",
          .mkdirSync "/app/client/public/assets/images/KEY",
          .download "https://cdn/a",
          .writeFileSync "/app/client/public/assets/images/KEY/a/b.png"] := by
  decide

/-- C11 as amended: the file name never contains `:`; it contains `/` (or
`\`) exactly when the identity does; and for an identity without `/` the
file is written directly inside the destination directory: its path is the
normalized directory followed by the file name. -/
theorem filename_separators (id : String) :
    ':' ∉ (downloadAssets.filename id).data ∧
      ('/' ∈ (downloadAssets.filename id).data ↔ '/' ∈ id.data) ∧
      ('\\' ∈ (downloadAssets.filename id).data ↔ '\\' ∈ id.data) ∧
      (∀ assetsDir, assetsDir ≠ "" → '/' ∉ id.data →
        downloadAssets.localPath assetsDir id =
          path.directoryPrefix assetsDir ++ downloadAssets.filename id) := by
  refine ⟨colon_not_mem_filename id,
    mem_filename_iff id '/' (by decide) (by decide) (by decide),
    mem_filename_iff id '\\' (by decide) (by decide) (by decide), ?_⟩
  intro assetsDir hd hs
  exact localPath_of_no_slash assetsDir id hd hs

/-- Witness of the amended C11: the file of identity `1:2` is `1-2.png`,
directly inside the destination directory. -/
theorem filename_separators_witness :
    downloadAssets.localPath "/app/client/public/assets/images/hero_section" "1:2" =
      path.directoryPrefix "/app/client/public/assets/images/hero_section" ++
        downloadAssets.filename "1:2" ∧
    path.directoryPrefix "/app/client/public/assets/images/hero_section" ++
        downloadAssets.filename "1:2" =
      "/app/client/public/assets/images/hero_section/1-2.png" :=
  ⟨(filename_separators "1:2").2.2.2 "/app/client/public/assets/images/hero_section"
      (by decide) (by decide),
    by decide⟩

/-- C12 fails on the code: the identities `1:2` and `1-2` are distinct and
get the same file name, the same local file and the same public path. -/
theorem filename_collision :
    ("1:2" : String) ≠ "1-2" ∧
      downloadAssets.filename "1:2" = downloadAssets.filename "1-2" ∧
      downloadAssets collidingUpstream sampleFileSystem "KEY"
          (some [some { id := "1:2", name := "a" }, some { id := "1-2", name := "b" }])
          "token" none =
        (.ok [("1:2", "/assets/images/KEY/1-2.png"), ("1-2", "/assets/images/KEY/1-2.png")],
          [.imagesRequest "KEY" "token" "1:2,1-2" Scale.two,
            .existsSync "/app/client/public/assets/images/KEY",
            .mkdirSync "/app/client/public/assets/images/KEY",
            .download "https://cdn/a", .download "https://cdn/b",
            .writeFileSync "/app/client/public/assets/images/KEY/1-2.png",
            .writeFileSync "/app/client/public/assets/images/KEY/1-2.png"]) := by
  decide

theorem replace_char_eq_iff (x y : Char) :
    (if x = ':' then '-' else x) = (if y = ':' then '-' else y) ↔ SameUpToColon x y := by
  unfold SameUpToColon
  by_cases e1 : x = ':'
  · by_cases e2 : y = ':'
    · rw [if_pos e1, if_pos e2, e1, e2]
      exact ⟨fun _ => Or.inl rfl, fun _ => rfl⟩
    · rw [if_pos e1, if_neg e2]
      constructor
      · intro h
        exact Or.inr ⟨Or.inl e1, Or.inr h.symm⟩
      · rintro (h | ⟨_, h | h⟩)
        · exact absurd (h.symm.trans e1) e2
        · exact absurd h e2
        · exact h.symm
  · by_cases e2 : y = ':'
    · rw [if_neg e1, if_pos e2]
      constructor
      · intro h
        exact Or.inr ⟨Or.inr h, Or.inl e2⟩
      · rintro (h | ⟨h | h, _⟩)
        · exact absurd (h.trans e2) e1
        · exact absurd h e1
        · exact h
    · rw [if_neg e1, if_neg e2]
      constructor
      · intro h
        exact Or.inl h
      · rintro (h | ⟨h1 | h1, h2 | h2⟩)
        · exact h
        · exact absurd h1 e1
        · exact absurd h1 e1
        · exact absurd h2 e2
        · rw [h1, h2]

theorem map_replace_eq_iff (a b : List Char) :
    a.map (fun c => if c = ':' then '-' else c) =
        b.map (fun c => if c = ':' then '-' else c) ↔
      List.Forall₂ SameUpToColon a b := by
  induction a generalizing b with
  | nil =>
    cases b with
    | nil => exact ⟨fun _ => List.Forall₂.nil, fun _ => rfl⟩
    | cons y ys =>
      constructor
      · intro h
        simp at h
      · intro h
        cases h
  | cons x xs ih =>
    cases b with
    | nil =>
      constructor
      · intro h
        simp at h
      · intro h
        cases h
    | cons y ys =>
      simp only [List.map_cons, List.cons.injEq, List.forall₂_cons]
      rw [replace_char_eq_iff x y, ih ys]

theorem replaceColons_eq_iff (a b : String) :
    replaceColons a = replaceColons b ↔ List.Forall₂ SameUpToColon a.data b.data := by
  rw [← map_replace_eq_iff]
  constructor
  · intro h
    have hd : (replaceColons a).data = (replaceColons b).data := by rw [h]
    rwa [replaceColons_data, replaceColons_data] at hd
  · intro h
    apply String.ext
    rw [replaceColons_data, replaceColons_data]
    exact h

theorem publicPath_eq_iff (safeFolderName a b : String) :
    downloadAssets.publicPath safeFolderName a = downloadAssets.publicPath safeFolderName b ↔
      replaceColons a = replaceColons b := by
  rw [← filename_eq_iff]
  unfold downloadAssets.publicPath
  exact ⟨string_append_left_cancel _ _ _, fun h => by rw [h]⟩

theorem localPath_eq_iff (assetsDir a b : String) (hd : assetsDir ≠ "")
    (hsa : '/' ∉ a.data) (hsb : '/' ∉ b.data) :
    downloadAssets.localPath assetsDir a = downloadAssets.localPath assetsDir b ↔
      replaceColons a = replaceColons b := by
  rw [← filename_eq_iff, localPath_of_no_slash assetsDir a hd hsa,
    localPath_of_no_slash assetsDir b hd hsb]
  exact ⟨string_append_left_cancel _ _ _, fun h => by rw [h]⟩

/-- C12 as amended, for every two identities: they get the same file name,
and the same public path under any folder, exactly when they are equal after
the replacement of `:` by `-`, that is, when they have the same length and
differ only at positions where each has `:` or `-`; when neither contains
`/`, they get the same local file under the same condition. Hence two distinct
identities that contain no `-` get distinct file names and distinct public
paths, and, when they contain no `/` either, distinct local files. -/
theorem filename_distinct (a b : String) :
    (downloadAssets.filename a = downloadAssets.filename b ↔
        replaceColons a = replaceColons b) ∧
      (∀ safeFolderName,
        downloadAssets.publicPath safeFolderName a =
            downloadAssets.publicPath safeFolderName b ↔
          replaceColons a = replaceColons b) ∧
      (∀ assetsDir, assetsDir ≠ "" → '/' ∉ a.data → '/' ∉ b.data →
        (downloadAssets.localPath assetsDir a = downloadAssets.localPath assetsDir b ↔
          replaceColons a = replaceColons b)) ∧
      (replaceColons a = replaceColons b ↔ List.Forall₂ SameUpToColon a.data b.data) ∧
      ('-' ∉ a.data → '-' ∉ b.data → a ≠ b →
        downloadAssets.filename a ≠ downloadAssets.filename b ∧
          (∀ safeFolderName,
            downloadAssets.publicPath safeFolderName a ≠
              downloadAssets.publicPath safeFolderName b) ∧
          (∀ assetsDir, assetsDir ≠ "" → '/' ∉ a.data → '/' ∉ b.data →
            downloadAssets.localPath assetsDir a ≠ downloadAssets.localPath assetsDir b)) := by
  refine ⟨filename_eq_iff a b, fun folder => publicPath_eq_iff folder a b,
    fun dir hd hsa hsb => localPath_eq_iff dir a b hd hsa hsb, replaceColons_eq_iff a b, ?_⟩
  intro ha hb hne
  have hf : downloadAssets.filename a ≠ downloadAssets.filename b :=
    fun e => hne (filename_injOn a b ha hb e)
  have hr : replaceColons a ≠ replaceColons b := fun e => hf ((filename_eq_iff a b).mpr e)
  exact ⟨hf, fun folder e => hr ((publicPath_eq_iff folder a b).mp e),
    fun dir hd hsa hsb e => hr ((localPath_eq_iff dir a b hd hsa hsb).mp e)⟩

/-- Witness of the amended C12: the identities `1:2` and `1:3`, which contain
no `-`, get distinct file names, public paths and local files; so do `1-2` and
`1-3`, which are distinct after the replacement; `1:2` and `1-2`, equal after
it, share the public path and the local file. -/
theorem filename_distinct_witness :
    (downloadAssets.filename "1:2" ≠ downloadAssets.filename "1:3" ∧
      downloadAssets.publicPath "hero_section" "1:2" ≠
        downloadAssets.publicPath "hero_section" "1:3" ∧
      downloadAssets.localPath "/app/client/public/assets/images/hero_section" "1:2" ≠
        downloadAssets.localPath "/app/client/public/assets/images/hero_section" "1:3") ∧
      (downloadAssets.filename "1-2" ≠ downloadAssets.filename "1-3" ∧
        downloadAssets.publicPath "hero_section" "1-2" ≠
          downloadAssets.publicPath "hero_section" "1-3" ∧
        downloadAssets.localPath "/app/client/public/assets/images/hero_section" "1-2" ≠
          downloadAssets.localPath "/app/client/public/assets/images/hero_section" "1-3") ∧
      (downloadAssets.publicPath "hero_section" "1:2" =
          downloadAssets.publicPath "hero_section" "1-2" ∧
        downloadAssets.localPath "/app/client/public/assets/images/hero_section" "1:2" =
          downloadAssets.localPath "/app/client/public/assets/images/hero_section" "1-2" ∧
        List.Forall₂ SameUpToColon ("1:2" : String).data ("1-2" : String).data) :=
  ⟨⟨((filename_distinct "1:2" "1:3").2.2.2.2 (by decide) (by decide) (by decide)).1,
      ((filename_distinct "1:2" "1:3").2.2.2.2 (by decide) (by decide) (by decide)).2.1
        "hero_section",
      ((filename_distinct "1:2" "1:3").2.2.2.2 (by decide) (by decide) (by decide)).2.2
        "/app/client/public/assets/images/hero_section" (by decide) (by decide) (by decide)⟩,
    ⟨fun e => absurd ((filename_distinct "1-2" "1-3").1.mp e) (by decide),
      fun e => absurd (((filename_distinct "1-2" "1-3").2.1 "hero_section").mp e) (by decide),
      fun e => absurd (((filename_distinct "1-2" "1-3").2.2.1
        "/app/client/public/assets/images/hero_section" (by decide) (by decide)
        (by decide)).mp e) (by decide)⟩,
    ⟨((filename_distinct "1:2" "1-2").2.1 "hero_section").mpr (by decide),
      ((filename_distinct "1:2" "1-2").2.2.1 "/app/client/public/assets/images/hero_section"
        (by decide) (by decide) (by decide)).mpr (by decide),
      (filename_distinct "1:2" "1-2").2.2.2.1.mp (by decide)⟩⟩

/-! ### The values of the asset map -/

theorem mem_set (m : AssetMap) (id p : String) (e : String × String)
    (h : e ∈ m.set id p) : e ∈ m ∨ e = (id, p) := by
  unfold AssetMap.set at h
  split at h
  · obtain ⟨e0, he0, rfl⟩ := List.mem_map.mp h
    by_cases hk : (e0.1 == id) = true
    · right; simp [hk]
    · left; simpa [hk] using he0
  · rcases List.mem_append.mp h with h1 | h1
    · exact Or.inl h1
    · right; simpa using h1

theorem settle_entries (up : Upstream) (fs : FileSystem) (assetsDir safeFolderName : String) :
    ∀ (urls : List (String × Option String)) (m : AssetMap) (tr : List Event),
      (∀ e ∈ m, e.2 = downloadAssets.publicPath safeFolderName e.1) →
      ∀ e ∈ (downloadAssets.settle up fs assetsDir safeFolderName urls m tr).1,
        e.2 = downloadAssets.publicPath safeFolderName e.1 := by
  intro urls
  induction urls with
  | nil => intro m tr h; exact h
  | cons e rest ih =>
    intro m tr h
    obtain ⟨id, u⟩ := e
    cases u with
    | none => rw [downloadAssets.settle]; exact ih m tr h
    | some url =>
      by_cases hskip : url = "" ∨ ∃ err, up.download id url = .error err
      · rw [settle_skip up fs assetsDir safeFolderName id url rest m tr hskip]
        exact ih m tr h
      · have hu : url ≠ "" := fun h0 => hskip (Or.inl h0)
        obtain ⟨data, hd⟩ : ∃ data, up.download id url = .ok data := by
          cases hd : up.download id url with
          | ok data => exact ⟨data, rfl⟩
          | error err => exact absurd (Or.inr ⟨err, hd⟩) hskip
        rw [settle_write up fs assetsDir safeFolderName id url rest m tr data hu hd]
        by_cases hw : fs.writeFileSync (path.join [assetsDir, replaceColons id ++ ".png"]) = true
        · rw [if_pos hw]
          refine ih _ _ ?_
          intro e he
          rcases mem_set m id _ e he with h1 | h1
          · exact h e h1
          · rw [h1]
            rfl
        · rw [if_neg hw]
          exact ih m _ h

theorem body_entries (up : Upstream) (fs : FileSystem) (fileKey ids figmaToken : String)
    (customFolderName : Option String) (imageMap : AssetMap)
    (h : (downloadAssets.body up fs fileKey ids figmaToken customFolderName).1 = .ok imageMap) :
    ∀ e ∈ imageMap,
      e.2 = downloadAssets.publicPath
        (downloadAssets.safeFolderName fileKey customFolderName) e.1 := by
  cases hf : fetchImages up fileKey figmaToken ids 3 0 [] with
  | mk res tr =>
    cases res with
    | error err =>
      rw [body_of_fetch_error up fs fileKey ids figmaToken customFolderName err tr hf] at h
      cases h
    | ok response =>
      cases hi : response.images with
      | none =>
        rw [body_of_no_images up fs fileKey ids figmaToken customFolderName response tr hf hi] at h
        cases h
        intro e he
        cases he
      | some urls =>
        rcases prepare_cases fs (downloadAssets.assetsDir fs fileKey customFolderName) with
          ⟨evs, hp⟩ | ⟨err, evs, hp⟩
        · rw [body_of_prepared up fs fileKey ids figmaToken customFolderName response tr urls evs
            hf hi hp] at h
          cases h
          exact settle_entries up fs _ _ urls [] _ (fun e he => by cases he)
        · rw [body_of_prepare_error up fs fileKey ids figmaToken customFolderName response tr urls
            err evs hf hi hp] at h
          cases h

theorem downloadAssets_entries (up : Upstream) (fs : FileSystem) (fileKey : String)
    (nodes : Option (List (Option ImageRef))) (figmaToken : String)
    (customFolderName : Option String) (imageMap : AssetMap)
    (h : (downloadAssets up fs fileKey nodes figmaToken customFolderName).1 = .ok imageMap) :
    ∀ e ∈ imageMap,
      e.2 = downloadAssets.publicPath
        (downloadAssets.safeFolderName fileKey customFolderName) e.1 := by
  have hnil : ∀ e ∈ ([] : AssetMap),
      e.2 = downloadAssets.publicPath
        (downloadAssets.safeFolderName fileKey customFolderName) e.1 :=
    fun e he => by cases he
  unfold downloadAssets at h
  split at h
  · cases h; exact hnil
  · cases h; exact hnil
  · split at h
    · cases h
    · rename_i idList _
      cases hb : downloadAssets.body up fs fileKey (downloadAssets.ids idList) figmaToken
          customFolderName with
      | mk res tr =>
        simp only [hb] at h
        cases res with
        | ok m =>
          cases h
          exact body_entries up fs fileKey _ figmaToken customFolderName _ (by rw [hb])
        | error err =>
          cases h
          exact hnil

/-- C14: every value of the map returned by `downloadAssets`, for key `id`, is
the text `/assets/images/`, the destination folder segment of the batch, `/`
and the file name: the identity with every `:` replaced by `-`, followed by
`.png`; so it starts with `/` and ends with `.png`. -/
theorem downloadAssets_values (up : Upstream) (fs : FileSystem) (fileKey : String)
    (nodes : Option (List (Option ImageRef))) (figmaToken : String)
    (customFolderName : Option String) (imageMap : AssetMap) (id p : String)
    (h : (downloadAssets up fs fileKey nodes figmaToken customFolderName).1 = .ok imageMap)
    (hmem : (id, p) ∈ imageMap) :
    p = "/assets/images/" ++ downloadAssets.safeFolderName fileKey customFolderName ++ "/" ++
        (replaceColons id ++ ".png") ∧
      p.data.head? = some '/' ∧
      ∃ t, p = t ++ ".png" := by
  have hp := downloadAssets_entries up fs fileKey nodes figmaToken customFolderName imageMap h
    (id, p) hmem
  simp only at hp
  have e : p = "/assets/images/" ++ downloadAssets.safeFolderName fileKey customFolderName ++
      "/" ++ (replaceColons id ++ ".png") := hp
  refine ⟨e, ?_, ?_⟩
  · rw [e]
    simp only [String.data_append]
    rfl
  · exact ⟨"/assets/images/" ++ downloadAssets.safeFolderName fileKey customFolderName ++
      "/" ++ replaceColons id, by rw [e]; simp only [String.append_assoc]⟩

/-- Witness of C14: the entry of node `1:4` in the sample run. -/
theorem downloadAssets_values_witness :
    ("/assets/images/hero_section/1-4.png" : String) =
        "/assets/images/" ++ downloadAssets.safeFolderName "KEY" (some "Hero Section") ++ "/" ++
          (replaceColons "1:4" ++ ".png") ∧
      ("/assets/images/hero_section/1-4.png" : String).data.head? = some '/' ∧
      ∃ t, ("/assets/images/hero_section/1-4.png" : String) = t ++ ".png" :=
  downloadAssets_values sampleUpstream sampleFileSystem "KEY" (some (sampleNodes.map some))
    "token" (some "Hero Section")
    [("1:2", "/assets/images/hero_section/1-2.png"),
      ("1:4", "/assets/images/hero_section/1-4.png")]
    "1:4" "/assets/images/hero_section/1-4.png" (by decide) (by decide)

/-! ### The asset locator on absent fields, and its effect on the tree -/

/-- C15: `extractImageNodes` of an absent tree is the empty sequence; a node
without `children` field is treated as a leaf (it yields what the same node
with an empty child sequence yields: itself when it has a visible IMAGE fill,
nothing otherwise), and a node without `fills` field as a node without image
fill (it is not listed; its children are still visited). -/
theorem extractImageNodes_absent_fields (id name : String) (fills : Option (List Fill))
    (children : Option (List Node)) (l a : Option String) :
    extractImageNodes none = [] ∧
      extractImageNodes (some (.mk id name fills none l a)) =
        extractImageNodes (some (.mk id name fills (some []) l a)) ∧
      extractImageNodes (some (.mk id name fills none l a)) =
        (if HasVisibleImageFill (.mk id name fills none l a) then [{ id := id, name := name }]
          else []) ∧
      extractImageNodes (some (.mk id name none children l a)) =
        extractImageNodes (some (.mk id name (some []) children l a)) ∧
      extractImageNodes (some (.mk id name none children l a)) =
        ((preorderOpt children).filter (fun n => decide (HasVisibleImageFill n))).map
          Node.toRef := by
  refine ⟨rfl, ?_, ?_, ?_, ?_⟩
  · simp [extractImageNodes, extractImageNodes.node, extractImageNodes.optChildren,
      extractImageNodes.forEach]
  · rw [show extractImageNodes (some (.mk id name fills none l a)) =
      imageNodesSpec (.mk id name fills none l a) from by
        simp [extractImageNodes, imageNodesSpec, extract_node_eq]]
    unfold imageNodesSpec
    by_cases h : HasVisibleImageFill (.mk id name fills none l a)
    · simp [preorder, preorderOpt, List.filter_cons, h, Node.toRef, Node.id, Node.name]
    · simp [preorder, preorderOpt, List.filter_cons, h]
  · simp [extractImageNodes, extractImageNodes.node]
  · simp [extractImageNodes, extractImageNodes.node, extract_opt_eq]

mutual
theorem runNode_eq (n : Node) (images : List ImageRef) :
    extractImageNodes.runNode n images = (n, extractImageNodes.node n images) := by
  match n with
  | .mk id name fills children l a =>
    simp only [extractImageNodes.runNode, extractImageNodes.node, runOpt_eq children]
theorem runOpt_eq (cs : Option (List Node)) (images : List ImageRef) :
    extractImageNodes.runOpt cs images = (cs, extractImageNodes.optChildren cs images) := by
  match cs with
  | none => rfl
  | some cs =>
    simp only [extractImageNodes.runOpt, extractImageNodes.optChildren, runList_eq cs]
theorem runList_eq (cs : List Node) (images : List ImageRef) :
    extractImageNodes.runList cs images = (cs, extractImageNodes.forEach cs images) := by
  match cs with
  | [] => rfl
  | c :: rest =>
    simp only [extractImageNodes.runList, extractImageNodes.forEach, runNode_eq c,
      runList_eq rest]
end

/-- C16: a call `extractImageNodes(T)` leaves the tree as it was, returns the
sequence of the asset locator, and a second call on the tree it leaves, again
with a fresh accumulator, returns an equal sequence. -/
theorem extractImageNodes_frame (t : Option Node) :
    (extractImageNodes.run t).1 = t ∧
      (extractImageNodes.run t).2 = extractImageNodes t ∧
      (extractImageNodes.run (extractImageNodes.run t).1).2 = (extractImageNodes.run t).2 := by
  cases t with
  | none => exact ⟨rfl, rfl, rfl⟩
  | some n =>
    have h : extractImageNodes.run (some n) = (some n, extractImageNodes (some n)) := by
      simp only [extractImageNodes.run, runNode_eq, extractImageNodes]
    rw [h]
    exact ⟨rfl, rfl, by rw [h]⟩

/-! ### The code block of the model response -/

theorem splitAtFirst_sound (pat : List Char) :
    ∀ (text pre post : List Char), splitAtFirst pat text = some (pre, post) →
      IsFirstOccurrence pat text pre post := by
  intro text
  induction text with
  | nil =>
    intro pre post h
    unfold splitAtFirst at h
    split at h
    · rename_i hp
      cases h
      subst hp
      exact ⟨rfl, fun k hk => absurd hk (Nat.not_lt_zero k)⟩
    · cases h
  | cons c cs ih =>
    intro pre post h
    unfold splitAtFirst at h
    split at h
    · rename_i hp
      cases h
      have hpre : pat <+: c :: cs := List.isPrefixOf_iff_prefix.mp hp
      refine ⟨?_, fun k hk => absurd hk (Nat.not_lt_zero k)⟩
      simpa using (List.prefix_iff_eq_append.mp hpre).symm
    · rename_i hp
      cases hs : splitAtFirst pat cs with
      | none => rw [hs] at h; cases h
      | some r =>
        obtain ⟨pre', post'⟩ := r
        rw [hs] at h
        simp only [Option.map_some', Option.some.injEq, Prod.mk.injEq] at h
        obtain ⟨rfl, rfl⟩ := h
        obtain ⟨heq, hfirst⟩ := ih pre' post' hs
        refine ⟨by rw [heq]; simp, ?_⟩
        intro k hk
        cases k with
        | zero =>
          intro hpre
          exact hp (List.isPrefixOf_iff_prefix.mpr hpre)
        | succ k =>
          simp only [List.drop_succ_cons]
          exact hfirst k (by simpa using hk)

theorem splitAtFirst_of_first (pat : List Char) :
    ∀ (pre text post : List Char), IsFirstOccurrence pat text pre post →
      splitAtFirst pat text = some (pre, post) := by
  intro pre
  induction pre with
  | nil =>
    intro text post h
    obtain ⟨heq, _⟩ := h
    simp only [List.nil_append] at heq
    subst heq
    cases hp : pat ++ post with
    | nil =>
      have h1 : pat = [] := (List.append_eq_nil.mp hp).1
      have h2 : post = [] := (List.append_eq_nil.mp hp).2
      subst h1
      subst h2
      simp [splitAtFirst]
    | cons c cs =>
      unfold splitAtFirst
      have hpre : pat.isPrefixOf (c :: cs) = true := by
        rw [← hp]
        exact List.isPrefixOf_iff_prefix.mpr (List.prefix_append pat post)
      rw [if_pos hpre, ← hp]
      simp
  | cons c pre' ih =>
    intro text post h
    obtain ⟨heq, hfirst⟩ := h
    subst heq
    have h0 : ¬ pat <+: (c :: pre' ++ pat ++ post) := by
      simpa using hfirst 0 (by simp)
    have hnp : ¬ pat.isPrefixOf (c :: (pre' ++ pat ++ post)) = true :=
      fun hp => h0 (by simpa using List.isPrefixOf_iff_prefix.mp hp)
    have hrec := ih (pre' ++ pat ++ post) post ⟨rfl, fun k hk => by
      have := hfirst (k + 1) (by simpa using hk)
      simpa using this⟩
    show splitAtFirst pat (c :: (pre' ++ pat ++ post)) = _
    unfold splitAtFirst
    rw [if_neg hnp, hrec]
    rfl

theorem splitAtFirst_append (pat : List Char) (hp : pat ≠ []) :
    ∀ (a b : List Char), splitAtFirst pat (a ++ pat ++ b) ≠ none := by
  intro a
  induction a with
  | nil =>
    intro b
    cases h : pat ++ b with
    | nil => exact absurd (List.append_eq_nil.mp h).1 hp
    | cons c cs =>
      simp only [List.nil_append, h]
      unfold splitAtFirst
      have hpre : pat.isPrefixOf (c :: cs) = true := by
        rw [← h]
        exact List.isPrefixOf_iff_prefix.mpr (List.prefix_append pat b)
      rw [if_pos hpre]
      simp
  | cons c rest ih =>
    intro b
    show splitAtFirst pat (c :: (rest ++ pat ++ b)) ≠ none
    unfold splitAtFirst
    split
    · simp
    · cases hs : splitAtFirst pat (rest ++ pat ++ b) with
      | none => exact absurd hs (ih b)
      | some r => simp

theorem fenceClose_prefix_of_fenceOpen (l : List Char) (h : fenceOpen.isPrefixOf l = true) :
    fenceClose.isPrefixOf l = true := by
  rw [List.isPrefixOf_iff_prefix] at h ⊢
  have hco : fenceClose <+: fenceOpen := ⟨['h', 't', 'm', 'l'], rfl⟩
  exact hco.trans h

theorem no_open_of_no_close :
    ∀ (l : List Char), splitAtFirst fenceClose l = none → splitAtFirst fenceOpen l = none := by
  intro l
  induction l with
  | nil => intro _; rfl
  | cons c cs ih =>
    intro h
    unfold splitAtFirst at h
    split at h
    · cases h
    · rename_i hc
      have hcs : splitAtFirst fenceClose cs = none := by
        cases hs : splitAtFirst fenceClose cs with
        | none => rfl
        | some r => rw [hs] at h; cases h
      unfold splitAtFirst
      have ho : ¬ fenceOpen.isPrefixOf (c :: cs) = true :=
        fun hp => hc (fenceClose_prefix_of_fenceOpen _ hp)
      rw [if_neg ho, ih hcs]
      rfl
theorem splitAtFirst_cons_pos (pat : List Char) (c : Char) (cs : List Char)
    (h : pat.isPrefixOf (c :: cs) = true) :
    splitAtFirst pat (c :: cs) = some ([], (c :: cs).drop pat.length) := by
  rw [splitAtFirst, if_pos h]

theorem splitAtFirst_cons_neg (pat : List Char) (c : Char) (cs : List Char)
    (h : ¬ pat.isPrefixOf (c :: cs) = true) :
    splitAtFirst pat (c :: cs) = (splitAtFirst pat cs).map (fun r => (c :: r.1, r.2)) := by
  rw [splitAtFirst, if_neg h]

theorem matchHtmlFence_cons_pos (c : Char) (cs : List Char)
    (h : fenceOpen.isPrefixOf (c :: cs) = true) :
    matchHtmlFence (c :: cs) =
      match splitAtFirst fenceClose ((c :: cs).drop fenceOpen.length) with
      | some (capture, _) => some capture
      | none => matchHtmlFence cs := by
  rw [matchHtmlFence, if_pos h]

theorem matchHtmlFence_cons_neg (c : Char) (cs : List Char)
    (h : ¬ fenceOpen.isPrefixOf (c :: cs) = true) :
    matchHtmlFence (c :: cs) = matchHtmlFence cs := by
  rw [matchHtmlFence, if_neg h]

theorem no_open_in_fence_tail (rest : List Char)
    (h : splitAtFirst fenceOpen rest = none) :
    splitAtFirst fenceOpen ('`' :: '`' :: 'h' :: 't' :: 'm' :: 'l' :: rest) = none := by
  rw [splitAtFirst_cons_neg _ _ _ (by simp [fenceOpen, List.isPrefixOf]),
    splitAtFirst_cons_neg _ _ _ (by simp [fenceOpen, List.isPrefixOf]),
    splitAtFirst_cons_neg _ _ _ (by simp [fenceOpen, List.isPrefixOf]),
    splitAtFirst_cons_neg _ _ _ (by simp [fenceOpen, List.isPrefixOf]),
    splitAtFirst_cons_neg _ _ _ (by simp [fenceOpen, List.isPrefixOf]),
    splitAtFirst_cons_neg _ _ _ (by simp [fenceOpen, List.isPrefixOf]), h]
  rfl

theorem matchHtmlFence_eq :
    ∀ (text : List Char), matchHtmlFence text =
      (splitAtFirst fenceOpen text).bind
        (fun r => (splitAtFirst fenceClose r.2).map Prod.fst) := by
  intro text
  induction text with
  | nil => rfl
  | cons c cs ih =>
    by_cases hp : fenceOpen.isPrefixOf (c :: cs) = true
    · rw [matchHtmlFence_cons_pos c cs hp, splitAtFirst_cons_pos _ c cs hp]
      obtain ⟨rest, hrest⟩ := List.isPrefixOf_iff_prefix.mp hp
      have hdrop : (c :: cs).drop fenceOpen.length = rest := by
        rw [← hrest]
        exact List.drop_left' rfl
      rw [hdrop]
      cases hcl : splitAtFirst fenceClose rest with
      | some r =>
        obtain ⟨capture, post⟩ := r
        simp [hcl]
      | none =>
        have hcs : cs = '`' :: '`' :: 'h' :: 't' :: 'm' :: 'l' :: rest := by
          have := hrest
          simp only [fenceOpen, List.cons_append, List.nil_append, List.cons.injEq] at this
          exact this.2.symm
        have hno := no_open_in_fence_tail rest (no_open_of_no_close rest hcl)
        rw [← hcs] at hno
        simp [ih, hno, hcl]
    · rw [matchHtmlFence_cons_neg c cs hp, splitAtFirst_cons_neg _ c cs hp, ih]
      cases hs : splitAtFirst fenceOpen cs with
      | none => rfl
      | some r => rfl

theorem matchHtmlFence_of_first (text pre rest inner post : List Char)
    (h1 : IsFirstOccurrence fenceOpen text pre rest)
    (h2 : IsFirstOccurrence fenceClose rest inner post) :
    matchHtmlFence text = some inner := by
  rw [matchHtmlFence_eq, splitAtFirst_of_first _ _ _ _ h1]
  simp [splitAtFirst_of_first _ _ _ _ h2]

theorem matchHtmlFence_some (text capture : List Char) (h : matchHtmlFence text = some capture) :
    ∃ pre rest post, IsFirstOccurrence fenceOpen text pre rest ∧
      IsFirstOccurrence fenceClose rest capture post := by
  rw [matchHtmlFence_eq] at h
  cases h1 : splitAtFirst fenceOpen text with
  | none => rw [h1] at h; cases h
  | some r =>
    obtain ⟨pre, rest⟩ := r
    rw [h1] at h
    cases h2 : splitAtFirst fenceClose rest with
    | none => simp [h2] at h
    | some q =>
      obtain ⟨inner, post⟩ := q
      simp [h2] at h
      subst h
      exact ⟨pre, rest, post, splitAtFirst_sound _ _ _ _ h1, splitAtFirst_sound _ _ _ _ h2⟩

theorem matchHtmlFence_append (a : List Char) :
    ∀ (t : List Char), matchHtmlFence t ≠ none → matchHtmlFence (a ++ t) ≠ none := by
  induction a with
  | nil => intro t h; exact h
  | cons c rest ih =>
    intro t h
    show matchHtmlFence (c :: (rest ++ t)) ≠ none
    by_cases hp : fenceOpen.isPrefixOf (c :: (rest ++ t)) = true
    · rw [matchHtmlFence_cons_pos _ _ hp]
      split
      · simp
      · exact ih t h
    · rw [matchHtmlFence_cons_neg _ _ hp]
      exact ih t h

theorem matchHtmlFence_of_fences (pre inner post : List Char) :
    matchHtmlFence (pre ++ fenceOpen ++ inner ++ fenceClose ++ post) ≠ none := by
  have hclose : splitAtFirst fenceClose (inner ++ fenceClose ++ post) ≠ none :=
    splitAtFirst_append fenceClose (by decide) inner post
  have hopen : matchHtmlFence (fenceOpen ++ (inner ++ fenceClose ++ post)) ≠ none := by
    show matchHtmlFence ('`' :: ('`' :: '`' :: 'h' :: 't' :: 'm' :: 'l' ::
      (inner ++ fenceClose ++ post))) ≠ none
    have hp : fenceOpen.isPrefixOf ('`' :: ('`' :: '`' :: 'h' :: 't' :: 'm' :: 'l' ::
        (inner ++ fenceClose ++ post))) = true :=
      List.isPrefixOf_iff_prefix.mpr ⟨inner ++ fenceClose ++ post, rfl⟩
    rw [matchHtmlFence_cons_pos _ _ hp]
    have hdrop : ('`' :: ('`' :: '`' :: 'h' :: 't' :: 'm' :: 'l' ::
        (inner ++ fenceClose ++ post))).drop fenceOpen.length = inner ++ fenceClose ++ post := rfl
    rw [hdrop]
    cases hs : splitAtFirst fenceClose (inner ++ fenceClose ++ post) with
    | none => exact absurd hs hclose
    | some r => simp
  have := matchHtmlFence_append pre _ hopen
  simpa [List.append_assoc] using this
theorem head?_dropWhile_ws (l : List Char) (c : Char)
    (h : (l.dropWhile isJsWhitespace).head? = some c) : isJsWhitespace c = false := by
  have := List.head?_dropWhile_not isJsWhitespace l
  rw [h] at this
  exact this

theorem jsTrim_spec (s : List Char) :
    ∃ lead trail, s = lead ++ jsTrim s ++ trail ∧
      (∀ c ∈ lead, isJsWhitespace c = true) ∧ (∀ c ∈ trail, isJsWhitespace c = true) ∧
      (∀ c, (jsTrim s).head? = some c → isJsWhitespace c = false) ∧
      (∀ c, (jsTrim s).getLast? = some c → isJsWhitespace c = false) := by
  have hm : s.dropWhile isJsWhitespace =
      jsTrim s ++ ((s.dropWhile isJsWhitespace).reverse.takeWhile isJsWhitespace).reverse := by
    unfold jsTrim
    rw [← List.reverse_append, List.takeWhile_append_dropWhile, List.reverse_reverse]
  refine ⟨s.takeWhile isJsWhitespace,
    ((s.dropWhile isJsWhitespace).reverse.takeWhile isJsWhitespace).reverse, ?_, ?_, ?_, ?_, ?_⟩
  · rw [List.append_assoc, ← hm, List.takeWhile_append_dropWhile]
  · intro c hc
    exact List.mem_takeWhile_imp hc
  · intro c hc
    exact List.mem_takeWhile_imp (List.mem_reverse.mp hc)
  · intro c hc
    have h2 : (s.dropWhile isJsWhitespace).head? = some c := by
      rw [hm, List.head?_append, hc]
      rfl
    exact head?_dropWhile_ws s c h2
  · intro c hc
    unfold jsTrim at hc
    rw [List.getLast?_reverse] at hc
    exact head?_dropWhile_ws _ c hc

/-- C19: the html returned for a model response text is, when the text
contains the opening fence followed later by a closing fence, the text
between the first opening fence and the first closing fence after it, with
leading and trailing JavaScript white space removed; such first occurrences
exist whenever the text has the two fences in this order; otherwise the html
is the response text unchanged. -/
theorem extractHtml_spec (fullText : String) :
    (∀ pre rest inner post,
        IsFirstOccurrence fenceOpen fullText.data pre rest →
        IsFirstOccurrence fenceClose rest inner post →
        extractHtml fullText = (jsTrim inner).asString ∧
          ∃ lead trail, inner = lead ++ jsTrim inner ++ trail ∧
            (∀ c ∈ lead, isJsWhitespace c = true) ∧ (∀ c ∈ trail, isJsWhitespace c = true) ∧
            (∀ c, (jsTrim inner).head? = some c → isJsWhitespace c = false) ∧
            (∀ c, (jsTrim inner).getLast? = some c → isJsWhitespace c = false)) ∧
      ((∃ pre inner post, fullText.data = pre ++ fenceOpen ++ inner ++ fenceClose ++ post) →
        ∃ pre rest inner post,
          IsFirstOccurrence fenceOpen fullText.data pre rest ∧
            IsFirstOccurrence fenceClose rest inner post) ∧
      ((¬ ∃ pre inner post, fullText.data = pre ++ fenceOpen ++ inner ++ fenceClose ++ post) →
        extractHtml fullText = fullText) := by
  refine ⟨?_, ?_, ?_⟩
  · intro pre rest inner post h1 h2
    refine ⟨?_, jsTrim_spec inner⟩
    unfold extractHtml
    rw [matchHtmlFence_of_first _ pre rest inner post h1 h2]
  · rintro ⟨pre, inner, post, h⟩
    cases hm : matchHtmlFence fullText.data with
    | none =>
      have := matchHtmlFence_of_fences pre inner post
      rw [← h] at this
      exact absurd hm this
    | some capture =>
      obtain ⟨pre', rest', post', h1, h2⟩ := matchHtmlFence_some _ _ hm
      exact ⟨pre', rest', capture, post', h1, h2⟩
  · intro hno
    unfold extractHtml
    cases hm : matchHtmlFence fullText.data with
    | none => rfl
    | some capture =>
      obtain ⟨pre', rest', post', h1, h2⟩ := matchHtmlFence_some _ _ hm
      exfalso
      apply hno
      refine ⟨pre', capture, post', ?_⟩
      rw [h1.1, h2.1]
      simp [List.append_assoc]

/-- Witness of C19: the conversational text around the fenced block is
dropped and the block is trimmed; a text without fence is returned as it
is. -/
theorem extractHtml_spec_witness :
    extractHtml "Here is the page:\n```html\n<p>Hi</p>\n```\nDone." = "<p>Hi</p>" ∧
      extractHtml "<p>Hi</p>" = "<p>Hi</p>" ∧
      extractHtml "Here is the page:\n```html\n<p>Hi</p>\n```\nDone." =
        (jsTrim "\n<p>Hi</p>\n".data).asString :=
  ⟨by decide, by decide,
    ((extractHtml_spec "Here is the page:\n```html\n<p>Hi</p>\n```\nDone.").1
      "Here is the page:\n".data "\n<p>Hi</p>\n```\nDone.".data "\n<p>Hi</p>\n".data
      "\nDone.".data (by decide) (by decide)).1⟩

/-! ### The handler `convertFigma` -/

theorem nodePhase_designContext {P C : Type} (env : FigmaEnv P C) (fileKey nodeId : String) :
    (convertFigma.nodePhase env fileKey nodeId).designContext = "Node data unavailable." := by
  unfold convertFigma.nodePhase
  simp only [convertFigma.designContext]
  split
  · rfl
  · rfl
  · split
    · rfl
    · split <;> rfl

theorem nodePhase_trace {P C : Type} (env : FigmaEnv P C) (fileKey nodeId : String) :
    ∃ rest, (convertFigma.nodePhase env fileKey nodeId).trace =
      .nodesRequest fileKey env.figmaToken nodeId :: rest := by
  unfold convertFigma.nodePhase
  simp only [convertFigma.designContext]
  split
  · exact ⟨[], rfl⟩
  · exact ⟨[], rfl⟩
  · split
    · exact ⟨_, rfl⟩
    · split <;> exact ⟨_, rfl⟩

theorem nodePhase_unavailable {P C : Type} (env : FigmaEnv P C) (fileKey nodeId : String)
    (h : (∃ err, env.nodes fileKey nodeId = .error err) ∨ env.nodes fileKey nodeId = .ok none) :
    convertFigma.nodePhase env fileKey nodeId =
      ⟨"Node data unavailable.", none, none, [.nodesRequest fileKey env.figmaToken nodeId]⟩ := by
  unfold convertFigma.nodePhase
  rcases h with ⟨err, h⟩ | h <;> rw [h]

theorem prompt_unavailable (generatePrompt : Option String → Option String → String)
    (mode customCSS : Option String) :
    convertFigma.prompt generatePrompt mode customCSS "Node data unavailable." =
      generatePrompt mode customCSS := by
  unfold convertFigma.prompt
  simp

theorem afterNodes_trace {P C : Type} (env : FigmaEnv P C) (body : Body)
    (fileKey nodeId : String) (phase : NodePhase P C) :
    ∃ rest, (convertFigma.afterNodes env body fileKey nodeId phase).2 =
      phase.trace ++ ((convertFigma.downloadImage env.frame fileKey env.figmaToken nodeId).2.map
        Step.effect ++ rest) := by
  unfold convertFigma.afterNodes
  cases hd : convertFigma.downloadImage env.frame fileKey env.figmaToken nodeId with
  | mk res evs =>
    cases res with
    | error imgError => exact ⟨[.errorLog], by simp⟩
    | ok imageBuffer =>
      simp only
      split
      · exact ⟨[.visionRequest (convertFigma.prompt env.generatePrompt body.mode body.customCSS
          phase.designContext) imageBuffer, .errorLog], by simp⟩
      · exact ⟨[.visionRequest (convertFigma.prompt env.generatePrompt body.mode body.customCSS
          phase.designContext) imageBuffer], by simp⟩

theorem afterNodes_ok {P C : Type} (env : FigmaEnv P C) (body : Body)
    (fileKey nodeId : String) (phase : NodePhase P C) (imageBuffer : Bytes) (fullText : String)
    (hd : (convertFigma.downloadImage env.frame fileKey env.figmaToken nodeId).1 =
      .ok imageBuffer)
    (hv : env.vision
      (convertFigma.prompt env.generatePrompt body.mode body.customCSS phase.designContext)
      imageBuffer = .ok fullText) :
    convertFigma.afterNodes env body fileKey nodeId phase =
      (.json (extractHtml fullText) phase.parsedDesign phase.detectedComponents,
        phase.trace ++
          (convertFigma.downloadImage env.frame fileKey env.figmaToken nodeId).2.map
            Step.effect ++
          [.visionRequest
            (convertFigma.prompt env.generatePrompt body.mode body.customCSS
              phase.designContext) imageBuffer]) := by
  unfold convertFigma.afterNodes
  cases hdi : convertFigma.downloadImage env.frame fileKey env.figmaToken nodeId with
  | mk res evs =>
    rw [hdi] at hd
    simp only at hd
    subst hd
    simp only [hv]

theorem afterNodes_prompt {P C : Type} (env : FigmaEnv P C) (body : Body)
    (fileKey nodeId : String) (phase : NodePhase P C) (prompt : String) (image : Bytes)
    (hp : ∀ p i, Step.visionRequest p i ∉ phase.trace)
    (h : Step.visionRequest prompt image ∈
      (convertFigma.afterNodes env body fileKey nodeId phase).2) :
    prompt =
      convertFigma.prompt env.generatePrompt body.mode body.customCSS phase.designContext := by
  unfold convertFigma.afterNodes at h
  cases hd : convertFigma.downloadImage env.frame fileKey env.figmaToken nodeId with
  | mk res evs =>
    rw [hd] at h
    cases res with
    | error imgError =>
      simp only [List.mem_append, List.mem_map, List.mem_singleton] at h
      rcases h with (h | ⟨e, _, he⟩) | h
      · exact absurd h (hp _ _)
      · cases he
      · cases h
    | ok imageBuffer =>
      simp only at h
      split at h
      all_goals
        simp only [List.mem_append, List.mem_map, List.mem_singleton] at h
      · rcases h with ((h | ⟨e, _, he⟩) | h) | h
        · exact absurd h (hp _ _)
        · cases he
        · cases h; rfl
        · cases h
      · rcases h with (h | ⟨e, _, he⟩) | h
        · exact absurd h (hp _ _)
        · cases he
        · cases h; rfl
theorem matchNodeId_ne_nil :
    ∀ (l value : List Char), matchNodeId l = some value → value ≠ [] := by
  intro l
  induction l with
  | nil => intro value h; cases h
  | cons c cs ih =>
    intro value h
    rw [matchNodeId] at h
    split at h
    · simp only at h
      split at h
      · exact ih value h
      · rename_i hne
        cases h
        exact hne
    · exact ih value h

theorem decodeColons_ne_nil (value : List Char) (h : value ≠ []) : decodeColons value ≠ [] := by
  unfold decodeColons
  split
  · simp
  · simp
  · exact absurd rfl h

theorem nodeId_eq (url : String) :
    convertFigma.nodeId url =
      (matchNodeId url.data).map (fun value => (nodeIdOfParameter value).asString) := by
  unfold convertFigma.nodeId nodeIdOfParameter
  cases hm : matchNodeId url.data with
  | none => rfl
  | some value =>
    simp only [Option.map_some']
    by_cases hc : ':' ∈ decodeColons value
    · rw [if_neg (fun h => h.2 hc), if_pos hc]
    · rw [if_pos ⟨decodeColons_ne_nil value (matchNodeId_ne_nil _ _ hm), hc⟩, if_neg hc]

theorem nodeIdOfParameter_ne_nil (value : List Char) (h : value ≠ []) :
    nodeIdOfParameter value ≠ [] := by
  unfold nodeIdOfParameter
  have hd := decodeColons_ne_nil value h
  split
  · exact hd
  · intro e
    exact hd (List.map_eq_nil_iff.mp e)

theorem dash_imp_colon (value : List Char) (h : '-' ∈ nodeIdOfParameter value) :
    ':' ∈ nodeIdOfParameter value := by
  unfold nodeIdOfParameter at h ⊢
  by_cases hc : ':' ∈ decodeColons value
  · rw [if_pos hc]
    exact hc
  · rw [if_neg hc] at h
    obtain ⟨c, _, hcx⟩ := List.mem_map.mp h
    by_cases hd : c = '-'
    · rw [if_pos hd] at hcx
      cases hcx
    · rw [if_neg hd] at hcx
      exact absurd hcx hd

theorem asString_ne_empty (l : List Char) (h : l ≠ []) : l.asString ≠ "" := by
  intro e
  apply h
  have : l.asString.data = [] := by rw [e]
  exact this

theorem convertFigma_of_parsed {P C : Type} (env : FigmaEnv P C) (body : Body) (url : String)
    (key value : List Char) (hu : body.url = some url)
    (hk : matchFileKey url.data = some key) (hv : matchNodeId url.data = some value) :
    convertFigma env body =
      convertFigma.afterNodes env body key.asString (nodeIdOfParameter value).asString
        (convertFigma.nodePhase env key.asString (nodeIdOfParameter value).asString) := by
  have hne : url ≠ "" := by
    intro e
    rw [e] at hk
    cases hk
  have hid : (nodeIdOfParameter value).asString ≠ "" :=
    asString_ne_empty _ (nodeIdOfParameter_ne_nil value (matchNodeId_ne_nil _ _ hv))
  unfold convertFigma
  simp only [hu, hne, if_false, hk, nodeId_eq, hv, Option.map_some', hid]

/-- C20: a request without url (or with an empty one), with a URL without
file key, or with a URL without `node-id` value is answered with status 400
and causes no effect at all; for a URL with a file key and a `node-id` value
the first effect is the node request for the node id obtained from the value
by replacing every `%3A` by `:` and then, if no `:` is present, every `-` by
`:`, so that a node id that contains `-` also contains `:`. -/
theorem convertFigma_url_parsing {P C : Type} (env : FigmaEnv P C) (body : Body) :
    (body.url = none ∨ body.url = some "" →
        convertFigma env body = (.badRequest "Figma URL is required", [])) ∧
      (∀ url, body.url = some url → url ≠ "" → matchFileKey url.data = none →
        convertFigma env body = (.badRequest "Invalid Figma URL format.", [])) ∧
      (∀ url key, body.url = some url → matchFileKey url.data = some key →
        matchNodeId url.data = none →
        convertFigma env body =
          (.badRequest "Please provide a Figma URL pointing to a specific Frame (node-id).",
            [])) ∧
      (∀ url key value, body.url = some url → matchFileKey url.data = some key →
        matchNodeId url.data = some value →
        convertFigma.nodeId url = some (nodeIdOfParameter value).asString ∧
          (convertFigma env body).2.head? =
            some (.nodesRequest key.asString env.figmaToken (nodeIdOfParameter value).asString) ∧
          ('-' ∈ nodeIdOfParameter value → ':' ∈ nodeIdOfParameter value)) ∧
      (∀ error, (Reply.badRequest error : Reply P C).status = 400) := by
  refine ⟨?_, ?_, ?_, ?_, fun _ => rfl⟩
  · rintro (h | h) <;> simp [convertFigma, h]
  · intro url hu hne hk
    simp [convertFigma, hu, hne, hk]
  · intro url key hu hk hv
    have hne : url ≠ "" := by
      intro e
      rw [e] at hk
      cases hk
    simp [convertFigma, hu, hne, hk, nodeId_eq, hv]
  · intro url key value hu hk hv
    refine ⟨by rw [nodeId_eq, hv]; rfl, ?_, dash_imp_colon value⟩
    rw [convertFigma_of_parsed env body url key value hu hk hv]
    obtain ⟨rest, hr⟩ := afterNodes_trace env body key.asString
      (nodeIdOfParameter value).asString
      (convertFigma.nodePhase env key.asString (nodeIdOfParameter value).asString)
    obtain ⟨rest2, hr2⟩ := nodePhase_trace env key.asString (nodeIdOfParameter value).asString
    rw [hr, hr2]
    rfl

/-- Witness of C20: each rejected request, and the node id `12:34` obtained
from `12%3A34` and from `12-34`. -/
theorem convertFigma_url_parsing_witness :
    convertFigma sampleEnv { url := none, mode := none, customCSS := none } =
        (.badRequest "Figma URL is required", []) ∧
      convertFigma sampleEnv
          { url := some "https://example.com/file/KEY?node-id=1-2", mode := none,
            customCSS := none } =
        (.badRequest "Invalid Figma URL format.", []) ∧
      convertFigma sampleEnv
          { url := some "https://www.figma.com/file/KEY/Landing", mode := none,
            customCSS := none } =
        (.badRequest "Please provide a Figma URL pointing to a specific Frame (node-id).",
          []) ∧
      convertFigma.nodeId "https://www.figma.com/file/KEY/Landing?node-id=12%3A34&t=abc" =
        some "12:34" ∧
      (convertFigma sampleEnv
          { url := some "https://www.figma.com/design/KEY/Landing?node-id=12-34", mode := none,
            customCSS := none }).2.head? =
        some (.nodesRequest "KEY" "token" "12:34") :=
  ⟨(convertFigma_url_parsing sampleEnv _).1 (Or.inl rfl),
    (convertFigma_url_parsing sampleEnv _).2.1 _ rfl (by decide) (by decide),
    (convertFigma_url_parsing sampleEnv _).2.2.1 _ "KEY".data rfl (by decide) (by decide),
    ((convertFigma_url_parsing sampleEnv
      { url := some "https://www.figma.com/file/KEY/Landing?node-id=12%3A34&t=abc",
        mode := none, customCSS := none }).2.2.2.1
      "https://www.figma.com/file/KEY/Landing?node-id=12%3A34&t=abc" "KEY".data "12%3A34".data
      rfl (by decide) (by decide)).1,
    ((convertFigma_url_parsing sampleEnv
      { url := some "https://www.figma.com/design/KEY/Landing?node-id=12-34", mode := none,
        customCSS := none }).2.2.2.1
      "https://www.figma.com/design/KEY/Landing?node-id=12-34" "KEY".data "12-34".data
      rfl (by decide) (by decide)).2.1⟩
/-- C17: when the node-subtree request fails, or returns no document for the
node id, the handler goes on: step 2 ends with the token summary and the
component summary absent and the design context `Node data unavailable.`,
the next effects are those of the whole-frame image fetch, the prompt is the
mode prompt with nothing appended, and when the image fetch and the vision
request succeed the answer is a status 200 with both summaries absent. -/
theorem convertFigma_node_fetch_fails {P C : Type} (env : FigmaEnv P C) (body : Body)
    (url : String) (key value : List Char) (hu : body.url = some url)
    (hk : matchFileKey url.data = some key) (hv : matchNodeId url.data = some value)
    (hfail : (∃ err, env.nodes key.asString (nodeIdOfParameter value).asString = .error err) ∨
      env.nodes key.asString (nodeIdOfParameter value).asString = .ok none) :
    convertFigma.nodePhase env key.asString (nodeIdOfParameter value).asString =
        ⟨"Node data unavailable.", none, none,
          [.nodesRequest key.asString env.figmaToken (nodeIdOfParameter value).asString]⟩ ∧
      convertFigma.prompt env.generatePrompt body.mode body.customCSS "Node data unavailable." =
        env.generatePrompt body.mode body.customCSS ∧
      (∃ rest, (convertFigma env body).2 =
        .nodesRequest key.asString env.figmaToken (nodeIdOfParameter value).asString ::
          ((convertFigma.downloadImage env.frame key.asString env.figmaToken
            (nodeIdOfParameter value).asString).2.map Step.effect ++ rest)) ∧
      (∀ imageBuffer fullText,
        (convertFigma.downloadImage env.frame key.asString env.figmaToken
          (nodeIdOfParameter value).asString).1 = .ok imageBuffer →
        env.vision (env.generatePrompt body.mode body.customCSS) imageBuffer = .ok fullText →
        convertFigma env body =
          (.json (extractHtml fullText) none none,
            .nodesRequest key.asString env.figmaToken (nodeIdOfParameter value).asString ::
              ((convertFigma.downloadImage env.frame key.asString env.figmaToken
                (nodeIdOfParameter value).asString).2.map Step.effect ++
                [.visionRequest (env.generatePrompt body.mode body.customCSS) imageBuffer]))) := by
  have hphase := nodePhase_unavailable env key.asString (nodeIdOfParameter value).asString hfail
  have hconv := convertFigma_of_parsed env body url key value hu hk hv
  rw [hphase] at hconv
  refine ⟨hphase, prompt_unavailable _ _ _, ?_, ?_⟩
  · obtain ⟨rest, hr⟩ := afterNodes_trace env body key.asString
      (nodeIdOfParameter value).asString
      ⟨"Node data unavailable.", none, none,
        [.nodesRequest key.asString env.figmaToken (nodeIdOfParameter value).asString]⟩
    exact ⟨rest, by rw [hconv, hr]; rfl⟩
  · intro imageBuffer fullText hd hvis
    rw [hconv, afterNodes_ok env body key.asString (nodeIdOfParameter value).asString _
      imageBuffer fullText hd (by simpa [prompt_unavailable] using hvis)]
    simp [prompt_unavailable]

/-- Witness of C17: a node request answered with HTTP 404 is followed by the
whole-frame fetch and the vision request with the mode prompt, and the answer
is a status 200 without summaries. -/
theorem convertFigma_node_fetch_fails_witness :
    convertFigma unavailableEnv sampleBody =
      (.json "<p>Hi</p>" none none,
        [.nodesRequest "KEY" "token" "0:1",
          .effect (.imagesRequest "KEY" "token" "0:1" Scale.two),
          .effect (.download "https://cdn/frame"),
          .visionRequest "MODE PROMPT" [137, 80, 78, 71]]) :=
  (convertFigma_node_fetch_fails unavailableEnv sampleBody
    "https://www.figma.com/design/KEY/Landing?node-id=0-1&t=abc" "KEY".data "0-1".data rfl
    (by decide) (by decide) (Or.inl ⟨.http 404, rfl⟩)).2.2.2 [137, 80, 78, 71]
    "Here is the page:\n```html\n<p>Hi</p>\n```" (by decide) rfl

theorem assetBlock_no_vision {P C : Type} (env : FigmaEnv P C) (fileKey : String)
    (nodeData : Node) (p : String) (i : Bytes) :
    Step.visionRequest p i ∉ (convertFigma.assetBlock env fileKey nodeData).2 := by
  unfold convertFigma.assetBlock
  simp only
  split
  · split
    · intro h
      simp only [List.mem_append, List.mem_map, List.mem_singleton] at h
      rcases h with ⟨e, _, he⟩ | h
      · cases he
      · cases h
    · intro h
      obtain ⟨e, _, he⟩ := List.mem_map.mp h
      cases he
  · intro h
    cases h

theorem nodePhase_no_vision {P C : Type} (env : FigmaEnv P C) (fileKey nodeId : String)
    (p : String) (i : Bytes) :
    Step.visionRequest p i ∉ (convertFigma.nodePhase env fileKey nodeId).trace := by
  have hb := fun nodeData => assetBlock_no_vision env fileKey nodeData p i
  unfold convertFigma.nodePhase
  simp only [convertFigma.designContext]
  split
  · simp
  · simp
  · split
    · simp
    · split
      · simp
      · simp [hb]

/-- For every request and every environment, the prompt of the vision request
is the mode prompt alone: step 2 always ends with the design context
`Node data unavailable.`, which step 4 does not append. -/
theorem convertFigma_prompt {P C : Type} (env : FigmaEnv P C) (body : Body)
    (prompt : String) (image : Bytes)
    (h : Step.visionRequest prompt image ∈ (convertFigma env body).2) :
    prompt = env.generatePrompt body.mode body.customCSS := by
  unfold convertFigma at h
  split at h
  · cases h
  · split at h
    · cases h
    · split at h
      · cases h
      · split at h
        · cases h
        · split at h
          · cases h
          · have := afterNodes_prompt env body _ _ _ prompt image
              (fun p i => nodePhase_no_vision env _ _ p i) h
            rw [this, nodePhase_designContext, prompt_unavailable]

/-- C18 fails on the code: for a request whose node request returns a
document with an image node, token extraction, component detection and the
asset download all succeed (the image is written and mapped), and the prompt
of the vision request is the mode prompt alone, without the section of the
design context and its list of local image assets. -/
theorem convertFigma_prompt_without_design_context :
    (downloadAssets heroUpstream sampleFileSystem "KEY"
        (some ((extractImageNodes (some sampleTree)).map some)) "token"
        (some "Hero Section")).1 =
      .ok [("1:2", "/assets/images/hero_section/1-2.png")] ∧
    sampleEnv.generatePrompt sampleBody.mode sampleBody.customCSS = "MODE PROMPT" ∧
    convertFigma sampleEnv sampleBody =
      (.json "<p>Hi</p>" (some "TOKENS") (some "COMPONENTS"),
        [.nodesRequest "KEY" "token" "0:1",
          .dump "figma_raw_data.json",
          .effect (.imagesRequest "KEY" "token" "1:2" Scale.two),
          .effect (.existsSync "/app/client/public/assets/images/hero_section"),
          .effect (.mkdirSync "/app/client/public/assets/images/hero_section"),
          .effect (.download "https://cdn/hero"),
          .effect (.writeFileSync "/app/client/public/assets/images/hero_section/1-2.png"),
          .dump "figma_processed_data.json",
          .effect (.imagesRequest "KEY" "token" "0:1" Scale.two),
          .effect (.download "https://cdn/frame"),
          .visionRequest "MODE PROMPT" [137, 80, 78, 71]]) := by
  decide

/-! ### The masked API key -/

theorem maskedKey_not_set (apiKey : String) (h : apiKey.data.length ≤ 10) :
    maskedKey apiKey = "Not Set" := by
  unfold maskedKey
  rw [if_neg (by omega)]

theorem maskedKey_data (apiKey : String) (h : 10 < apiKey.data.length) :
    (maskedKey apiKey).data =
      apiKey.data.take 15 ++ ['.', '.', '.'] ++ apiKey.data.drop (apiKey.data.length - 4) := by
  unfold maskedKey
  rw [if_pos h, String.data_append, String.data_append]
  rfl

theorem maskedKey_length (apiKey : String) (h : 10 < apiKey.data.length) :
    (maskedKey apiKey).data.length = min 15 apiKey.data.length + 7 := by
  rw [maskedKey_data apiKey h]
  simp only [List.length_append, List.length_take, List.length_drop, List.length_cons,
    List.length_nil]
  omega

theorem maskedKey_shows_short_key (apiKey : String) (h1 : 10 < apiKey.data.length)
    (h2 : apiKey.data.length ≤ 15) :
    apiKey.data <+: (maskedKey apiKey).data := by
  rw [maskedKey_data apiKey h1, List.take_of_length_le h2, List.append_assoc]
  exact List.prefix_append _ _

theorem maskedKey_hides_long_key (apiKey : String) (h : 22 < apiKey.data.length) :
    ¬ apiKey.data <:+: (maskedKey apiKey).data := by
  intro hin
  have hle := hin.length_le
  rw [maskedKey_length apiKey (by omega)] at hle
  omega

/-- C21 fails on the code: a key of 12 characters is longer than 10, so it is
masked by its first 15 characters, which are the whole key; the masked form
starts with the full key, and the handler embeds it in its error answer. For
a key of at most 10 characters the masked form is `Not Set`. -/
theorem maskedKey_shows_whole_key :
    maskedKey "sk-test-1234" = "sk-test-1234...1234" ∧
      ("sk-test-1234" : String).data <:+: (maskedKey "sk-test-1234").data ∧
      (convertFigma shortKeyEnv sampleBody).1 =
        .failed (.http 401) "sk-test-1234...1234" ∧
      maskedKey "sk-test-12" = "Not Set" := by
  decide

end FigmaToHtml
